import Mathlib

/-!
# D3D12Sample.cpp: subresource upload and frame synchronisation

A shallow embedding of the upload helpers (`MemcpySubresource`, both
`UpdateSubresources` overloads) and of the fence-based frame ring
(`WaitForFrame`, `WaitGPUIdle`, `Update`, `Render`, `Cleanup`, ...) of
`src/D3D12Sample.cpp`, followed by the properties proved about them.

Conventions of the embedding:

* machine integers are `Nat`/`Int`; every C++ expression whose type can wrap
  is followed by an explicit reduction (`% 2 ^ 32` for `UINT`, `% 2 ^ 64` for
  `UINT64`, `% 2 ^ w` for `SIZE_T`, `Int.bmod _ (2 ^ w)` for `LONG_PTR`);
* a pointer is a byte address of the memory it points into, and
  pointer-plus-integer is addition reduced to the pointer width (`% 2 ^ w`);
  for the mapped staging memory the addresses are counted from its start;
* C arrays passed by pointer are functions from the index.
-/

namespace D3D12Sample

/-! ## Machine types -/

/-- One byte of CPU-visible memory. -/
abbrev BYTE := Fin 256

/-- The two targets the sample is built for; they differ in the width of
`SIZE_T` and `LONG_PTR`. -/
inductive Arch
  | x86
  | x64
  deriving DecidableEq, Repr

/-- Width in bits of `SIZE_T` / `LONG_PTR` / a data pointer. -/
def Arch.bits : Arch → Nat
  | .x86 => 32
  | .x64 => 64

/-- The value of `(SIZE_T)-1`, also `SIZE_MAX`. -/
def SIZE_T_MAX (a : Arch) : Nat := 2 ^ a.bits - 1

/-- Result of an expression of type `UINT`. -/
def asUINT (n : Nat) : Nat := n % 2 ^ 32

/-- Result of an expression of type `UINT64`. -/
def asUINT64 (n : Nat) : Nat := n % 2 ^ 64

/-- Result of an expression of type `SIZE_T`. -/
def asSIZE_T (a : Arch) (n : Nat) : Nat := n % 2 ^ a.bits

/-- Result of a pointer-sized product with a `LONG_PTR` operand, read as a
signed byte displacement (two's complement wrap-around). -/
def asLONG_PTR (a : Arch) (n : Int) : Int := Int.bmod n (2 ^ a.bits)

/-! ## D3D12 data types used by the upload helpers -/

inductive D3D12_RESOURCE_DIMENSION
  | UNKNOWN
  | BUFFER
  | TEXTURE1D
  | TEXTURE2D
  | TEXTURE3D
  deriving DecidableEq, Repr

structure D3D12_RESOURCE_DESC where
  Dimension : D3D12_RESOURCE_DIMENSION
  Width : Nat
  Height : Nat
  DepthOrArraySize : Nat
  MipLevels : Nat
  Format : Nat
  deriving DecidableEq, Repr

structure D3D12_SUBRESOURCE_FOOTPRINT where
  Format : Nat
  Width : Nat
  Height : Nat
  Depth : Nat
  RowPitch : Nat
  deriving DecidableEq, Repr

structure D3D12_PLACED_SUBRESOURCE_FOOTPRINT where
  Offset : Nat
  Footprint : D3D12_SUBRESOURCE_FOOTPRINT
  deriving DecidableEq, Repr

/-- Source of one subresource: `pData` gives the byte found at a signed
displacement from the source pointer; the pitches are `LONG_PTR`. -/
structure D3D12_SUBRESOURCE_DATA where
  pData : Int → BYTE
  RowPitch : Int
  SlicePitch : Int

/-- Destination of one subresource copy: `pData` is the address the
destination pointer holds, for an upload counted from the start of the mapped
staging memory; the pitches are `SIZE_T`. -/
structure D3D12_MEMCPY_DEST where
  pData : Nat
  RowPitch : Nat
  SlicePitch : Nat
  deriving DecidableEq, Repr

structure D3D12_BOX where
  left : Nat
  top : Nat
  front : Nat
  right : Nat
  bottom : Nat
  back : Nat
  deriving DecidableEq, Repr

/-- The resources the program creates. -/
inductive Resource
  | g_VertexBuffer
  | g_IndexBuffer
  | g_Texture
  | vBufferUploadHeap
  | iBufferUploadHeap
  | textureUpload
  | g_DepthStencilBuffer
  | g_RenderTargets (i : Nat)
  | g_CbPerObjectUploadHeaps (i : Nat)
  | g_ConstantBufferUploadHeap (i : Nat)
  deriving DecidableEq, Repr

/-- What the upload helpers read of an `ID3D12Resource*`: its identity and the
result of `GetDesc()`. -/
structure ID3D12Resource where
  name : Resource
  Desc : D3D12_RESOURCE_DESC
  deriving DecidableEq, Repr

inductive D3D12_RESOURCE_STATES
  | PRESENT
  | RENDER_TARGET
  | COPY_DEST
  | GENERIC_READ
  | DEPTH_WRITE
  | VERTEX_AND_CONSTANT_BUFFER
  | INDEX_BUFFER
  | PIXEL_SHADER_RESOURCE
  deriving DecidableEq, Repr

/-- Commands recorded on `g_CommandList` / `pCmdList`. -/
inductive Command
  | CopyBufferRegion (pDstBuffer : Resource) (DstOffset : Nat) (pSrcBuffer : Resource)
      (SrcOffset NumBytes : Nat)
  | CopyTextureRegion (pDst : Resource) (SubresourceIndex DstX DstY DstZ : Nat)
      (pSrc : Resource) (PlacedFootprint : D3D12_PLACED_SUBRESOURCE_FOOTPRINT)
      (pSrcBox : Option D3D12_BOX)
  | ResourceBarrier (pResource : Resource) (StateBefore StateAfter : D3D12_RESOURCE_STATES)
  | OMSetRenderTargets (rtvSlot : Nat)
  | ClearDepthStencilView
  | ClearRenderTargetView (rtvSlot : Nat)
  | SetPipelineState
  | SetGraphicsRootSignature
  | SetDescriptorHeaps (heapSlot : Nat)
  | SetGraphicsRootDescriptorTable (RootParameterIndex heapSlot : Nat)
  | RSSetViewports
  | RSSetScissorRects
  | IASetPrimitiveTopology
  | IASetVertexBuffers
  | IASetIndexBuffer
  | SetGraphicsRootConstantBufferView (RootParameterIndex cbSlot byteOffset : Nat)
  | DrawIndexedInstanced
  deriving DecidableEq, Repr

/-! ## Loops -/

/-- The loop `for (UINT i = 0; i < n; ++i) s = body(i, s);`. -/
def forLoop {σ : Type} (body : Nat → σ → σ) : Nat → σ → σ
  | 0, s => s
  | n + 1, s => body n (forLoop body n s)

/-- The same loop with a body that can leave the enclosing function:
`.error s` is the state at the `return`, `.ok s` the state after the loop. -/
def forLoopE {σ : Type} (body : Nat → σ → Except σ σ) : Nat → σ → Except σ σ
  | 0, s => .ok s
  | n + 1, s =>
    match forLoopE body n s with
    | .ok s1 => body n s1
    | .error s1 => .error s1

/-- The loop `for (i = 0; i < n; ++i)` with a body that may fail to return. -/
def forLoopO {σ : Type} (body : Nat → σ → Option σ) : Nat → σ → Option σ
  | 0, s => some s
  | n + 1, s =>
    match forLoopO body n s with
    | some s1 => body n s1
    | none => none

/-! ## MemcpySubresource -/

/-- One call of `memcpy`: `len` bytes to staging offset `dst` from source
displacement `src`. -/
structure MemcpyCall where
  dst : Nat
  src : Int
  len : Nat
  deriving DecidableEq, Repr

/-- The mapped staging memory together with the `memcpy` calls made on it. -/
structure Staging where
  bytes : Nat → BYTE
  calls : List MemcpyCall

/-- The effect of `memcpy(dst, src + srcOff, n)` on the staging memory. -/
def memcpy (st : Staging) (dst : Nat) (src : Int → BYTE) (srcOff : Int) (n : Nat) : Staging :=
  { bytes := fun p =>
      if dst ≤ p ∧ p < dst + n then src (srcOff + ((p - dst : Nat) : Int)) else st.bytes p
    calls := st.calls ++ [⟨dst, srcOff, n⟩] }

/-- The address `d` bytes from address `q`: pointer-plus-integer, reduced to
the pointer width. -/
def ptrAdd (a : Arch) (q : Nat) (d : Int) : Nat :=
  (((q : Int) + d) % ((2 ^ a.bits : Nat) : Int)).toNat

/-- The bytes seen through `pSrc->pData`, by displacement from the pointer.
`srcAt = none`: the pointer points to memory apart from `mem`, and the bytes
are those of `pSrc.pData`. `srcAt = some q`: the pointer is the address `q` of
`mem` itself, and the bytes are read from `mem` as it is at that moment. -/
def srcBytes (a : Arch) (pSrc : D3D12_SUBRESOURCE_DATA) (srcAt : Option Nat)
    (mem : Nat → BYTE) : Int → BYTE :=
  match srcAt with
  | none => pSrc.pData
  | some q => fun d => mem (ptrAdd a q d)

/-- `MemcpySubresource` (lines 229-247) on the memory `st` the destination
pointer points into; `srcAt` says whether the source pointer points into that
memory as well (see `srcBytes`). Both pointer sums are reduced to the pointer
width, the source one as a signed displacement from `pSrc->pData`. -/
def MemcpySubresource (a : Arch) (pDest : D3D12_MEMCPY_DEST) (pSrc : D3D12_SUBRESOURCE_DATA)
    (srcAt : Option Nat) (RowSizeInBytes NumRows NumSlices : Nat) (st : Staging) : Staging :=
  forLoop (fun z st =>
    let pDestSlice := asSIZE_T a (pDest.pData + asSIZE_T a (pDest.SlicePitch * z))
    let pSrcSlice := asLONG_PTR a (pSrc.SlicePitch * z)
    forLoop (fun y st =>
      memcpy st (asSIZE_T a (pDestSlice + asSIZE_T a (pDest.RowPitch * y)))
        (srcBytes a pSrc srcAt st.bytes)
        (asLONG_PTR a (pSrcSlice + asLONG_PTR a (pSrc.RowPitch * y))) RowSizeInBytes)
      NumRows st)
    NumSlices st

/-! ## UpdateSubresources -/

/-- CPU-side actions of an upload on the staging resource, in program order. -/
inductive UpEvent
  | Map (succeeded : Bool)
  | memcpy (i : Nat) (c : MemcpyCall)
  | Unmap
  deriving DecidableEq, Repr

/-- What an upload can change: the bytes of the staging resource
(`pIntermediate`), the CPU-side actions performed on it, and the commands
recorded on `pCmdList`. -/
structure UploadState where
  bytes : Nat → BYTE
  trace : List UpEvent
  cmdList : List Command

/-- The validation at lines 274-278; `true` means `return 0`. -/
def validationFails (a : Arch) (pDestinationResource pIntermediate : ID3D12Resource)
    (FirstSubresource NumSubresources RequiredSize : Nat)
    (pLayouts : Nat → D3D12_PLACED_SUBRESOURCE_FOOTPRINT) : Bool :=
  let IntermediateDesc := pIntermediate.Desc
  let DestinationDesc := pDestinationResource.Desc
  decide (IntermediateDesc.Dimension ≠ D3D12_RESOURCE_DIMENSION.BUFFER) ||
  decide (IntermediateDesc.Width < asUINT64 (RequiredSize + (pLayouts 0).Offset)) ||
  decide (RequiredSize > SIZE_T_MAX a) ||
  (decide (DestinationDesc.Dimension = D3D12_RESOURCE_DIMENSION.BUFFER) &&
    (decide (FirstSubresource ≠ 0) || decide (NumSubresources ≠ 1)))

/-- Lines 293-294: the rows of subresource `i` are copied to the mapped
staging memory; the `memcpy` calls are added to the trace with their `i`. The
sources are the caller's arrays, apart from the mapped staging memory. -/
def copyRows (a : Arch)
    (pLayouts : Nat → D3D12_PLACED_SUBRESOURCE_FOOTPRINT) (pNumRows pRowSizesInBytes : Nat → Nat)
    (pSrcData : Nat → D3D12_SUBRESOURCE_DATA) (i : Nat) (s : UploadState) : UploadState :=
  let DestData : D3D12_MEMCPY_DEST :=
    { pData := asSIZE_T a ((pLayouts i).Offset)
      RowPitch := (pLayouts i).Footprint.RowPitch
      SlicePitch := asUINT ((pLayouts i).Footprint.RowPitch * pNumRows i) }
  let st := MemcpySubresource a DestData (pSrcData i) none (pRowSizesInBytes i) (pNumRows i)
    (pLayouts i).Footprint.Depth ⟨s.bytes, []⟩
  { s with bytes := st.bytes, trace := s.trace ++ st.calls.map (UpEvent.memcpy i) }

/-- Body of the loop at lines 290-295 for subresource `i`; `.error` is the
`return 0` of line 292. -/
def copySubresource (a : Arch)
    (pLayouts : Nat → D3D12_PLACED_SUBRESOURCE_FOOTPRINT) (pNumRows pRowSizesInBytes : Nat → Nat)
    (pSrcData : Nat → D3D12_SUBRESOURCE_DATA) (i : Nat) (s : UploadState) :
    Except UploadState UploadState :=
  if pRowSizesInBytes i > SIZE_T_MAX a then .error s
  else .ok (copyRows a pLayouts pNumRows pRowSizesInBytes pSrcData i s)

/-- The GPU copy commands of lines 298-320. The `SrcBox` local of the buffer
branch is never used and is left out. -/
def recordCopies (pDestinationResource pIntermediate : ID3D12Resource)
    (FirstSubresource NumSubresources : Nat)
    (pLayouts : Nat → D3D12_PLACED_SUBRESOURCE_FOOTPRINT) (s : UploadState) : UploadState :=
  if pDestinationResource.Desc.Dimension = D3D12_RESOURCE_DIMENSION.BUFFER then
    { s with cmdList := s.cmdList ++ [Command.CopyBufferRegion pDestinationResource.name 0
        pIntermediate.name (pLayouts 0).Offset (pLayouts 0).Footprint.Width] }
  else
    forLoop (fun i s =>
      { s with cmdList := s.cmdList ++ [Command.CopyTextureRegion pDestinationResource.name
          (asUINT (i + FirstSubresource)) 0 0 0 pIntermediate.name (pLayouts i) none] })
      NumSubresources s

/-- The 10-argument `UpdateSubresources` (lines 259-322). `mapOk` is whether
`pIntermediate->Map` succeeds. Returns the `UINT64` result and the state. -/
def UpdateSubresources (a : Arch) (mapOk : Bool)
    (pDestinationResource pIntermediate : ID3D12Resource)
    (FirstSubresource NumSubresources RequiredSize : Nat)
    (pLayouts : Nat → D3D12_PLACED_SUBRESOURCE_FOOTPRINT) (pNumRows pRowSizesInBytes : Nat → Nat)
    (pSrcData : Nat → D3D12_SUBRESOURCE_DATA) (s : UploadState) : Nat × UploadState :=
  if validationFails a pDestinationResource pIntermediate FirstSubresource NumSubresources
      RequiredSize pLayouts then (0, s)
  else
    let s1 := { s with trace := s.trace ++ [UpEvent.Map mapOk] }
    if !mapOk then (0, s1)
    else
      match forLoopE (copySubresource a pLayouts pNumRows pRowSizesInBytes pSrcData)
          NumSubresources s1 with
      | .error s2 => (0, s2)
      | .ok s2 =>
        let s3 := { s2 with trace := s2.trace ++ [UpEvent.Unmap] }
        (RequiredSize, recordCopies pDestinationResource pIntermediate FirstSubresource
          NumSubresources pLayouts s3)

/-- Output of `ID3D12Device::GetCopyableFootprints`. -/
structure CopyableFootprints where
  pLayouts : Nat → D3D12_PLACED_SUBRESOURCE_FOOTPRINT
  pNumRows : Nat → Nat
  pRowSizesInBytes : Nat → Nat
  pTotalBytes : Nat

/-- The device query, an external collaborator: arguments are the resource
description, `FirstSubresource`, `NumSubresources` and `BaseOffset`. -/
abbrev FootprintQuery := D3D12_RESOURCE_DESC → Nat → Nat → Nat → CopyableFootprints

/-- `sizeof(D3D12_PLACED_SUBRESOURCE_FOOTPRINT) + sizeof(UINT) + sizeof(UINT64)`. -/
def scratchBytesPerSubresource : Nat := 32 + 4 + 8

/-- The 7-argument, heap-allocating `UpdateSubresources` (lines 334-367).
`heapAllocOk` is whether `HeapAlloc` returns non-null. -/
def UpdateSubresources_heap (a : Arch) (GetCopyableFootprints : FootprintQuery)
    (heapAllocOk mapOk : Bool) (pDestinationResource pIntermediate : ID3D12Resource)
    (IntermediateOffset FirstSubresource NumSubresources : Nat)
    (pSrcData : Nat → D3D12_SUBRESOURCE_DATA) (s : UploadState) : Nat × UploadState :=
  let MemToAlloc := asUINT64 (scratchBytesPerSubresource * NumSubresources)
  if MemToAlloc > SIZE_T_MAX a then (0, s)
  else if !heapAllocOk then (0, s)
  else
    let fp := GetCopyableFootprints pDestinationResource.Desc FirstSubresource NumSubresources
      IntermediateOffset
    UpdateSubresources a mapOk pDestinationResource pIntermediate FirstSubresource
      NumSubresources fp.pTotalBytes fp.pLayouts fp.pNumRows fp.pRowSizesInBytes pSrcData s

/-! ## Frame synchronisation: state, GPU and trace -/

/-- `FRAME_BUFFER_COUNT` (line 45): the length of every per-slot array. -/
def FRAME_BUFFER_COUNT : Nat := 3

/-- `ConstantBufferPerObjectAlignedSize` (line 109): `sizeof(ConstantBuffer1_VS)`,
one 4x4 float matrix, aligned up to 256. -/
def ConstantBufferPerObjectAlignedSize : Nat := 256

/-- Operations submitted to `g_CommandQueue` that the GPU has not executed yet. -/
inductive QueueOp
  | Execute
  | Signal (fence value : Nat)
  | Wait (fence value : Nat)
  deriving DecidableEq, Repr

/-- Objects released by `InitD3D` and `Cleanup`. -/
inductive Owned
  | resource (r : Resource)
  | allocation (r : Resource)
  | g_PipelineStateObject
  | g_RootSignature
  | g_FenceEvent
  | g_CommandList
  | g_CommandQueue
  | g_MainDescriptorHeap (i : Nat)
  | g_DepthStencilDescriptorHeap
  | g_RtvDescriptorHeap
  | g_CommandAllocators (i : Nat)
  | g_Fences (i : Nat)
  | g_Allocator
  | g_Device
  | g_SwapChain
  deriving DecidableEq, Repr

/-- Actions of the CPU thread, in program order. -/
inductive Event
  | GetCompletedValue (fence value : Nat)
  | SetEventOnCompletion (fence value : Nat)
  | WaitForSingleObject
  | AllocatorReset (slot : Nat)
  | ListReset (slot : Nat)
  | Record (c : Command)
  | ListClose
  | ExecuteCommandLists
  | Signal (fence value : Nat)
  | QueueWait (fence value : Nat)
  | Present
  | CpuWrite (buffer : Resource) (offset size : Nat)
  | Release (o : Owned)
  deriving DecidableEq, Repr

/-- A trace entry: the action together with what held at the moment it was
performed: the completed value of every fence, the fence targets
`g_FenceValues`, and whether the command list was recording. -/
structure Logged where
  ev : Event
  completed : Nat → Nat
  targets : Nat → Nat
  recording : Bool

/-- The globals that take part in frame synchronisation, the GPU side of the
fences and of the queue, and the trace of the CPU thread. -/
structure FrameState where
  g_FenceValues : Nat → Nat
  g_FrameIndex : Nat
  completed : Nat → Nat
  queue : List QueueOp
  recording : Bool
  trace : List Logged

/-- Append an action to the trace, with the current fence values. -/
def FrameState.log (s : FrameState) (e : Event) : FrameState :=
  { s with trace := s.trace ++ [⟨e, s.completed, s.g_FenceValues, s.recording⟩] }

/-- Append several actions to the trace. -/
def FrameState.logAll (s : FrameState) (es : List Event) : FrameState :=
  es.foldl FrameState.log s

/-- Record a command on `g_CommandList`. -/
def FrameState.record (s : FrameState) (c : Command) : FrameState :=
  s.log (Event.Record c)

/-- Submit an operation to `g_CommandQueue`. -/
def FrameState.enqueue (s : FrameState) (op : QueueOp) : FrameState :=
  { s with queue := s.queue ++ [op] }

/-- The GPU executes the operation at the head of the queue: a `Signal` sets
the fence, a queue-side `Wait` holds the queue until its fence has reached
the value. -/
def gpuStep (s : FrameState) : FrameState :=
  match s.queue with
  | [] => s
  | QueueOp.Execute :: q => { s with queue := q }
  | QueueOp.Signal f v :: q => { s with queue := q, completed := Function.update s.completed f v }
  | QueueOp.Wait f v :: q => if v ≤ s.completed f then { s with queue := q } else s

/-- The GPU executes up to `n` queued operations. -/
def gpuSteps : Nat → FrameState → FrameState
  | 0, s => s
  | n + 1, s => gpuSteps n (gpuStep s)

/-- The GPU runs until fence `f` has reached `v`; `none` when the queue is
exhausted or held before that, in which case a CPU wait on `(f, v)` never
returns. -/
def gpuRunUntil (f v : Nat) : List QueueOp → (Nat → Nat) → Option (List QueueOp × (Nat → Nat))
  | [], c => if v ≤ c f then some ([], c) else none
  | op :: q, c =>
    if v ≤ c f then some (op :: q, c)
    else
      match op with
      | QueueOp.Execute => gpuRunUntil f v q c
      | QueueOp.Signal g w => gpuRunUntil f v q (Function.update c g w)
      | QueueOp.Wait g w => if w ≤ c g then gpuRunUntil f v q c else none

/-! ## Frame synchronisation: the functions of the sample

Calls wrapped in `CHECK_HR` are taken to succeed. An index outside a per-slot
array and a wait that never returns give `none`. -/

/-- `WaitForFrame` (lines 196-209). -/
def WaitForFrame (frameIndex : Nat) (s : FrameState) : Option FrameState :=
  if frameIndex < FRAME_BUFFER_COUNT then
    let s1 := s.log (Event.GetCompletedValue frameIndex (s.completed frameIndex))
    if s1.completed frameIndex < s1.g_FenceValues frameIndex then
      let s2 := s1.log (Event.SetEventOnCompletion frameIndex (s1.g_FenceValues frameIndex))
      let s3 := s2.log Event.WaitForSingleObject
      match gpuRunUntil frameIndex (s3.g_FenceValues frameIndex) s3.queue s3.completed with
      | some (q, c) => some { s3 with queue := q, completed := c }
      | none => none
    else some s1
  else none

/-- `WaitGPUIdle` (lines 211-216). -/
def WaitGPUIdle (frameIndex : Nat) (s : FrameState) : Option FrameState :=
  if frameIndex < FRAME_BUFFER_COUNT then
    let target := asUINT64 (s.g_FenceValues frameIndex + 1)
    let s1 := { s with g_FenceValues := Function.update s.g_FenceValues frameIndex target }
    let s2 := (s1.log (Event.Signal frameIndex (s1.g_FenceValues frameIndex))).enqueue
      (QueueOp.Signal frameIndex (s1.g_FenceValues frameIndex))
    WaitForFrame frameIndex s2
  else none

/-- `Update` (lines 1163-1200): the three `memcpy` calls into the mapped
constant buffers of slot `g_FrameIndex` (a `vec4`, then two 4x4 matrices). -/
def Update (s : FrameState) : Option FrameState :=
  if s.g_FrameIndex < FRAME_BUFFER_COUNT then
    some (s.logAll
      [Event.CpuWrite (Resource.g_ConstantBufferUploadHeap s.g_FrameIndex) 0 16,
       Event.CpuWrite (Resource.g_CbPerObjectUploadHeaps s.g_FrameIndex) 0 64,
       Event.CpuWrite (Resource.g_CbPerObjectUploadHeaps s.g_FrameIndex)
         ConstantBufferPerObjectAlignedSize 64])
  else none

/-- The commands `Render` records for slot `i` (lines 1232-1291). -/
def renderCommands (i : Nat) : List Command :=
  [Command.ResourceBarrier (Resource.g_RenderTargets i) D3D12_RESOURCE_STATES.PRESENT
     D3D12_RESOURCE_STATES.RENDER_TARGET,
   Command.OMSetRenderTargets i,
   Command.ClearDepthStencilView,
   Command.ClearRenderTargetView i,
   Command.SetPipelineState,
   Command.SetGraphicsRootSignature,
   Command.SetDescriptorHeaps i,
   Command.SetGraphicsRootDescriptorTable 0 i,
   Command.SetGraphicsRootDescriptorTable 2 i,
   Command.RSSetViewports,
   Command.RSSetScissorRects,
   Command.IASetPrimitiveTopology,
   Command.IASetVertexBuffers,
   Command.IASetIndexBuffer,
   Command.SetGraphicsRootConstantBufferView 1 i 0,
   Command.DrawIndexedInstanced,
   Command.SetGraphicsRootConstantBufferView 1 i ConstantBufferPerObjectAlignedSize,
   Command.DrawIndexedInstanced,
   Command.ResourceBarrier (Resource.g_RenderTargets i) D3D12_RESOURCE_STATES.RENDER_TARGET
     D3D12_RESOURCE_STATES.PRESENT]

/-- `Render` (lines 1202-1310); `backBufferIndex` is what
`g_SwapChain->GetCurrentBackBufferIndex()` returns. -/
def Render (backBufferIndex : Nat) (s : FrameState) : Option FrameState :=
  let s0 := { s with g_FrameIndex := backBufferIndex }
  match WaitForFrame s0.g_FrameIndex s0 with
  | none => none
  | some s1 =>
    let i := s1.g_FrameIndex
    let target := asUINT64 (s1.g_FenceValues i + 1)
    let s2 := { s1 with g_FenceValues := Function.update s1.g_FenceValues i target }
    let s3 := s2.log (Event.AllocatorReset i)
    let s4 := { (s3.log (Event.ListReset i)) with recording := true }
    let s5 := s4.logAll ((renderCommands i).map Event.Record)
    let s6 := { (s5.log Event.ListClose) with recording := false }
    let s7 := (s6.log Event.ExecuteCommandLists).enqueue QueueOp.Execute
    let s8 := (s7.log (Event.Signal i (s7.g_FenceValues i))).enqueue
      (QueueOp.Signal i (s7.g_FenceValues i))
    some (s8.log Event.Present)

/-- `BeginCommandList` (lines 1424-1429). -/
def BeginCommandList (s : FrameState) : Option FrameState :=
  if s.g_FrameIndex < FRAME_BUFFER_COUNT then
    some { (s.log (Event.ListReset s.g_FrameIndex)) with recording := true }
  else none

/-- `EndCommandList` (lines 1431-1439), called with `g_CommandList`. -/
def EndCommandList (s : FrameState) : Option FrameState :=
  let s1 := { (s.log Event.ListClose) with recording := false }
  let s2 := (s1.log Event.ExecuteCommandLists).enqueue QueueOp.Execute
  WaitGPUIdle s2.g_FrameIndex s2

/-- Body of the first loop of `Cleanup` (lines 1315-1319). -/
def cleanupWait (i : Nat) (s : FrameState) : Option FrameState :=
  match WaitForFrame i s with
  | none => none
  | some s1 =>
    some ((s1.log (Event.QueueWait i (s1.g_FenceValues i))).enqueue
      (QueueOp.Wait i (s1.g_FenceValues i)))

/-- The releases of `Cleanup` (lines 1329-1369), in order. -/
def cleanupReleases : List Owned :=
  [Owned.resource Resource.g_Texture, Owned.allocation Resource.g_Texture,
   Owned.resource Resource.g_IndexBuffer, Owned.allocation Resource.g_IndexBuffer,
   Owned.resource Resource.g_VertexBuffer, Owned.allocation Resource.g_VertexBuffer,
   Owned.g_PipelineStateObject, Owned.g_RootSignature, Owned.g_FenceEvent,
   Owned.g_CommandList, Owned.g_CommandQueue] ++
  ([2, 1, 0].map fun i =>
    [Owned.resource (Resource.g_CbPerObjectUploadHeaps i),
     Owned.allocation (Resource.g_CbPerObjectUploadHeaps i),
     Owned.g_MainDescriptorHeap i,
     Owned.resource (Resource.g_ConstantBufferUploadHeap i),
     Owned.allocation (Resource.g_ConstantBufferUploadHeap i)]).flatten ++
  [Owned.g_DepthStencilDescriptorHeap, Owned.resource Resource.g_DepthStencilBuffer,
   Owned.allocation Resource.g_DepthStencilBuffer, Owned.g_RtvDescriptorHeap] ++
  ([2, 1, 0].map fun i =>
    [Owned.resource (Resource.g_RenderTargets i), Owned.g_CommandAllocators i,
     Owned.g_Fences i]).flatten ++
  [Owned.g_Allocator, Owned.g_Device, Owned.g_SwapChain]

/-- `Cleanup` (lines 1312-1370). The full-screen query of lines 1322-1325
touches neither the fences nor the queue and is left out. -/
def Cleanup (s : FrameState) : Option FrameState :=
  match forLoopO cleanupWait FRAME_BUFFER_COUNT s with
  | none => none
  | some s1 =>
    match WaitGPUIdle 0 s1 with
    | none => none
    | some s2 => some (s2.logAll (cleanupReleases.map Event.Release))

/-! ## InitD3D -/

/-- What `InitD3D` takes from outside: the target, the device's footprint
query, whether `HeapAlloc` succeeds for the upload to a destination, whether
`Map` succeeds on a staging resource, whether `assert` is compiled in, and
the bytes of `vList`, `iList` and `imageData`. -/
structure InitEnv where
  arch : Arch
  GetCopyableFootprints : FootprintQuery
  heapAllocOk : Resource → Bool
  mapOk : Resource → Bool
  assertsEnabled : Bool
  vList : Int → BYTE
  iList : Int → BYTE
  imageData : Int → BYTE

/-- `vBufferSize = sizeof(vList)`: 24 vertices of five floats. -/
def vBufferSize : Nat := 24 * 20

/-- `iBufferSize = sizeof(iList)`: 36 indices of type `uint16_t`. -/
def iBufferSize : Nat := 36 * 2

/-- A buffer description as filled in at lines 812-823, 828-839, 914-925, ... -/
def bufferDesc (width : Nat) : D3D12_RESOURCE_DESC :=
  { Dimension := .BUFFER, Width := width, Height := 1, DepthOrArraySize := 1, MipLevels := 1,
    Format := 0 }

/-- `textureDesc` (lines 1062-1073): 256x256, `DXGI_FORMAT_R8G8B8A8_UNORM`. -/
def textureDesc : D3D12_RESOURCE_DESC :=
  { Dimension := .TEXTURE2D, Width := 256, Height := 256, DepthOrArraySize := 1, MipLevels := 1,
    Format := 28 }

/-- `textureUploadBufferSize` (lines 1086-1095). -/
def textureUploadBufferSize (env : InitEnv) : Nat :=
  (env.GetCopyableFootprints textureDesc 0 1 0).pTotalBytes

/-- The staging buffer of the texture, `textureUpload` (lines 1097-1117): a
buffer whose `Width` is `textureUploadBufferSize`. -/
def textureUploadResource (env : InitEnv) : ID3D12Resource :=
  ⟨Resource.textureUpload, bufferDesc (textureUploadBufferSize env)⟩

/-- One call `UpdateSubresources(g_CommandList, dest, staging, 0, 0, 1, &src)`
of `InitD3D` on a fresh staging resource: the result and the state with the
recorded commands added to the trace. -/
def uploadAndRecord (env : InitEnv) (dest staging : ID3D12Resource)
    (src : D3D12_SUBRESOURCE_DATA) (s : FrameState) : Nat × FrameState :=
  let r := UpdateSubresources_heap env.arch env.GetCopyableFootprints (env.heapAllocOk dest.name)
    (env.mapOk staging.name) dest staging 0 0 1 (fun _ => src) ⟨fun _ => 0, [], []⟩
  (r.1, s.logAll (r.2.cmdList.map Event.Record))

/-- The commands one `UpdateSubresources` call of `InitD3D` records: what
`uploadAndRecord` adds to the trace. -/
def uploadCommands (env : InitEnv) (dest staging : ID3D12Resource)
    (src : D3D12_SUBRESOURCE_DATA) : List Command :=
  (UpdateSubresources_heap env.arch env.GetCopyableFootprints (env.heapAllocOk dest.name)
    (env.mapOk staging.name) dest staging 0 0 1 (fun _ => src) ⟨fun _ => 0, [], []⟩).2.cmdList

/-- The commands of the initial command list of `InitD3D` (lines 863-1133):
for the vertex buffer, the index buffer and the texture in turn, the copies
recorded by `UpdateSubresources` and then the barrier of the resource. -/
def initialCommands (env : InitEnv) : List Command :=
  uploadCommands env ⟨Resource.g_VertexBuffer, bufferDesc vBufferSize⟩
      ⟨Resource.vBufferUploadHeap, bufferDesc vBufferSize⟩ ⟨env.vList, vBufferSize, vBufferSize⟩
    ++ [Command.ResourceBarrier Resource.g_VertexBuffer D3D12_RESOURCE_STATES.COPY_DEST
        D3D12_RESOURCE_STATES.VERTEX_AND_CONSTANT_BUFFER]
    ++ uploadCommands env ⟨Resource.g_IndexBuffer, bufferDesc iBufferSize⟩
        ⟨Resource.iBufferUploadHeap, bufferDesc iBufferSize⟩ ⟨env.iList, iBufferSize, iBufferSize⟩
    ++ [Command.ResourceBarrier Resource.g_IndexBuffer D3D12_RESOURCE_STATES.COPY_DEST
        D3D12_RESOURCE_STATES.INDEX_BUFFER]
    ++ uploadCommands env ⟨Resource.g_Texture, textureDesc⟩ (textureUploadResource env)
        ⟨env.imageData, 256 * 4, 256 * 4 * 256⟩
    ++ [Command.ResourceBarrier Resource.g_Texture D3D12_RESOURCE_STATES.COPY_DEST
        D3D12_RESOURCE_STATES.PIXEL_SHADER_RESOURCE]

/-- The state when `InitD3D` has created the command list (line 537) and the
fences: every fence and every target at 0, the list recording. -/
def initialState (backBufferIndex : Nat) : FrameState :=
  { g_FenceValues := fun _ => 0
    g_FrameIndex := backBufferIndex
    completed := fun _ => 0
    queue := []
    recording := true
    trace := [] }

/-- The initial command list of `InitD3D` (lines 863-1153): the list is reset
on the allocator of `g_FrameIndex`, the three uploads and their barriers are
recorded, the list is closed and submitted. A failing `assert(r)` ends the
program. -/
def recordInitialUploads (env : InitEnv) (s1 : FrameState) : Option FrameState :=
  let s2 := { (s1.log (Event.ListReset s1.g_FrameIndex)) with recording := true }
  let v := uploadAndRecord env ⟨Resource.g_VertexBuffer, bufferDesc vBufferSize⟩
    ⟨Resource.vBufferUploadHeap, bufferDesc vBufferSize⟩
    ⟨env.vList, vBufferSize, vBufferSize⟩ s2
  if env.assertsEnabled && v.1 == 0 then none
  else
    let s3 := v.2.record (Command.ResourceBarrier Resource.g_VertexBuffer
      D3D12_RESOURCE_STATES.COPY_DEST D3D12_RESOURCE_STATES.VERTEX_AND_CONSTANT_BUFFER)
    let x := uploadAndRecord env ⟨Resource.g_IndexBuffer, bufferDesc iBufferSize⟩
      ⟨Resource.iBufferUploadHeap, bufferDesc iBufferSize⟩
      ⟨env.iList, iBufferSize, iBufferSize⟩ s3
    if env.assertsEnabled && x.1 == 0 then none
    else
      let s4 := x.2.record (Command.ResourceBarrier Resource.g_IndexBuffer
        D3D12_RESOURCE_STATES.COPY_DEST D3D12_RESOURCE_STATES.INDEX_BUFFER)
      let t := uploadAndRecord env ⟨Resource.g_Texture, textureDesc⟩
        (textureUploadResource env) ⟨env.imageData, 256 * 4, 256 * 4 * 256⟩ s4
      let s5 := t.2.record (Command.ResourceBarrier Resource.g_Texture
        D3D12_RESOURCE_STATES.COPY_DEST D3D12_RESOURCE_STATES.PIXEL_SHADER_RESOURCE)
      let s6 := { (s5.log Event.ListClose) with recording := false }
      some ((s6.log Event.ExecuteCommandLists).enqueue QueueOp.Execute)

/-- `InitD3D` (lines 369-1161) as far as the command list, the queue, the
fences and the uploads are concerned; `backBufferIndex` is what
`GetCurrentBackBufferIndex()` returns at line 486. -/
def InitD3D (env : InitEnv) (backBufferIndex : Nat) : Option FrameState :=
  let s0 := initialState backBufferIndex
  let s1 := { (s0.log Event.ListClose) with recording := false }
  if s1.g_FrameIndex < FRAME_BUFFER_COUNT then
    match recordInitialUploads env s1 with
    | none => none
    | some s7 =>
      match WaitGPUIdle s7.g_FrameIndex s7 with
      | none => none
      | some s8 =>
        some (s8.logAll
          [Event.Release (Owned.allocation Resource.textureUpload),
           Event.Release (Owned.allocation Resource.iBufferUploadHeap),
           Event.Release (Owned.allocation Resource.vBufferUploadHeap)])
  else none

/-! ## Executions -/

/-- One step of an execution after `InitD3D`: a call of one of the sample's
functions, or the GPU executing up to `n` queued operations. The GPU is a
completed counter per fence fed by the queue: it advances between calls, by
`Op.gpu`, and inside `WaitForFrame` while the CPU thread is blocked. -/
inductive Op
  | Update
  | Render (backBufferIndex : Nat)
  | WaitForFrame (frameIndex : Nat)
  | WaitGPUIdle (frameIndex : Nat)
  | BeginCommandList
  | EndCommandList
  | Cleanup
  | gpu (n : Nat)
  deriving DecidableEq, Repr

/-- The effect of one step; `none` when the step does not return. -/
def step : Op → FrameState → Option FrameState
  | Op.Update, s => Update s
  | Op.Render bb, s => Render bb s
  | Op.WaitForFrame i, s => WaitForFrame i s
  | Op.WaitGPUIdle i, s => WaitGPUIdle i s
  | Op.BeginCommandList, s => BeginCommandList s
  | Op.EndCommandList, s => EndCommandList s
  | Op.Cleanup, s => Cleanup s
  | Op.gpu n, s => some (gpuSteps n s)

/-- The effect of a sequence of steps. -/
def run : List Op → FrameState → Option FrameState
  | [], s => some s
  | op :: ops, s =>
    match step op s with
    | none => none
    | some s1 => run ops s1

/-- The slot whose fence target a step advances, if any: `Render` advances the
slot of the back buffer, `WaitGPUIdle` its argument, `EndCommandList` the
current `g_FrameIndex`, `Cleanup` slot 0. -/
def Op.acquires : Op → FrameState → Option Nat
  | Op.Render bb, _ => some bb
  | Op.WaitGPUIdle i, _ => some i
  | Op.EndCommandList, s => some s.g_FrameIndex
  | Op.Cleanup, _ => some 0
  | _, _ => none

/-- The main loop (lines 1489-1498) for the given back-buffer indices, with
the GPU executing up to `delay k` operations before iteration `k`. -/
def mainLoop (delay : Nat → Nat) : (backBuffers : List Nat) → (k : Nat) → List Op
  | [], _ => []
  | bb :: bbs, k => Op.gpu (delay k) :: Op.Update :: Op.Render bb :: mainLoop delay bbs (k + 1)

/-- Frames rendered on the given back buffers, without `Update`, with the GPU
executing up to `delay k` operations before frame `k`. -/
def frames (delay : Nat → Nat) : (backBuffers : List Nat) → (k : Nat) → List Op
  | [], _ => []
  | bb :: bbs, k => Op.gpu (delay k) :: Op.Render bb :: frames delay bbs (k + 1)

/-- Ten frames, frame `k` on slot `k mod 3`, with the GPU executing up to
`delay k` operations before frame `k`. -/
def tenFrames (delay : Nat → Nat) : List Op :=
  frames delay ((List.range 10).map (· % 3)) 0

/-- The CPU-side bookkeeping of a run of frames: for every frame its slot and
the target that slot has when the frame starts, which is what `Render` waits
for before it resets the allocator. -/
def frameWaits : (backBuffers : List Nat) → (targets : Nat → Nat) → List (Nat × Nat)
  | [], _ => []
  | bb :: bbs, g =>
    (bb, g bb) :: frameWaits bbs (Function.update g bb (asUINT64 (g bb + 1)))

/-- For every frame its slot and the target it signals at its submission. -/
def frameSignals : (backBuffers : List Nat) → (targets : Nat → Nat) → List (Nat × Nat)
  | [], _ => []
  | bb :: bbs, g =>
    (bb, asUINT64 (g bb + 1)) :: frameSignals bbs (Function.update g bb (asUINT64 (g bb + 1)))

/-! ## Properties read off a trace -/

/-- The value of the latest `Signal` on fence `S` in a trace: the trace is
scanned from its start and every `Signal` on `S` replaces the value kept. -/
def lastSignal (S : Nat) (t : List Logged) : Option Nat :=
  t.foldl (fun acc l =>
    match l.ev with
    | Event.Signal f v => if f = S then some v else acc
    | _ => acc) none

/-- No premature reuse: whenever the command allocator of a slot is reset, the
fence of that slot has reached the value last signalled on it. -/
def NoPrematureReset (t : List Logged) : Prop :=
  ∀ pre e post S, t = pre ++ e :: post → e.ev = Event.AllocatorReset S →
    ∀ v, lastSignal S pre = some v → v ≤ e.completed S

/-- Events that are neither a `Signal` nor an `AllocatorReset`. -/
def Event.quiet : Event → Bool
  | Event.Signal _ _ => false
  | Event.AllocatorReset _ => false
  | _ => true

/-- The fence targets agree with the queue: the target of a slot is the value
last signalled on its fence. -/
def TargetsMatchSignals (s : FrameState) : Prop :=
  ∀ S v, lastSignal S s.trace = some v → s.g_FenceValues S = v

/-- `s1` is `s` after actions that keep the fence targets, the fences and the
frame index, may submit command lists for execution, and add only quiet
actions to the trace. -/
def QuietExt (s s1 : FrameState) : Prop :=
  s1.g_FenceValues = s.g_FenceValues ∧ s1.g_FrameIndex = s.g_FrameIndex ∧
  s1.completed = s.completed ∧
  (∃ n, s1.queue = s.queue ++ List.replicate n QueueOp.Execute) ∧
  ∃ ls, s1.trace = s.trace ++ ls ∧ ∀ l, l ∈ ls → l.ev.quiet = true

/-- The ring slot a per-slot constant-buffer resource belongs to. -/
def Resource.slotOf : Resource → Option Nat
  | Resource.g_ConstantBufferUploadHeap i => some i
  | Resource.g_CbPerObjectUploadHeaps i => some i
  | _ => none

/-- The CPU writes into per-slot constant buffers found in a trace, each with
the completed value of the fence of its slot and the target of its slot at
the moment of the write. -/
def cpuWrites (t : List Logged) : List (Event × Nat × Nat) :=
  t.filterMap fun l =>
    match l.ev with
    | Event.CpuWrite b _ _ => (Resource.slotOf b).map fun S => (l.ev, l.completed S, l.targets S)
    | _ => none

/-- The value of the last `Signal` on fence `S` waiting in the queue. -/
def lastQueuedSignal (S : Nat) : List QueueOp → Option Nat
  | [] => none
  | op :: q =>
    match lastQueuedSignal S q with
    | some v => some v
    | none =>
      match op with
      | QueueOp.Signal f v => if f = S then some v else none
      | _ => none

/-- The queue will bring every fence to its target: no queue-side `Wait` is
pending, and for every slot either the last `Signal` queued on its fence
carries the target, or none is queued and the fence has reached the target. -/
def Live (g : Nat → Nat) (q : List QueueOp) (c : Nat → Nat) : Prop :=
  (∀ f v, QueueOp.Wait f v ∉ q) ∧
  ∀ S, match lastQueuedSignal S q with
    | some v => v = g S
    | none => g S ≤ c S

/-- No queue-side `Wait` of the queue will hold the GPU: when the GPU,
executing the queue from the fence values `c`, gets to it, its fence has
reached the value. -/
def Settles : List QueueOp → (Nat → Nat) → Prop
  | [], _ => True
  | QueueOp.Execute :: q, c => Settles q c
  | QueueOp.Signal f v :: q, c => Settles q (Function.update c f v)
  | QueueOp.Wait f v :: q, c => v ≤ c f ∧ Settles q c

/-- The queue will bring every fence to its target, whatever queue-side waits
it holds: none of them holds the GPU, and for every slot either the last
`Signal` queued on its fence carries the target, or none is queued and the
fence has reached the target. -/
def Drains (g : Nat → Nat) (q : List QueueOp) (c : Nat → Nat) : Prop :=
  Settles q c ∧
  ∀ S, match lastQueuedSignal S q with
    | some v => v = g S
    | none => g S ≤ c S

/-- Actions on the command list while it records: its reset and the commands
recorded on it. -/
def Event.isListWork : Event → Bool
  | Event.ListReset _ => true
  | Event.Record _ => true
  | _ => false

/-- `s1` is `s` after the command list was reset and commands were recorded
on it: the fences, their targets, the frame index and the queue are those of
`s`. -/
def RecordExt (s s1 : FrameState) : Prop :=
  s1.g_FenceValues = s.g_FenceValues ∧ s1.g_FrameIndex = s.g_FrameIndex ∧
  s1.completed = s.completed ∧ s1.queue = s.queue ∧
  ∃ ls, s1.trace = s.trace ++ ls ∧ ∀ l, l ∈ ls → l.ev.isListWork = true

/-- The allocator resets of a trace, in order. -/
def allocatorResets (t : List Logged) : List Logged :=
  t.filter fun l => match l.ev with
    | Event.AllocatorReset _ => true
    | _ => false

/-- The `(fence, value)` pairs signalled in a trace, in order. -/
def signals (t : List Logged) : List (Nat × Nat) :=
  t.filterMap fun l => match l.ev with
    | Event.Signal f v => some (f, v)
    | _ => none

/-- The actions of a trace, without the values recorded with them. -/
def events (t : List Logged) : List Event := t.map Logged.ev

/-- Whether an action releases an object. -/
def Event.isRelease : Event → Bool
  | Event.Release _ => true
  | _ => false

/-- Whether a command is a resource barrier. -/
def Command.isBarrier : Command → Bool
  | Command.ResourceBarrier _ _ _ => true
  | _ => false

/-- A state in which the target of slot 0 is the largest `UINT64` and fence 0
has reached it. -/
def exWrapState : FrameState :=
  { g_FenceValues := fun i => if i = 0 then 2 ^ 64 - 1 else 0
    g_FrameIndex := 0
    completed := fun i => if i = 0 then 2 ^ 64 - 1 else 0
    queue := []
    recording := false
    trace := [] }

/-- The ring slot whose descriptor heap or per-object constant buffer a
command binds for the draw calls. -/
def Command.boundSlot : Command → Option Nat
  | Command.SetDescriptorHeaps i => some i
  | Command.SetGraphicsRootDescriptorTable _ i => some i
  | Command.SetGraphicsRootConstantBufferView _ i _ => some i
  | _ => none

/-- The slot a trace entry uses for per-slot constant data: `(true, S)` for a
CPU write into the mapped constant buffers of slot `S`, `(false, S)` for a
recorded command that binds the descriptor heap or the per-object constant
buffer of slot `S`. -/
def Logged.slotUse (l : Logged) : Option (Bool × Nat) :=
  match l.ev with
  | Event.CpuWrite b _ _ => (Resource.slotOf b).map fun S => (true, S)
  | Event.Record c => c.boundSlot.map fun S => (false, S)
  | _ => none

/-- The uses of per-slot constant data in a trace, in order. -/
def slotUses (t : List Logged) : List (Bool × Nat) := t.filterMap Logged.slotUse

/-- The commands recorded on the command list in a trace, in order. -/
def recorded (t : List Logged) : List Command :=
  t.filterMap fun l => match l.ev with
    | Event.Record c => some c
    | _ => none

/-! ## Declared resource states -/

/-- The state a resource is created in: the initial state passed to
`CreateResource` (lines 571, 694, 819, 851, 930, 958, 1014, 1078, 1114); the
back buffers are those of the swap chain, which hands them out in the state
PRESENT. -/
def createdState : Resource → D3D12_RESOURCE_STATES
  | Resource.g_VertexBuffer => D3D12_RESOURCE_STATES.COPY_DEST
  | Resource.g_IndexBuffer => D3D12_RESOURCE_STATES.COPY_DEST
  | Resource.g_Texture => D3D12_RESOURCE_STATES.COPY_DEST
  | Resource.vBufferUploadHeap => D3D12_RESOURCE_STATES.GENERIC_READ
  | Resource.iBufferUploadHeap => D3D12_RESOURCE_STATES.GENERIC_READ
  | Resource.textureUpload => D3D12_RESOURCE_STATES.GENERIC_READ
  | Resource.g_DepthStencilBuffer => D3D12_RESOURCE_STATES.DEPTH_WRITE
  | Resource.g_RenderTargets _ => D3D12_RESOURCE_STATES.PRESENT
  | Resource.g_CbPerObjectUploadHeaps _ => D3D12_RESOURCE_STATES.GENERIC_READ
  | Resource.g_ConstantBufferUploadHeap _ => D3D12_RESOURCE_STATES.GENERIC_READ

/-- The resource a copy command writes. -/
def Command.copyDest : Command → Option Resource
  | Command.CopyBufferRegion d _ _ _ _ => some d
  | Command.CopyTextureRegion d _ _ _ _ _ _ _ => some d
  | _ => none

/-- The transitions of resource `r` in a list of commands, in order, each as
`(StateBefore, StateAfter)`. -/
def transitionsOf (r : Resource) (cs : List Command) :
    List (D3D12_RESOURCE_STATES × D3D12_RESOURCE_STATES) :=
  cs.filterMap fun c => match c with
    | Command.ResourceBarrier r1 b a => if r1 = r then some (b, a) else none
    | _ => none

/-- Tracking of the declared states along a list of commands: a transition
barrier must name the tracked state of its resource as `StateBefore` and a
different state as `StateAfter`, and makes `StateAfter` the tracked state;
`none` when some barrier does not. -/
def trackStates : (Resource → D3D12_RESOURCE_STATES) → List Command →
    Option (Resource → D3D12_RESOURCE_STATES)
  | st, [] => some st
  | st, Command.ResourceBarrier r b a :: cs =>
    if st r = b ∧ b ≠ a then trackStates (Function.update st r a) cs else none
  | st, _ :: cs => trackStates st cs

/-- Actions of waiting: reading a fence, registering the event, waiting on
it, and the queue-side wait of `Cleanup`. -/
def Event.isWaiting : Event → Bool
  | Event.GetCompletedValue _ _ => true
  | Event.SetEventOnCompletion _ _ => true
  | Event.WaitForSingleObject => true
  | Event.QueueWait _ _ => true
  | _ => false

/-- The declared states once the initial command list is recorded: the three
uploaded resources in their consumption states, every other resource in the
state it was created in. -/
def statesAfterInit : Resource → D3D12_RESOURCE_STATES :=
  Function.update
    (Function.update
      (Function.update createdState Resource.g_VertexBuffer
        D3D12_RESOURCE_STATES.VERTEX_AND_CONSTANT_BUFFER)
      Resource.g_IndexBuffer D3D12_RESOURCE_STATES.INDEX_BUFFER)
    Resource.g_Texture D3D12_RESOURCE_STATES.PIXEL_SHADER_RESOURCE

/-! ## Recording and closed states of the command list -/

/-- Whether an action on the command list finds the list in the state it
needs: `Reset` a closed list, a recorded command and `Close` a recording
list, `ExecuteCommandLists` a closed list. -/
def Logged.obeys (l : Logged) : Bool :=
  match l.ev with
  | Event.ListReset _ => !l.recording
  | Event.Record _ => l.recording
  | Event.ListClose => l.recording
  | Event.ExecuteCommandLists => !l.recording
  | _ => true

/-- Every action of the trace found the list in the state it needs, and the
list is now recording (`b = true`) or closed (`b = false`). -/
def Disciplined (s : FrameState) (b : Bool) : Prop :=
  (∀ l, l ∈ s.trace → l.obeys = true) ∧ s.recording = b

/-- What the program does after `InitD3D`, one piece at a time: a frame on a
back buffer, a `BeginCommandList`/`EndCommandList` pair, an `Update`, or the
GPU executing up to `n` queued operations. -/
inductive Phase
  | render (backBufferIndex : Nat)
  | beginEnd
  | update
  | gpu (n : Nat)
  deriving DecidableEq, Repr

/-- The steps of a phase. -/
def Phase.ops : Phase → List Op
  | Phase.render bb => [Op.Render bb]
  | Phase.beginEnd => [Op.BeginCommandList, Op.EndCommandList]
  | Phase.update => [Op.Update]
  | Phase.gpu n => [Op.gpu n]

/-- The steps of a sequence of phases. -/
def phasesOps (ps : List Phase) : List Op := (ps.map Phase.ops).flatten

/-! ## Per-slot arrays -/

/-- `swapChainDesc.BufferCount` (line 468). -/
def swapChainBufferCount : Nat := FRAME_BUFFER_COUNT

/-- The indices at which a command uses a per-slot array: `g_RenderTargets`,
the RTV handle, `g_MainDescriptorHeap`, `g_CbPerObjectUploadHeaps`. -/
def Command.slots : Command → List Nat
  | Command.ResourceBarrier (Resource.g_RenderTargets i) _ _ => [i]
  | Command.OMSetRenderTargets i => [i]
  | Command.ClearRenderTargetView i => [i]
  | Command.SetDescriptorHeaps i => [i]
  | Command.SetGraphicsRootDescriptorTable _ i => [i]
  | Command.SetGraphicsRootConstantBufferView _ i _ => [i]
  | _ => []

/-- The indices at which an action uses a per-slot array: `g_Fences`,
`g_FenceValues`, `g_CommandAllocators`, the mapped constant buffers, and the
arrays used by a recorded command. -/
def Event.slots : Event → List Nat
  | Event.GetCompletedValue f _ => [f]
  | Event.SetEventOnCompletion f _ => [f]
  | Event.AllocatorReset i => [i]
  | Event.ListReset i => [i]
  | Event.Record c => c.slots
  | Event.Signal f _ => [f]
  | Event.QueueWait f _ => [f]
  | Event.CpuWrite b _ _ => (Resource.slotOf b).toList
  | _ => []

/-- A step whose index argument, if it has one, is below the number of
buffers of the swap chain. -/
def Op.inRange : Op → Bool
  | Op.Render bb => decide (bb < swapChainBufferCount)
  | Op.WaitForFrame i => decide (i < swapChainBufferCount)
  | Op.WaitGPUIdle i => decide (i < swapChainBufferCount)
  | _ => true

/-- Every per-slot array index used in a trace is below `FRAME_BUFFER_COUNT`,
the length of the arrays. -/
def SlotsInRange (t : List Logged) : Prop :=
  ∀ l, l ∈ t → ∀ i, i ∈ l.ev.slots → i < FRAME_BUFFER_COUNT

/-- `s1` is `s` after actions that keep `g_FrameIndex` and use per-slot arrays
at no other index than `g_FrameIndex`. -/
def SlotsExt (s s1 : FrameState) : Prop :=
  s1.g_FrameIndex = s.g_FrameIndex ∧
  ∃ ls, s1.trace = s.trace ++ ls ∧ ∀ l, l ∈ ls → ∀ i, i ∈ l.ev.slots → i = s.g_FrameIndex

/-! ## Waits and signalled values -/

/-- The values signalled on fence `S` in a trace, in order. -/
def signalsOn (S : Nat) (t : List Logged) : List Nat :=
  t.filterMap fun l => match l.ev with
    | Event.Signal f v => if f = S then some v else none
    | _ => none

/-- Every `WaitForFrame` of the trace, seen at its reading of the completed
value of fence `S`, was called when `g_FenceValues[S]` was 0 or a value for
which a `Signal` on fence `S` had already been enqueued. -/
def WaitsOnSignalled (t : List Logged) : Prop :=
  ∀ pre l post S c, t = pre ++ l :: post → l.ev = Event.GetCompletedValue S c →
    l.targets S = 0 ∨ l.targets S ∈ signalsOn S pre

/-- The first `k` values signalled on a fence: the `UINT64` successors of one
another from 0, that is 1, 2, 3, ... taken modulo `2^64`. -/
def successors (k : Nat) : List Nat := (List.range k).map fun j => asUINT64 (j + 1)

/-- Waits are on signalled values, and on every fence the values signalled so
far are the successors from 0, the last of them being the target of the slot
(the target is 0 while nothing has been signalled). -/
def SignalledWaits (t : List Logged) (g : Nat → Nat) : Prop :=
  WaitsOnSignalled t ∧ ∀ S, ∃ k, signalsOn S t = successors k ∧ g S = asUINT64 k

/-! ## The footprint calculator -/

/-- Modelled from the spec: the footprint calculator for a destination with a
single subresource of two dimensions (section 4.1 of the specification; the
sample calls the device for it, lines 1086-1095 and 358-362). The footprint
is the staging offset, the extent, the row count and the row pitch; the row
pitch is the row size rounded up to the row-pitch alignment of the platform;
the required size is the least staging size that makes the byte range of the
subresource, laid out from the base offset, addressable: all rows but the
last at the row pitch, then the last row. `alignment` is the row-pitch
alignment and `bytesPerPixel` the size of a texel of the format. -/
def ComputeFootprints (alignment bytesPerPixel : Nat) : FootprintQuery :=
  fun d _ _ baseOffset =>
    let rowSize := d.Width * bytesPerPixel
    let rowPitch := (rowSize + alignment - 1) / alignment * alignment
    { pLayouts := fun _ => ⟨baseOffset, ⟨d.Format, d.Width, d.Height, 1, rowPitch⟩⟩
      pNumRows := fun _ => d.Height
      pRowSizesInBytes := fun _ => rowSize
      pTotalBytes := rowPitch * (d.Height - 1) + rowSize }

/-! ## Concrete inputs -/

/-- Bytes in one row of a resource for the two formats the sample uses. -/
def exRowBytes (d : D3D12_RESOURCE_DESC) : Nat :=
  if d.Format = 28 then 4 * d.Width else d.Width

/-- A footprint query placing rows at a pitch rounded up to 256 bytes; the
total size ends with the last row. -/
def exQuery : FootprintQuery := fun d _ _ base =>
  ⟨fun _ => ⟨base, ⟨d.Format, d.Width, d.Height, 1, 256 * ((exRowBytes d + 255) / 256)⟩⟩,
    fun _ => d.Height, fun _ => exRowBytes d,
    256 * ((exRowBytes d + 255) / 256) * (d.Height - 1) + exRowBytes d⟩

/-- An environment in which every external call succeeds. -/
def exEnv : InitEnv :=
  { arch := Arch.x64
    GetCopyableFootprints := exQuery
    heapAllocOk := fun _ => true
    mapOk := fun _ => true
    assertsEnabled := true
    vList := fun _ => 0
    iList := fun _ => 0
    imageData := fun _ => 0 }

/-- A 480-byte buffer, the shape of the sample's vertex buffer. -/
def exBufferDesc : D3D12_RESOURCE_DESC :=
  { Dimension := .BUFFER, Width := 480, Height := 1, DepthOrArraySize := 1, MipLevels := 1,
    Format := 0 }

/-- A 4x2 texture with four bytes per pixel. -/
def exTextureDesc : D3D12_RESOURCE_DESC :=
  { Dimension := .TEXTURE2D, Width := 4, Height := 2, DepthOrArraySize := 1, MipLevels := 1,
    Format := 28 }

def exBuffer : ID3D12Resource := ⟨Resource.g_VertexBuffer, exBufferDesc⟩

def exTexture : ID3D12Resource := ⟨Resource.g_Texture, exTextureDesc⟩

/-- A staging buffer of `width` bytes. -/
def exStaging (width : Nat) : ID3D12Resource :=
  ⟨Resource.vBufferUploadHeap, { exBufferDesc with Width := width }⟩

/-- Footprint of the 480-byte buffer at staging offset 0: one row of 480
bytes with the row pitch rounded up to 512. -/
def exBufferLayout : D3D12_PLACED_SUBRESOURCE_FOOTPRINT :=
  ⟨0, { Format := 0, Width := 480, Height := 1, Depth := 1, RowPitch := 512 }⟩

/-- Source whose byte at displacement `d` is `d mod 256`. -/
def exSrc (rowPitch slicePitch : Int) : D3D12_SUBRESOURCE_DATA :=
  { pData := fun d => ⟨(d % 256).toNat % 256, Nat.mod_lt _ (by decide)⟩
    RowPitch := rowPitch
    SlicePitch := slicePitch }

/-- Memory whose byte at address `p` is `p mod 256`. -/
def exMem : Nat → BYTE := fun p => ⟨p % 256, Nat.mod_lt _ (by decide)⟩

/-- Staging memory filled with zeros, nothing mapped, nothing recorded. -/
def exState : UploadState := ⟨fun _ => 0, [], []⟩

/-- Footprints of two subresources of 4x2 texels laid out 512 bytes apart,
starting at staging offset `base`. -/
def exLayouts (base : Nat) : Nat → D3D12_PLACED_SUBRESOURCE_FOOTPRINT := fun i =>
  ⟨base + 512 * i, { Format := 28, Width := 4, Height := 2, Depth := 1, RowPitch := 256 }⟩

/-- Row sizes of which the second does not fit a 32-bit `SIZE_T`. -/
def exOversizeRows : Nat → Nat := fun i => if i = 0 then 16 else 2 ^ 32

/-- A footprint query answering with `exLayouts` and `exOversizeRows`. -/
def exOversizeQuery : FootprintQuery := fun _ _ _ base =>
  ⟨exLayouts base, fun _ => 2, exOversizeRows, 1024⟩

/-- A footprint at staging offset `2^64 - 16`, for which
`RequiredSize + Offset` does not fit `UINT64`. -/
def exWrapLayout : D3D12_PLACED_SUBRESOURCE_FOOTPRINT :=
  ⟨2 ^ 64 - 16, { Format := 28, Width := 4, Height := 1, Depth := 1, RowPitch := 256 }⟩

/-- A footprint with two rows of pitch `2^31` and two slices, for which
`RowPitch * NumRows` does not fit `UINT`. -/
def exHugePitchLayout : D3D12_PLACED_SUBRESOURCE_FOOTPRINT :=
  ⟨0, { Format := 28, Width := 1, Height := 2, Depth := 2, RowPitch := 2 ^ 31 }⟩

/-- A state in which slot 1 has been submitted once, with target 1, and the
GPU has executed nothing of it yet. -/
def exPendingState : FrameState :=
  { g_FenceValues := fun i => if i = 1 then 1 else 0
    g_FrameIndex := 1
    completed := fun _ => 0
    queue := [QueueOp.Execute, QueueOp.Signal 1 1]
    recording := false
    trace := [] }

/-- An environment in which `Map` fails on the staging buffer of the texture
and succeeds elsewhere; `assert` is compiled in. -/
def exEnvTextureMapFails : InitEnv :=
  { exEnv with mapOk := fun r => decide (r ≠ Resource.textureUpload) }

/-- An environment without `assert` (a build with `NDEBUG`) in which `Map`
fails on the staging buffer of the vertex buffer. -/
def exEnvVertexMapFails : InitEnv :=
  { exEnv with assertsEnabled := false, mapOk := fun r => decide (r ≠ Resource.vBufferUploadHeap) }

/-! ## Properties of the upload helpers -/

/-- C5. Buffer-destination argument validation: when the destination has
dimension BUFFER and `FirstSubresource != 0` or `NumSubresources != 1`, the
10-argument `UpdateSubresources` returns 0 and leaves the state as it was: no
`Map`, no byte copied, no command recorded. -/
theorem UpdateSubresources_buffer_args_rejected (a : Arch) (mapOk : Bool)
    (pDestinationResource pIntermediate : ID3D12Resource)
    (FirstSubresource NumSubresources RequiredSize : Nat)
    (pLayouts : Nat → D3D12_PLACED_SUBRESOURCE_FOOTPRINT) (pNumRows pRowSizesInBytes : Nat → Nat)
    (pSrcData : Nat → D3D12_SUBRESOURCE_DATA) (s : UploadState)
    (hdim : pDestinationResource.Desc.Dimension = D3D12_RESOURCE_DIMENSION.BUFFER)
    (hargs : FirstSubresource ≠ 0 ∨ NumSubresources ≠ 1) :
    UpdateSubresources a mapOk pDestinationResource pIntermediate FirstSubresource
      NumSubresources RequiredSize pLayouts pNumRows pRowSizesInBytes pSrcData s = (0, s) := by
  have hv : validationFails a pDestinationResource pIntermediate FirstSubresource
      NumSubresources RequiredSize pLayouts = true := by
    simp only [validationFails, hdim, decide_True, Bool.true_and, Bool.or_eq_true,
      decide_eq_true_eq]
    exact Or.inr hargs
  simp [UpdateSubresources, hv]

/-- Witness for C5: a buffer destination addressed with two subresources. -/
theorem UpdateSubresources_buffer_args_rejected_witness :
    (exBuffer.Desc.Dimension = D3D12_RESOURCE_DIMENSION.BUFFER ∧ ((0 : Nat) ≠ 0 ∨ (2 : Nat) ≠ 1)) ∧
    UpdateSubresources Arch.x64 true exBuffer (exStaging 1024) 0 2 480 (fun _ => exBufferLayout)
      (fun _ => 1) (fun _ => 480) (fun _ => exSrc 480 480) exState = (0, exState) :=
  ⟨⟨rfl, Or.inr (by decide)⟩,
    UpdateSubresources_buffer_args_rejected Arch.x64 true exBuffer (exStaging 1024) 0 2 480
      (fun _ => exBufferLayout) (fun _ => 1) (fun _ => 480) (fun _ => exSrc 480 480) exState
      rfl (Or.inr (by decide))⟩

/-! ### Lemmas on the copy loop -/

theorem copyRows_cmdList (a : Arch)
    (pLayouts : Nat → D3D12_PLACED_SUBRESOURCE_FOOTPRINT) (pNumRows pRowSizesInBytes : Nat → Nat)
    (pSrcData : Nat → D3D12_SUBRESOURCE_DATA) (i : Nat) (s : UploadState) :
    (copyRows a pLayouts pNumRows pRowSizesInBytes pSrcData i s).cmdList = s.cmdList := rfl

theorem forLoop_copyRows_cmdList (a : Arch)
    (pLayouts : Nat → D3D12_PLACED_SUBRESOURCE_FOOTPRINT) (pNumRows pRowSizesInBytes : Nat → Nat)
    (pSrcData : Nat → D3D12_SUBRESOURCE_DATA) (n : Nat) (s : UploadState) :
    (forLoop (copyRows a pLayouts pNumRows pRowSizesInBytes pSrcData) n s).cmdList
      = s.cmdList := by
  induction n with
  | zero => rfl
  | succ n ih => simpa [forLoop, copyRows_cmdList] using ih

/-- While every row size fits `SIZE_T` the loop runs to its end. -/
theorem forLoopE_copy_ok (a : Arch)
    (pLayouts : Nat → D3D12_PLACED_SUBRESOURCE_FOOTPRINT) (pNumRows pRowSizesInBytes : Nat → Nat)
    (pSrcData : Nat → D3D12_SUBRESOURCE_DATA) (n : Nat) (s : UploadState)
    (hfit : ∀ i, i < n → pRowSizesInBytes i ≤ SIZE_T_MAX a) :
    forLoopE (copySubresource a pLayouts pNumRows pRowSizesInBytes pSrcData) n s
      = .ok (forLoop (copyRows a pLayouts pNumRows pRowSizesInBytes pSrcData) n s) := by
  induction n with
  | zero => rfl
  | succ n ih =>
    have h1 := ih (fun i hi => hfit i (Nat.lt_succ_of_lt hi))
    have h2 : ¬ pRowSizesInBytes n > SIZE_T_MAX a := Nat.not_lt.mpr (hfit n (Nat.lt_succ_self n))
    simp [forLoopE, h1, copySubresource, h2, forLoop]

/-- The loop leaves the function at the first subresource whose row size does
not fit `SIZE_T`, with the subresources before it copied. -/
theorem forLoopE_copy_error (a : Arch)
    (pLayouts : Nat → D3D12_PLACED_SUBRESOURCE_FOOTPRINT) (pNumRows pRowSizesInBytes : Nat → Nat)
    (pSrcData : Nat → D3D12_SUBRESOURCE_DATA) (n j : Nat) (s : UploadState)
    (hj : j < n) (hbig : pRowSizesInBytes j > SIZE_T_MAX a)
    (hfit : ∀ i, i < j → pRowSizesInBytes i ≤ SIZE_T_MAX a) :
    forLoopE (copySubresource a pLayouts pNumRows pRowSizesInBytes pSrcData) n s
      = .error (forLoop (copyRows a pLayouts pNumRows pRowSizesInBytes pSrcData) j s) := by
  induction n with
  | zero => exact absurd hj (Nat.not_lt_zero j)
  | succ n ih =>
    rcases Nat.lt_succ_iff_lt_or_eq.mp hj with h | h
    · simp [forLoopE, ih h]
    · subst h
      simp [forLoopE, forLoopE_copy_ok a pLayouts pNumRows pRowSizesInBytes pSrcData j s hfit,
        copySubresource, hbig]

/-- C7. Failure atomicity: on every failure path of the 10-argument
`UpdateSubresources` (validation failure, `Map` failure, a row size that does
not fit `SIZE_T`) and of the 7-argument overload (scratch size overflow,
allocation failure, or a failure of the inner call) the function returns 0 and
the command list is the one it had on entry. -/
theorem UpdateSubresources_failure_keeps_cmdList (a : Arch)
    (GetCopyableFootprints : FootprintQuery) (heapAllocOk mapOk : Bool)
    (pDestinationResource pIntermediate : ID3D12Resource)
    (IntermediateOffset FirstSubresource NumSubresources RequiredSize : Nat)
    (pLayouts : Nat → D3D12_PLACED_SUBRESOURCE_FOOTPRINT) (pNumRows pRowSizesInBytes : Nat → Nat)
    (pSrcData : Nat → D3D12_SUBRESOURCE_DATA) (s : UploadState) :
    ((validationFails a pDestinationResource pIntermediate FirstSubresource NumSubresources
          RequiredSize pLayouts = true ∨ mapOk = false ∨
        ∃ i, i < NumSubresources ∧ pRowSizesInBytes i > SIZE_T_MAX a) →
      (UpdateSubresources a mapOk pDestinationResource pIntermediate FirstSubresource
          NumSubresources RequiredSize pLayouts pNumRows pRowSizesInBytes pSrcData s).1 = 0 ∧
      (UpdateSubresources a mapOk pDestinationResource pIntermediate FirstSubresource
          NumSubresources RequiredSize pLayouts pNumRows pRowSizesInBytes pSrcData s).2.cmdList
        = s.cmdList) ∧
    ((asUINT64 (scratchBytesPerSubresource * NumSubresources) > SIZE_T_MAX a ∨
        heapAllocOk = false ∨
        validationFails a pDestinationResource pIntermediate FirstSubresource NumSubresources
          (GetCopyableFootprints pDestinationResource.Desc FirstSubresource NumSubresources
            IntermediateOffset).pTotalBytes
          (GetCopyableFootprints pDestinationResource.Desc FirstSubresource NumSubresources
            IntermediateOffset).pLayouts = true ∨
        mapOk = false ∨
        ∃ i, i < NumSubresources ∧
          (GetCopyableFootprints pDestinationResource.Desc FirstSubresource NumSubresources
            IntermediateOffset).pRowSizesInBytes i > SIZE_T_MAX a) →
      (UpdateSubresources_heap a GetCopyableFootprints heapAllocOk mapOk pDestinationResource
          pIntermediate IntermediateOffset FirstSubresource NumSubresources pSrcData s).1 = 0 ∧
      (UpdateSubresources_heap a GetCopyableFootprints heapAllocOk mapOk pDestinationResource
          pIntermediate IntermediateOffset FirstSubresource NumSubresources pSrcData
          s).2.cmdList = s.cmdList) := by
  have key : ∀ (Req : Nat) (L : Nat → D3D12_PLACED_SUBRESOURCE_FOOTPRINT) (NR RS : Nat → Nat),
      (validationFails a pDestinationResource pIntermediate FirstSubresource NumSubresources
          Req L = true ∨ mapOk = false ∨ ∃ i, i < NumSubresources ∧ RS i > SIZE_T_MAX a) →
      (UpdateSubresources a mapOk pDestinationResource pIntermediate FirstSubresource
          NumSubresources Req L NR RS pSrcData s).1 = 0 ∧
      (UpdateSubresources a mapOk pDestinationResource pIntermediate FirstSubresource
          NumSubresources Req L NR RS pSrcData s).2.cmdList = s.cmdList := by
    intro Req L NR RS h
    by_cases hv : validationFails a pDestinationResource pIntermediate FirstSubresource
        NumSubresources Req L = true
    · simp [UpdateSubresources, hv]
    · by_cases hm : mapOk = false
      · simp [UpdateSubresources, hv, hm]
      · rcases h with h | h | ⟨i, hi, hbig⟩
        · exact absurd h hv
        · exact absurd h hm
        · have hex : ∃ j, j < NumSubresources ∧ RS j > SIZE_T_MAX a := ⟨i, hi, hbig⟩
          have hj := Nat.find_spec hex
          have hmin : ∀ k, k < Nat.find hex → RS k ≤ SIZE_T_MAX a := by
            intro k hk
            by_contra hc
            exact Nat.find_min hex hk ⟨lt_trans hk hj.1, Nat.not_le.mp hc⟩
          have hm1 : mapOk = true := by simpa using hm
          simp [UpdateSubresources, hv, hm1,
            forLoopE_copy_error a L NR RS pSrcData NumSubresources (Nat.find hex) _ hj.1 hj.2 hmin,
            forLoop_copyRows_cmdList]
  refine ⟨key RequiredSize pLayouts pNumRows pRowSizesInBytes, ?_⟩
  intro h
  by_cases h1 : asUINT64 (scratchBytesPerSubresource * NumSubresources) > SIZE_T_MAX a
  · simp [UpdateSubresources_heap, h1]
  · by_cases h2 : heapAllocOk = false
    · simp [UpdateSubresources_heap, h1, h2]
    · have h2t : heapAllocOk = true := by simpa using h2
      have h3 := key
        (GetCopyableFootprints pDestinationResource.Desc FirstSubresource NumSubresources
          IntermediateOffset).pTotalBytes
        (GetCopyableFootprints pDestinationResource.Desc FirstSubresource NumSubresources
          IntermediateOffset).pLayouts
        (GetCopyableFootprints pDestinationResource.Desc FirstSubresource NumSubresources
          IntermediateOffset).pNumRows
        (GetCopyableFootprints pDestinationResource.Desc FirstSubresource NumSubresources
          IntermediateOffset).pRowSizesInBytes
        (by
          rcases h with h | h | h | h | h
          · exact absurd h h1
          · exact absurd h h2
          · exact Or.inl h
          · exact Or.inr (Or.inl h)
          · exact Or.inr (Or.inr h))
      simpa [UpdateSubresources_heap, h1, h2t] using h3

/-- Witness for C7: on a 32-bit target the second subresource has a row size
of `2^32`; with a failing `HeapAlloc` for the 7-argument overload. -/
theorem UpdateSubresources_failure_keeps_cmdList_witness :
    ((UpdateSubresources Arch.x86 true exTexture (exStaging 1024) 0 2 1024 (exLayouts 0)
        (fun _ => 2) exOversizeRows (fun _ => exSrc 16 32) exState).1 = 0 ∧
      (UpdateSubresources Arch.x86 true exTexture (exStaging 1024) 0 2 1024 (exLayouts 0)
        (fun _ => 2) exOversizeRows (fun _ => exSrc 16 32) exState).2.cmdList
        = exState.cmdList) ∧
    ((UpdateSubresources_heap Arch.x86 exOversizeQuery false true exTexture (exStaging 1024) 0 0 2
        (fun _ => exSrc 16 32) exState).1 = 0 ∧
      (UpdateSubresources_heap Arch.x86 exOversizeQuery false true exTexture (exStaging 1024) 0 0 2
        (fun _ => exSrc 16 32) exState).2.cmdList = exState.cmdList) :=
  ⟨(UpdateSubresources_failure_keeps_cmdList Arch.x86 exOversizeQuery false true exTexture
      (exStaging 1024) 0 0 2 1024 (exLayouts 0) (fun _ => 2) exOversizeRows
      (fun _ => exSrc 16 32) exState).1 (Or.inr (Or.inr ⟨1, by decide, by decide⟩)),
   (UpdateSubresources_failure_keeps_cmdList Arch.x86 exOversizeQuery false true exTexture
      (exStaging 1024) 0 0 2 1024 (exLayouts 0) (fun _ => 2) exOversizeRows
      (fun _ => exSrc 16 32) exState).2 (Or.inr (Or.inl rfl))⟩

/-- The capacity check rejects the call whenever the staging buffer is
narrower than `RequiredSize + pLayouts[0].Offset` and that sum fits `UINT64`. -/
theorem UpdateSubresources_capacity_rejected_of_sum_fits (a : Arch) (mapOk : Bool)
    (pDestinationResource pIntermediate : ID3D12Resource)
    (FirstSubresource NumSubresources RequiredSize : Nat)
    (pLayouts : Nat → D3D12_PLACED_SUBRESOURCE_FOOTPRINT) (pNumRows pRowSizesInBytes : Nat → Nat)
    (pSrcData : Nat → D3D12_SUBRESOURCE_DATA) (s : UploadState)
    (hfit : RequiredSize + (pLayouts 0).Offset < 2 ^ 64)
    (hsmall : pIntermediate.Desc.Width < RequiredSize + (pLayouts 0).Offset) :
    UpdateSubresources a mapOk pDestinationResource pIntermediate FirstSubresource
      NumSubresources RequiredSize pLayouts pNumRows pRowSizesInBytes pSrcData s = (0, s) := by
  have hv : validationFails a pDestinationResource pIntermediate FirstSubresource
      NumSubresources RequiredSize pLayouts = true := by
    simp only [validationFails, asUINT64, Nat.mod_eq_of_lt hfit, Bool.or_eq_true,
      decide_eq_true_eq]
    exact Or.inl (Or.inl (Or.inr hsmall))
  simp [UpdateSubresources, hv]

/-- C6. Capacity validation, evaluated where `RequiredSize + pLayouts[0].Offset`
does not fit `UINT64`: the staging buffer is 16 bytes wide, the exact sum is
`2^64`, the sum the code compares with is 0, and the call maps the buffer,
copies 16 bytes to staging offset `2^64 - 16`, records a copy command and
returns 16. The same happens with `Width < RequiredSize`: `RequiredSize =
2^64 - 1` at offset 1 against the 16-byte buffer returns `2^64 - 1`. -/
theorem UpdateSubresources_capacity_sum_wraps :
    ((exStaging 16).Desc.Width < 16 + exWrapLayout.Offset ∧
      (UpdateSubresources Arch.x64 true exTexture (exStaging 16) 0 1 16 (fun _ => exWrapLayout)
          (fun _ => 1) (fun _ => 16) (fun _ => exSrc 16 16) exState).1 = 16 ∧
      (UpdateSubresources Arch.x64 true exTexture (exStaging 16) 0 1 16 (fun _ => exWrapLayout)
          (fun _ => 1) (fun _ => 16) (fun _ => exSrc 16 16) exState).2.trace
        = [UpEvent.Map true, UpEvent.memcpy 0 ⟨2 ^ 64 - 16, 0, 16⟩, UpEvent.Unmap] ∧
      (UpdateSubresources Arch.x64 true exTexture (exStaging 16) 0 1 16 (fun _ => exWrapLayout)
          (fun _ => 1) (fun _ => 16) (fun _ => exSrc 16 16) exState).2.cmdList
        = [Command.CopyTextureRegion Resource.g_Texture 0 0 0 0 Resource.vBufferUploadHeap
              exWrapLayout none]) ∧
    ((exStaging 16).Desc.Width < 2 ^ 64 - 1 ∧
      (UpdateSubresources Arch.x64 true exTexture (exStaging 16) 0 1 (2 ^ 64 - 1)
          (fun _ => ⟨1, exWrapLayout.Footprint⟩) (fun _ => 1) (fun _ => 16)
          (fun _ => exSrc 16 16) exState).1 = 2 ^ 64 - 1 ∧
      (UpdateSubresources Arch.x64 true exTexture (exStaging 16) 0 1 (2 ^ 64 - 1)
          (fun _ => ⟨1, exWrapLayout.Footprint⟩) (fun _ => 1) (fun _ => 16)
          (fun _ => exSrc 16 16) exState).2.cmdList
        = [Command.CopyTextureRegion Resource.g_Texture 0 0 0 0 Resource.vBufferUploadHeap
              ⟨1, exWrapLayout.Footprint⟩ none]) := by
  decide

/-- C8, as stated, fails: on a 32-bit target, with a first subresource of
16-byte rows and a second one whose row size is `2^32`, the call passes the
validation and returns 0, but the two rows of the first subresource have been
copied: staging byte 1 now holds source byte 1, and the staging buffer is
still mapped. -/
theorem UpdateSubresources_row_size_failure_after_copy :
    validationFails Arch.x86 exTexture (exStaging 1024) 0 2 1024 (exLayouts 0) = false ∧
    exOversizeRows 1 > SIZE_T_MAX Arch.x86 ∧
    (UpdateSubresources Arch.x86 true exTexture (exStaging 1024) 0 2 1024 (exLayouts 0)
        (fun _ => 2) exOversizeRows (fun _ => exSrc 16 32) exState).1 = 0 ∧
    (UpdateSubresources Arch.x86 true exTexture (exStaging 1024) 0 2 1024 (exLayouts 0)
        (fun _ => 2) exOversizeRows (fun _ => exSrc 16 32) exState).2.bytes 1
      ≠ exState.bytes 1 ∧
    (UpdateSubresources Arch.x86 true exTexture (exStaging 1024) 0 2 1024 (exLayouts 0)
        (fun _ => 2) exOversizeRows (fun _ => exSrc 16 32) exState).2.trace
      = [UpEvent.Map true, UpEvent.memcpy 0 ⟨0, 0, 16⟩, UpEvent.memcpy 0 ⟨256, 16, 16⟩] := by
  decide

/-- C8, amended. For a call that passes the validation, if some subresource
`i` has a row size above the largest `SIZE_T`, the call returns 0 and records
no command; the state it leaves is the one reached after `Map` and the copy of
the subresources before the first such subresource `j <= i` (none of `j` or
later), without `Unmap`; in particular no byte is written when `j = 0` or
`Map` fails. -/
theorem UpdateSubresources_row_size_failure (a : Arch) (mapOk : Bool)
    (pDestinationResource pIntermediate : ID3D12Resource)
    (FirstSubresource NumSubresources RequiredSize : Nat)
    (pLayouts : Nat → D3D12_PLACED_SUBRESOURCE_FOOTPRINT) (pNumRows pRowSizesInBytes : Nat → Nat)
    (pSrcData : Nat → D3D12_SUBRESOURCE_DATA) (s : UploadState) (i : Nat)
    (hvalid : validationFails a pDestinationResource pIntermediate FirstSubresource
      NumSubresources RequiredSize pLayouts = false)
    (hi : i < NumSubresources) (hbig : pRowSizesInBytes i > SIZE_T_MAX a) :
    (UpdateSubresources a mapOk pDestinationResource pIntermediate FirstSubresource
      NumSubresources RequiredSize pLayouts pNumRows pRowSizesInBytes pSrcData s).1 = 0 ∧
    (UpdateSubresources a mapOk pDestinationResource pIntermediate FirstSubresource
      NumSubresources RequiredSize pLayouts pNumRows pRowSizesInBytes pSrcData s).2.cmdList
      = s.cmdList ∧
    ∃ j, j ≤ i ∧ pRowSizesInBytes j > SIZE_T_MAX a ∧
      (∀ k, k < j → pRowSizesInBytes k ≤ SIZE_T_MAX a) ∧
      (UpdateSubresources a mapOk pDestinationResource pIntermediate FirstSubresource
        NumSubresources RequiredSize pLayouts pNumRows pRowSizesInBytes pSrcData s).2
        = (if mapOk then
            forLoop (copyRows a pLayouts pNumRows pRowSizesInBytes pSrcData) j
              { s with trace := s.trace ++ [UpEvent.Map true] }
          else { s with trace := s.trace ++ [UpEvent.Map false] }) ∧
      (j = 0 ∨ mapOk = false →
        (UpdateSubresources a mapOk pDestinationResource pIntermediate FirstSubresource
          NumSubresources RequiredSize pLayouts pNumRows pRowSizesInBytes pSrcData s).2.bytes
          = s.bytes) := by
  have hex : ∃ j, j < NumSubresources ∧ pRowSizesInBytes j > SIZE_T_MAX a := ⟨i, hi, hbig⟩
  have hj := Nat.find_spec hex
  have hmin : ∀ k, k < Nat.find hex → pRowSizesInBytes k ≤ SIZE_T_MAX a := by
    intro k hk
    by_contra hc
    exact Nat.find_min hex hk ⟨lt_trans hk hj.1, Nat.not_le.mp hc⟩
  have hle : Nat.find hex ≤ i := Nat.find_min' hex ⟨hi, hbig⟩
  cases mapOk with
  | false =>
    refine ⟨by simp [UpdateSubresources, hvalid], by simp [UpdateSubresources, hvalid],
      Nat.find hex, hle, hj.2, hmin, by simp [UpdateSubresources, hvalid], ?_⟩
    intro _
    simp [UpdateSubresources, hvalid]
  | true =>
    have hloop := forLoopE_copy_error a pLayouts pNumRows pRowSizesInBytes pSrcData
      NumSubresources (Nat.find hex) { s with trace := s.trace ++ [UpEvent.Map true] }
      hj.1 hj.2 hmin
    refine ⟨by simp [UpdateSubresources, hvalid, hloop],
      by simp [UpdateSubresources, hvalid, hloop, forLoop_copyRows_cmdList],
      Nat.find hex, hle, hj.2, hmin, by simp [UpdateSubresources, hvalid, hloop], ?_⟩
    intro h0
    rcases h0 with h0 | h0
    · simp [UpdateSubresources, hvalid, hloop, h0, forLoop]
    · exact absurd h0 (by decide)

/-- Witness for C8 amended: the call of the counterexample. -/
theorem UpdateSubresources_row_size_failure_witness :
    (UpdateSubresources Arch.x86 true exTexture (exStaging 1024) 0 2 1024 (exLayouts 0)
        (fun _ => 2) exOversizeRows (fun _ => exSrc 16 32) exState).1 = 0 ∧
    (UpdateSubresources Arch.x86 true exTexture (exStaging 1024) 0 2 1024 (exLayouts 0)
        (fun _ => 2) exOversizeRows (fun _ => exSrc 16 32) exState).2.cmdList
      = exState.cmdList :=
  ⟨(UpdateSubresources_row_size_failure Arch.x86 true exTexture (exStaging 1024) 0 2 1024
      (exLayouts 0) (fun _ => 2) exOversizeRows (fun _ => exSrc 16 32) exState 1
      (by decide) (by decide) (by decide)).1,
   (UpdateSubresources_row_size_failure Arch.x86 true exTexture (exStaging 1024) 0 2 1024
      (exLayouts 0) (fun _ => 2) exOversizeRows (fun _ => exSrc 16 32) exState 1
      (by decide) (by decide) (by decide)).2.1⟩

/-- C10, as stated, fails: for the 480-byte buffer whose footprint has one row
of pitch 512, the recorded copy has byte count 480 (`Footprint.Width`), not
`RowPitch * pNumRows[0] = 512`. -/
theorem UpdateSubresources_buffer_copy_size_is_width :
    (UpdateSubresources Arch.x64 true exBuffer (exStaging 1024) 0 1 480 (fun _ => exBufferLayout)
        (fun _ => 1) (fun _ => 480) (fun _ => exSrc 480 480) exState).1 = 480 ∧
    (UpdateSubresources Arch.x64 true exBuffer (exStaging 1024) 0 1 480 (fun _ => exBufferLayout)
        (fun _ => 1) (fun _ => 480) (fun _ => exSrc 480 480) exState).2.cmdList
      = [Command.CopyBufferRegion Resource.g_VertexBuffer 0 Resource.vBufferUploadHeap 0 480] ∧
    (480 : Nat) ≠ exBufferLayout.Footprint.RowPitch * 1 := by
  decide

/-- C10, amended. A call of the 10-argument `UpdateSubresources` that succeeds
(validation passes, `Map` succeeds, every row size fits `SIZE_T`) on a
destination of dimension BUFFER returns `RequiredSize` and records exactly one
command: a buffer-region copy into the destination at offset 0 from the
staging buffer at offset `pLayouts[0].Offset`, of `pLayouts[0].Footprint.Width`
bytes. -/
theorem UpdateSubresources_buffer_copy (a : Arch) (mapOk : Bool)
    (pDestinationResource pIntermediate : ID3D12Resource)
    (FirstSubresource NumSubresources RequiredSize : Nat)
    (pLayouts : Nat → D3D12_PLACED_SUBRESOURCE_FOOTPRINT) (pNumRows pRowSizesInBytes : Nat → Nat)
    (pSrcData : Nat → D3D12_SUBRESOURCE_DATA) (s : UploadState)
    (hvalid : validationFails a pDestinationResource pIntermediate FirstSubresource
      NumSubresources RequiredSize pLayouts = false)
    (hmap : mapOk = true)
    (hfit : ∀ i, i < NumSubresources → pRowSizesInBytes i ≤ SIZE_T_MAX a)
    (hdim : pDestinationResource.Desc.Dimension = D3D12_RESOURCE_DIMENSION.BUFFER) :
    (UpdateSubresources a mapOk pDestinationResource pIntermediate FirstSubresource
      NumSubresources RequiredSize pLayouts pNumRows pRowSizesInBytes pSrcData s).1
      = RequiredSize ∧
    (UpdateSubresources a mapOk pDestinationResource pIntermediate FirstSubresource
      NumSubresources RequiredSize pLayouts pNumRows pRowSizesInBytes pSrcData s).2.cmdList
      = s.cmdList ++ [Command.CopyBufferRegion pDestinationResource.name 0 pIntermediate.name
          (pLayouts 0).Offset (pLayouts 0).Footprint.Width] := by
  subst hmap
  have hloop := forLoopE_copy_ok a pLayouts pNumRows pRowSizesInBytes pSrcData NumSubresources
    { s with trace := s.trace ++ [UpEvent.Map true] } hfit
  simp [UpdateSubresources, hvalid, hloop, recordCopies, hdim, forLoop_copyRows_cmdList]

/-- Witness for C10 amended: the upload of the 480-byte buffer. -/
theorem UpdateSubresources_buffer_copy_witness :
    (UpdateSubresources Arch.x64 true exBuffer (exStaging 1024) 0 1 480 (fun _ => exBufferLayout)
        (fun _ => 1) (fun _ => 480) (fun _ => exSrc 480 480) exState).1 = 480 ∧
    (UpdateSubresources Arch.x64 true exBuffer (exStaging 1024) 0 1 480 (fun _ => exBufferLayout)
        (fun _ => 1) (fun _ => 480) (fun _ => exSrc 480 480) exState).2.cmdList
      = exState.cmdList ++ [Command.CopyBufferRegion exBuffer.name 0 (exStaging 1024).name
          ((fun _ => exBufferLayout) 0).Offset ((fun _ => exBufferLayout) 0).Footprint.Width] :=
  UpdateSubresources_buffer_copy Arch.x64 true exBuffer (exStaging 1024) 0 1 480
    (fun _ => exBufferLayout) (fun _ => 1) (fun _ => 480) (fun _ => exSrc 480 480) exState
    (by decide) rfl (fun _ _ => (by decide : (480 : Nat) ≤ SIZE_T_MAX Arch.x64)) rfl

/-! ### Lemmas on `MemcpySubresource` -/

/-- A `SIZE_T` product that fits is not reduced. -/
theorem asSIZE_T_of_lt (a : Arch) (n : Nat) (h : n < 2 ^ a.bits) : asSIZE_T a n = n :=
  Nat.mod_eq_of_lt h

/-- Reducing to `SIZE_T` never increases a value. -/
theorem asSIZE_T_le (a : Arch) (n : Nat) : asSIZE_T a n ≤ n := Nat.mod_le _ _

/-- A `LONG_PTR` product inside the signed range is not reduced. -/
theorem asLONG_PTR_of_range (a : Arch) (n : Int)
    (h : -(2 : Int) ^ (a.bits - 1) ≤ n ∧ n < (2 : Int) ^ (a.bits - 1)) :
    asLONG_PTR a n = n := by
  cases a <;> simp only [Arch.bits, Nat.add_one_sub_one] at h <;>
    simp only [asLONG_PTR, Arch.bits, Int.bmod] <;> norm_num at h ⊢ <;> omega

/-- The destination address of a row as the code computes it, in three
reduced steps, is the exact sum reduced once. -/
theorem destRow_eq (a : Arch) (p x y : Nat) :
    asSIZE_T a (asSIZE_T a (p + asSIZE_T a x) + asSIZE_T a y) = asSIZE_T a (p + x + y) := by
  simp [asSIZE_T, Nat.add_mod]

/-- A destination pointer reduced before the pitches are added gives the same
address. -/
theorem asSIZE_T_offset (a : Arch) (p x y : Nat) :
    asSIZE_T a (asSIZE_T a p + x + y) = asSIZE_T a (p + x + y) := by
  simp [asSIZE_T, Nat.add_mod]

/-- The source displacement of a row as the code computes it is the exact sum
reduced once. -/
theorem srcRow_eq (a : Arch) (x y : Int) :
    asLONG_PTR a (asLONG_PTR a x + asLONG_PTR a y) = asLONG_PTR a (x + y) := by
  simp [asLONG_PTR]

/-- Displacing an address inside the address space is plain addition. -/
theorem ptrAdd_of_fits (a : Arch) (q : Nat) (d : Int) (h0 : 0 ≤ (q : Int) + d)
    (h1 : (q : Int) + d < (2 : Int) ^ a.bits) : ptrAdd a q d = ((q : Int) + d).toNat := by
  unfold ptrAdd
  congr 1
  apply Int.emod_eq_of_lt h0
  push_cast
  exact h1

/-! Loops whose source is read from the memory they write. -/

theorem rowLoop_bytes_frame (src : (Nat → BYTE) → Int → BYTE) (d : Nat → Nat) (so : Nat → Int)
    (W n : Nat) (st : Staging) (p : Nat)
    (h : ∀ y, y < n → ¬ (d y ≤ p ∧ p < d y + W)) :
    (forLoop (fun y st => memcpy st (d y) (src st.bytes) (so y) W) n st).bytes p
      = st.bytes p := by
  induction n with
  | zero => rfl
  | succ n ih =>
    have h1 := ih (fun y hy => h y (Nat.lt_succ_of_lt hy))
    have h2 := h n (Nat.lt_succ_self n)
    simp only [forLoop, memcpy, if_neg h2]
    exact h1

theorem sliceLoop_bytes_frame (src : (Nat → BYTE) → Int → BYTE) (d : Nat → Nat → Nat)
    (so : Nat → Nat → Int) (W R n : Nat) (st : Staging) (p : Nat)
    (h : ∀ z, z < n → ∀ y, y < R → ¬ (d z y ≤ p ∧ p < d z y + W)) :
    (forLoop (fun z st =>
        forLoop (fun y st => memcpy st (d z y) (src st.bytes) (so z y) W) R st) n st).bytes p
      = st.bytes p := by
  induction n with
  | zero => rfl
  | succ n ih =>
    have h1 := ih (fun z hz => h z (Nat.lt_succ_of_lt hz))
    simp only [forLoop]
    rw [rowLoop_bytes_frame src (d n) (so n) W R _ p (h n (Nat.lt_succ_self n))]
    exact h1

theorem rowLoop_calls (src : (Nat → BYTE) → Int → BYTE) (d : Nat → Nat) (so : Nat → Int)
    (W n : Nat) (st : Staging) :
    (forLoop (fun y st => memcpy st (d y) (src st.bytes) (so y) W) n st).calls
      = st.calls ++ (List.range n).map (fun y => ⟨d y, so y, W⟩) := by
  induction n with
  | zero => simp [forLoop]
  | succ n ih =>
    rw [List.range_succ, List.map_append, ← List.append_assoc, ← ih]
    rfl

theorem sliceLoop_calls (src : (Nat → BYTE) → Int → BYTE) (d : Nat → Nat → Nat)
    (so : Nat → Nat → Int) (W R n : Nat) (st : Staging) :
    (forLoop (fun z st =>
        forLoop (fun y st => memcpy st (d z y) (src st.bytes) (so z y) W) R st) n st).calls
      = st.calls ++ ((List.range n).map fun z =>
          (List.range R).map (fun y => (⟨d z y, so z y, W⟩ : MemcpyCall))).flatten := by
  induction n with
  | zero => simp [forLoop]
  | succ n ih =>
    rw [List.range_succ, List.map_append, List.flatten_append, ← List.append_assoc, ← ih]
    simp only [forLoop, List.map_cons, List.map_nil, List.flatten_cons, List.flatten_nil,
      List.append_nil]
    exact rowLoop_calls src (d n) (so n) W R _

/-- `MemcpySubresource` as two loops over the rows, with the address and the
displacement of each row reduced once. -/
theorem MemcpySubresource_eq (a : Arch) (pDest : D3D12_MEMCPY_DEST)
    (pSrc : D3D12_SUBRESOURCE_DATA) (srcAt : Option Nat) (W R D : Nat) (st : Staging) :
    MemcpySubresource a pDest pSrc srcAt W R D st
      = forLoop (fun z st => forLoop (fun y st =>
          memcpy st (asSIZE_T a (pDest.pData + pDest.SlicePitch * z + pDest.RowPitch * y))
            (srcBytes a pSrc srcAt st.bytes)
            (asLONG_PTR a (pSrc.SlicePitch * z + pSrc.RowPitch * y)) W) R st) D st := by
  simp only [MemcpySubresource, destRow_eq, srcRow_eq]

/-- The `memcpy` calls of `MemcpySubresource`: one per slice and row, to the
address of the destination row. -/
theorem MemcpySubresource_calls (a : Arch) (pDest : D3D12_MEMCPY_DEST)
    (pSrc : D3D12_SUBRESOURCE_DATA) (srcAt : Option Nat) (W R D : Nat) (st : Staging) :
    (MemcpySubresource a pDest pSrc srcAt W R D st).calls
      = st.calls ++ ((List.range D).map fun z => (List.range R).map fun y =>
          (⟨asSIZE_T a (pDest.pData + pDest.SlicePitch * z + pDest.RowPitch * y),
            asLONG_PTR a (pSrc.SlicePitch * z + pSrc.RowPitch * y), W⟩ : MemcpyCall)).flatten := by
  rw [MemcpySubresource_eq]
  exact sliceLoop_calls (srcBytes a pSrc srcAt) _ _ W R D st

/-- `MemcpySubresource` leaves alone every byte outside the rows it writes, at
the addresses the code computes. -/
theorem MemcpySubresource_bytes_frame (a : Arch) (pDest : D3D12_MEMCPY_DEST)
    (pSrc : D3D12_SUBRESOURCE_DATA) (srcAt : Option Nat) (W R D : Nat) (st : Staging) (p : Nat)
    (h : ∀ z, z < D → ∀ y, y < R →
      ¬ (asSIZE_T a (pDest.pData + pDest.SlicePitch * z + pDest.RowPitch * y) ≤ p ∧
        p < asSIZE_T a (pDest.pData + pDest.SlicePitch * z + pDest.RowPitch * y) + W)) :
    (MemcpySubresource a pDest pSrc srcAt W R D st).bytes p = st.bytes p := by
  rw [MemcpySubresource_eq]
  exact sliceLoop_bytes_frame (srcBytes a pSrc srcAt) _ _ W R D st p h

/-- C9, evaluated where `RowPitch * pNumRows[i]` does not fit `UINT`: on a
64-bit target, a subresource of two slices of two one-byte rows with row
pitch `2^31` passes the validation against a staging buffer of `2^33` bytes
and the call succeeds, but the slice pitch `2^31 * 2` is computed in 32 bits
and is 0: the rows of slice 1 are copied to staging offsets 0 and `2^31`,
over slice 0, and nothing is copied to the offsets `2^32` and `2^32 + 2^31`
of the exact product. -/
theorem UpdateSubresources_slice_pitch_truncated :
    validationFails Arch.x64 exTexture (exStaging (2 ^ 33)) 0 1 (2 ^ 33)
      (fun _ => exHugePitchLayout) = false ∧
    (UpdateSubresources Arch.x64 true exTexture (exStaging (2 ^ 33)) 0 1 (2 ^ 33)
        (fun _ => exHugePitchLayout) (fun _ => 2) (fun _ => 1) (fun _ => exSrc 1 2) exState).1
      = 2 ^ 33 ∧
    (UpdateSubresources Arch.x64 true exTexture (exStaging (2 ^ 33)) 0 1 (2 ^ 33)
        (fun _ => exHugePitchLayout) (fun _ => 2) (fun _ => 1) (fun _ => exSrc 1 2)
        exState).2.trace
      = [UpEvent.Map true,
         UpEvent.memcpy 0 ⟨0, 0, 1⟩, UpEvent.memcpy 0 ⟨2 ^ 31, 1, 1⟩,
         UpEvent.memcpy 0 ⟨0, 2, 1⟩, UpEvent.memcpy 0 ⟨2 ^ 31, 3, 1⟩,
         UpEvent.Unmap] ∧
    UpEvent.memcpy 0 ⟨exHugePitchLayout.Offset + exHugePitchLayout.Footprint.RowPitch * 0
        + exHugePitchLayout.Footprint.RowPitch * 2 * 1, 1 * 0 + 2 * 1, 1⟩
      ∉ (UpdateSubresources Arch.x64 true exTexture (exStaging (2 ^ 33)) 0 1 (2 ^ 33)
        (fun _ => exHugePitchLayout) (fun _ => 2) (fun _ => 1) (fun _ => exSrc 1 2)
        exState).2.trace ∧
    (UpdateSubresources Arch.x64 true exTexture (exStaging (2 ^ 33)) 0 1 (2 ^ 33)
        (fun _ => exHugePitchLayout) (fun _ => 2) (fun _ => 1) (fun _ => exSrc 1 2)
        exState).2.bytes 0 = (exSrc 1 2).pData 2 := by
  decide

/-! ### The `memcpy` calls of a successful upload -/

theorem forLoop_memcpy_calls (src : Int → BYTE) (d : Nat → Nat) (so : Nat → Int)
    (W n : Nat) (st : Staging) :
    (forLoop (fun y st => memcpy st (d y) src (so y) W) n st).calls
      = st.calls ++ (List.range n).map (fun y => ⟨d y, so y, W⟩) := by
  induction n with
  | zero => simp [forLoop]
  | succ n ih =>
    rw [List.range_succ, List.map_append, ← List.append_assoc, ← ih]
    rfl

theorem forLoop_rows_calls (src : Int → BYTE) (d : Nat → Nat → Nat) (so : Nat → Nat → Int)
    (W R n : Nat) (st : Staging) :
    (forLoop (fun z st => forLoop (fun y st => memcpy st (d z y) src (so z y) W) R st)
      n st).calls
      = st.calls ++ ((List.range n).map fun z =>
          (List.range R).map (fun y => (⟨d z y, so z y, W⟩ : MemcpyCall))).flatten := by
  induction n with
  | zero => simp [forLoop]
  | succ n ih =>
    rw [List.range_succ, List.map_append, List.flatten_append, ← List.append_assoc, ← ih]
    simp only [forLoop, List.map_cons, List.map_nil, List.flatten_cons, List.flatten_nil,
      List.append_nil]
    exact forLoop_memcpy_calls src (d n) (so n) W R _

/-- The `memcpy` calls `MemcpySubresource` makes for subresource `i` of an
upload, in order: one per slice and row, with the offsets as the code computes
them. -/
theorem copyRows_trace (a : Arch)
    (pLayouts : Nat → D3D12_PLACED_SUBRESOURCE_FOOTPRINT) (pNumRows pRowSizesInBytes : Nat → Nat)
    (pSrcData : Nat → D3D12_SUBRESOURCE_DATA) (i : Nat) (s : UploadState) :
    (copyRows a pLayouts pNumRows pRowSizesInBytes pSrcData i s).trace
      = s.trace ++ ((List.range (pLayouts i).Footprint.Depth).map fun z =>
          (List.range (pNumRows i)).map fun y =>
            UpEvent.memcpy i
              ⟨asSIZE_T a ((pLayouts i).Offset
                  + asUINT ((pLayouts i).Footprint.RowPitch * pNumRows i) * z
                  + (pLayouts i).Footprint.RowPitch * y),
                asLONG_PTR a ((pSrcData i).SlicePitch * z + (pSrcData i).RowPitch * y),
                pRowSizesInBytes i⟩).flatten := by
  simp only [copyRows]
  rw [MemcpySubresource_calls]
  simp [List.map_flatten, List.map_map, Function.comp_def, asSIZE_T_offset]

theorem recordCopies_trace (pDestinationResource pIntermediate : ID3D12Resource)
    (FirstSubresource NumSubresources : Nat)
    (pLayouts : Nat → D3D12_PLACED_SUBRESOURCE_FOOTPRINT) (s : UploadState) :
    (recordCopies pDestinationResource pIntermediate FirstSubresource NumSubresources pLayouts
      s).trace = s.trace := by
  unfold recordCopies
  split
  · rfl
  · induction NumSubresources with
    | zero => rfl
    | succ n ih => simpa [forLoop] using ih

theorem forLoop_copyRows_trace (a : Arch)
    (pLayouts : Nat → D3D12_PLACED_SUBRESOURCE_FOOTPRINT) (pNumRows pRowSizesInBytes : Nat → Nat)
    (pSrcData : Nat → D3D12_SUBRESOURCE_DATA) (n : Nat) (s : UploadState) :
    (forLoop (copyRows a pLayouts pNumRows pRowSizesInBytes pSrcData) n s).trace
      = s.trace ++ ((List.range n).map fun i =>
          ((List.range (pLayouts i).Footprint.Depth).map fun z =>
            (List.range (pNumRows i)).map fun y =>
              UpEvent.memcpy i
                ⟨asSIZE_T a ((pLayouts i).Offset
                    + asUINT ((pLayouts i).Footprint.RowPitch * pNumRows i) * z
                    + (pLayouts i).Footprint.RowPitch * y),
                  asLONG_PTR a ((pSrcData i).SlicePitch * z + (pSrcData i).RowPitch * y),
                  pRowSizesInBytes i⟩).flatten).flatten := by
  induction n with
  | zero => simp [forLoop]
  | succ n ih =>
    rw [List.range_succ, List.map_append, List.flatten_append, ← List.append_assoc, ← ih]
    simp only [forLoop, List.map_cons, List.map_nil, List.flatten_cons, List.flatten_nil,
      List.append_nil]
    exact copyRows_trace a pLayouts pNumRows pRowSizesInBytes pSrcData n _

/-- Staging layout of a successful upload when neither the slice pitch nor the
address or the source displacement of the row overflows: for
every subresource `i`, slice `z` and row `y`, `pRowSizesInBytes[i]` bytes are
copied from the source displacement `RowPitch_src*y + SlicePitch_src*z` to the
staging offset `Offset + RowPitch*y + RowPitch*pNumRows[i]*z`. -/
theorem UpdateSubresources_staging_layout_of_fits (a : Arch)
    (pDestinationResource pIntermediate : ID3D12Resource)
    (FirstSubresource NumSubresources RequiredSize : Nat)
    (pLayouts : Nat → D3D12_PLACED_SUBRESOURCE_FOOTPRINT) (pNumRows pRowSizesInBytes : Nat → Nat)
    (pSrcData : Nat → D3D12_SUBRESOURCE_DATA) (s : UploadState)
    (hvalid : validationFails a pDestinationResource pIntermediate FirstSubresource
      NumSubresources RequiredSize pLayouts = false)
    (hfit : ∀ i, i < NumSubresources → pRowSizesInBytes i ≤ SIZE_T_MAX a)
    (i z y : Nat) (hi : i < NumSubresources) (hz : z < (pLayouts i).Footprint.Depth)
    (hy : y < pNumRows i)
    (hslice : (pLayouts i).Footprint.RowPitch * pNumRows i < 2 ^ 32)
    (hd : (pLayouts i).Offset + (pLayouts i).Footprint.RowPitch * y
      + (pLayouts i).Footprint.RowPitch * pNumRows i * z < 2 ^ a.bits)
    (hs : -(2 : Int) ^ (a.bits - 1)
        ≤ (pSrcData i).RowPitch * y + (pSrcData i).SlicePitch * z ∧
      (pSrcData i).RowPitch * y + (pSrcData i).SlicePitch * z < (2 : Int) ^ (a.bits - 1)) :
    UpEvent.memcpy i
        ⟨(pLayouts i).Offset + (pLayouts i).Footprint.RowPitch * y
            + (pLayouts i).Footprint.RowPitch * pNumRows i * z,
          (pSrcData i).RowPitch * y + (pSrcData i).SlicePitch * z, pRowSizesInBytes i⟩
      ∈ (UpdateSubresources a true pDestinationResource pIntermediate FirstSubresource
          NumSubresources RequiredSize pLayouts pNumRows pRowSizesInBytes pSrcData s).2.trace := by
  have hloop := forLoopE_copy_ok a pLayouts pNumRows pRowSizesInBytes pSrcData NumSubresources
    { s with trace := s.trace ++ [UpEvent.Map true] } hfit
  simp only [UpdateSubresources, hvalid, hloop, recordCopies_trace, forLoop_copyRows_trace,
    Bool.false_eq_true, if_false, Bool.not_true]
  simp only [List.mem_append, List.mem_flatten, List.mem_map, List.mem_range]
  left; right
  refine ⟨_, ⟨i, hi, rfl⟩, ?_⟩
  simp only [List.mem_flatten, List.mem_map, List.mem_range]
  refine ⟨_, ⟨z, hz, rfl⟩, ?_⟩
  simp only [List.mem_map, List.mem_range]
  refine ⟨y, hy, ?_⟩
  have e1 : asUINT ((pLayouts i).Footprint.RowPitch * pNumRows i)
      = (pLayouts i).Footprint.RowPitch * pNumRows i := Nat.mod_eq_of_lt hslice
  rw [e1, asSIZE_T_of_lt a _ (by omega), asLONG_PTR_of_range a _ ⟨by omega, by omega⟩]
  congr 2
  · omega
  · omega

/-! ### Lemmas on the trace and on waiting -/

@[simp] theorem log_g_FenceValues (s : FrameState) (e : Event) :
    (s.log e).g_FenceValues = s.g_FenceValues := rfl

@[simp] theorem log_g_FrameIndex (s : FrameState) (e : Event) :
    (s.log e).g_FrameIndex = s.g_FrameIndex := rfl

@[simp] theorem log_completed (s : FrameState) (e : Event) :
    (s.log e).completed = s.completed := rfl

@[simp] theorem log_queue (s : FrameState) (e : Event) : (s.log e).queue = s.queue := rfl

@[simp] theorem log_recording (s : FrameState) (e : Event) :
    (s.log e).recording = s.recording := rfl

@[simp] theorem log_trace (s : FrameState) (e : Event) :
    (s.log e).trace = s.trace ++ [⟨e, s.completed, s.g_FenceValues, s.recording⟩] := rfl

theorem logAll_fields (es : List Event) (s : FrameState) :
    (s.logAll es).g_FenceValues = s.g_FenceValues ∧ (s.logAll es).g_FrameIndex = s.g_FrameIndex ∧
    (s.logAll es).completed = s.completed ∧ (s.logAll es).queue = s.queue ∧
    (s.logAll es).recording = s.recording ∧
    (s.logAll es).trace
      = s.trace ++ es.map (fun e => ⟨e, s.completed, s.g_FenceValues, s.recording⟩) := by
  induction es generalizing s with
  | nil => simp [FrameState.logAll]
  | cons e es ih =>
    obtain ⟨h1, h2, h3, h4, h5, h6⟩ := ih (s.log e)
    refine ⟨h1, h2, h3, h4, h5, ?_⟩
    show ((s.log e).logAll es).trace = _
    rw [h6]
    simp [FrameState.log]

@[simp] theorem logAll_g_FenceValues (s : FrameState) (es : List Event) :
    (s.logAll es).g_FenceValues = s.g_FenceValues := (logAll_fields es s).1

@[simp] theorem logAll_g_FrameIndex (s : FrameState) (es : List Event) :
    (s.logAll es).g_FrameIndex = s.g_FrameIndex := (logAll_fields es s).2.1

@[simp] theorem logAll_completed (s : FrameState) (es : List Event) :
    (s.logAll es).completed = s.completed := (logAll_fields es s).2.2.1

@[simp] theorem logAll_queue (s : FrameState) (es : List Event) :
    (s.logAll es).queue = s.queue := (logAll_fields es s).2.2.2.1

@[simp] theorem logAll_recording (s : FrameState) (es : List Event) :
    (s.logAll es).recording = s.recording := (logAll_fields es s).2.2.2.2.1

@[simp] theorem logAll_trace (s : FrameState) (es : List Event) :
    (s.logAll es).trace
      = s.trace ++ es.map (fun e => ⟨e, s.completed, s.g_FenceValues, s.recording⟩) :=
  (logAll_fields es s).2.2.2.2.2

@[simp] theorem enqueue_g_FenceValues (s : FrameState) (op : QueueOp) :
    (s.enqueue op).g_FenceValues = s.g_FenceValues := rfl

@[simp] theorem enqueue_g_FrameIndex (s : FrameState) (op : QueueOp) :
    (s.enqueue op).g_FrameIndex = s.g_FrameIndex := rfl

@[simp] theorem enqueue_completed (s : FrameState) (op : QueueOp) :
    (s.enqueue op).completed = s.completed := rfl

@[simp] theorem enqueue_queue (s : FrameState) (op : QueueOp) :
    (s.enqueue op).queue = s.queue ++ [op] := rfl

@[simp] theorem enqueue_recording (s : FrameState) (op : QueueOp) :
    (s.enqueue op).recording = s.recording := rfl

@[simp] theorem enqueue_trace (s : FrameState) (op : QueueOp) :
    (s.enqueue op).trace = s.trace := rfl

theorem lastSignal_append_singleton (S : Nat) (t : List Logged) (l : Logged) :
    lastSignal S (t ++ [l])
      = (match l.ev with
        | Event.Signal f v => if f = S then some v else lastSignal S t
        | _ => lastSignal S t) := by
  simp only [lastSignal, List.foldl_append, List.foldl_cons, List.foldl_nil]

theorem lastSignal_append_quiet (S : Nat) (t ls : List Logged)
    (h : ∀ l, l ∈ ls → l.ev.quiet = true) : lastSignal S (t ++ ls) = lastSignal S t := by
  induction ls using List.reverseRecOn with
  | nil => simp
  | append_singleton ls l ih =>
    rw [← List.append_assoc, lastSignal_append_singleton]
    have hl := h l (by simp)
    have ih' := ih (fun x hx => h x (by simp [hx]))
    cases hev : l.ev <;> simp_all [Event.quiet]

theorem snoc_eq_split {α : Type} (t pre post : List α) (l e : α)
    (h : t ++ [l] = pre ++ e :: post) :
    (post = [] ∧ pre = t ∧ e = l) ∨ ∃ post1, post = post1 ++ [l] ∧ t = pre ++ e :: post1 := by
  rcases List.eq_nil_or_concat post with hp | ⟨post1, x, hp⟩
  · subst hp
    have h1 : t ++ [l] = pre ++ [e] := h
    have h2 := List.append_inj' h1 rfl
    exact Or.inl ⟨rfl, h2.1.symm, by simpa using h2.2.symm⟩
  · right
    subst hp
    have h1 : t ++ [l] = (pre ++ e :: post1) ++ [x] := by simpa using h
    have h2 := List.append_inj' h1 rfl
    have hx : l = x := by simpa using h2.2
    subst hx
    exact ⟨post1, by simp, h2.1⟩

theorem NoPrematureReset_snoc (t : List Logged) (l : Logged) :
    NoPrematureReset (t ++ [l]) ↔
      NoPrematureReset t ∧
        ∀ S, l.ev = Event.AllocatorReset S → ∀ v, lastSignal S t = some v → v ≤ l.completed S := by
  constructor
  · intro h
    refine ⟨?_, ?_⟩
    · intro pre e post S ht he v hv
      exact h pre e (post ++ [l]) S (by simp [ht]) he v hv
    · intro S he v hv
      exact h t l [] S rfl he v hv
  · rintro ⟨h1, h2⟩ pre e post S ht he v hv
    rcases snoc_eq_split t pre post l e ht with ⟨_, hpre, hel⟩ | ⟨post1, _, ht1⟩
    · subst hpre; subst hel
      exact h2 S he v hv
    · exact h1 pre e post1 S ht1 he v hv

theorem NoPrematureReset_append_quiet (t ls : List Logged)
    (h : ∀ l, l ∈ ls → l.ev.quiet = true) :
    NoPrematureReset (t ++ ls) ↔ NoPrematureReset t := by
  induction ls using List.reverseRecOn with
  | nil => simp
  | append_singleton ls l ih =>
    rw [← List.append_assoc, NoPrematureReset_snoc, ih (fun x hx => h x (by simp [hx]))]
    have hl := h l (by simp)
    constructor
    · exact fun h1 => h1.1
    · intro h1
      refine ⟨h1, ?_⟩
      intro S he
      rw [he] at hl
      simp [Event.quiet] at hl
/-- When the GPU has run until fence `f` reached `v`, the fence has reached `v`. -/
theorem gpuRunUntil_reached (f v : Nat) (q : List QueueOp) (c : Nat → Nat)
    (q1 : List QueueOp) (c1 : Nat → Nat) (h : gpuRunUntil f v q c = some (q1, c1)) :
    v ≤ c1 f := by
  induction q generalizing c with
  | nil =>
    simp only [gpuRunUntil] at h
    split at h
    · simp only [Option.some.injEq, Prod.mk.injEq] at h
      rw [← h.2]; assumption
    · exact absurd h (by simp)
  | cons op q ih =>
    simp only [gpuRunUntil] at h
    split at h
    · simp only [Option.some.injEq, Prod.mk.injEq] at h
      rw [← h.2]; assumption
    · cases op with
      | Execute => exact ih c h
      | Signal g w => exact ih _ h
      | Wait g w =>
        simp only at h
        split at h
        · exact ih c h
        · exact absurd h (by simp)

/-- What `WaitForFrame` guarantees when it returns: the index is in range, the
globals are unchanged, the fence has reached its target, and the trace has
only grown by actions that are neither a `Signal` nor an allocator reset. -/
theorem WaitForFrame_spec (i : Nat) (s s1 : FrameState) (h : WaitForFrame i s = some s1) :
    i < FRAME_BUFFER_COUNT ∧ s1.g_FenceValues = s.g_FenceValues ∧
    s1.g_FrameIndex = s.g_FrameIndex ∧ s1.recording = s.recording ∧
    s.g_FenceValues i ≤ s1.completed i ∧
    ∃ ls, s1.trace = s.trace ++ ls ∧ ∀ l, l ∈ ls → l.ev.quiet = true := by
  unfold WaitForFrame at h
  split at h
  · rename_i hi
    simp only [log_completed, log_g_FenceValues, log_queue] at h
    split at h
    · split at h
      · rename_i q c hrun
        simp only [Option.some.injEq] at h
        subst h
        refine ⟨hi, rfl, rfl, rfl, gpuRunUntil_reached _ _ _ _ _ _ hrun, ?_⟩
        refine ⟨[⟨Event.GetCompletedValue i (s.completed i), s.completed, s.g_FenceValues,
            s.recording⟩,
          ⟨Event.SetEventOnCompletion i (s.g_FenceValues i), s.completed, s.g_FenceValues,
            s.recording⟩,
          ⟨Event.WaitForSingleObject, s.completed, s.g_FenceValues, s.recording⟩], ?_, ?_⟩
        · simp [List.append_assoc]
        · intro l hl
          simp only [List.mem_cons, List.mem_singleton, List.not_mem_nil, or_false] at hl
          rcases hl with hl | hl | hl <;> subst hl <;> rfl
      · exact absurd h (by simp)
    · rename_i hlt
      simp only [Option.some.injEq] at h
      subst h
      refine ⟨hi, rfl, rfl, rfl, Nat.not_lt.mp hlt, _, rfl, ?_⟩
      intro l hl
      simp only [List.mem_singleton] at hl
      subst hl; rfl
  · exact absurd h (by simp)

/-- Appending actions that are quiet, or resets of the allocator of slot `i`
made when fence `i` has reached the value last signalled on it, keeps the
trace free of premature resets and keeps the latest signals. -/
theorem NoPrematureReset_append_benign (i b : Nat) (t ls : List Logged)
    (ht : NoPrematureReset t) (hb : ∀ v, lastSignal i t = some v → v = b)
    (hls : ∀ l, l ∈ ls → l.ev.quiet = true ∨ (l.ev = Event.AllocatorReset i ∧ b ≤ l.completed i)) :
    NoPrematureReset (t ++ ls) ∧ ∀ S, lastSignal S (t ++ ls) = lastSignal S t := by
  induction ls using List.reverseRecOn with
  | nil => simpa using ht
  | append_singleton ls l ih =>
    obtain ⟨ih1, ih2⟩ := ih (fun x hx => hls x (by simp [hx]))
    have hl := hls l (by simp)
    rw [← List.append_assoc]
    refine ⟨(NoPrematureReset_snoc _ _).mpr ⟨ih1, ?_⟩, ?_⟩
    · intro S he v hv
      rcases hl with hq | ⟨hr, hc⟩
      · rw [he] at hq; simp [Event.quiet] at hq
      · rw [he] at hr
        simp only [Event.AllocatorReset.injEq] at hr
        subst hr
        rw [ih2] at hv
        rw [hb v hv]; exact hc
    · intro S
      rw [lastSignal_append_singleton, ih2]
      rcases hl with hq | ⟨hr, _⟩
      · cases hev : l.ev <;> simp_all [Event.quiet]
      · rw [hr]

/-- The pattern of every acquisition of slot `i`: after benign actions the new
target `w` is signalled on fence `i`, followed by quiet actions. -/
theorem acquire_preserves (i w : Nat) (s s1 : FrameState) (pre post : List Logged) (sig : Logged)
    (hs : TargetsMatchSignals s ∧ NoPrematureReset s.trace)
    (hg : s1.g_FenceValues = Function.update s.g_FenceValues i w)
    (htr : s1.trace = s.trace ++ pre ++ [sig] ++ post)
    (hsig : sig.ev = Event.Signal i w)
    (hpre : ∀ l, l ∈ pre →
      l.ev.quiet = true ∨ (l.ev = Event.AllocatorReset i ∧ s.g_FenceValues i ≤ l.completed i))
    (hpost : ∀ l, l ∈ post → l.ev.quiet = true) :
    TargetsMatchSignals s1 ∧ NoPrematureReset s1.trace := by
  obtain ⟨h1, h2⟩ := hs
  obtain ⟨a1, a2⟩ := NoPrematureReset_append_benign i (s.g_FenceValues i) s.trace pre h2
    (fun v hv => (h1 i v hv).symm) hpre
  have b1 : NoPrematureReset (s.trace ++ pre ++ [sig]) :=
    (NoPrematureReset_snoc _ _).mpr ⟨a1, fun S he => by rw [hsig] at he; cases he⟩
  have b2 : ∀ S, lastSignal S (s.trace ++ pre ++ [sig])
      = if i = S then some w else lastSignal S s.trace := by
    intro S
    rw [lastSignal_append_singleton, hsig, a2]
  refine ⟨?_, ?_⟩
  · intro S v hv
    rw [htr, lastSignal_append_quiet S _ post hpost, b2] at hv
    rw [hg]
    by_cases hi : i = S
    · subst hi
      simp only [if_true, Option.some.injEq] at hv
      simp [hv]
    · simp only [if_neg hi] at hv
      rw [Function.update_noteq (Ne.symm hi)]
      exact h1 S v hv
  · rw [htr]
    exact (NoPrematureReset_append_quiet _ post hpost).mpr b1

/-- Actions that only add quiet entries to the trace and keep the targets. -/
theorem quiet_preserves (s s1 : FrameState) (ls : List Logged)
    (hs : TargetsMatchSignals s ∧ NoPrematureReset s.trace)
    (hg : s1.g_FenceValues = s.g_FenceValues) (htr : s1.trace = s.trace ++ ls)
    (hq : ∀ l, l ∈ ls → l.ev.quiet = true) :
    TargetsMatchSignals s1 ∧ NoPrematureReset s1.trace := by
  refine ⟨?_, ?_⟩
  · intro S v hv
    rw [htr, lastSignal_append_quiet S _ ls hq] at hv
    rw [hg]; exact hs.1 S v hv
  · rw [htr]; exact (NoPrematureReset_append_quiet _ ls hq).mpr hs.2

theorem gpuStep_fields (s : FrameState) :
    (gpuStep s).g_FenceValues = s.g_FenceValues ∧ (gpuStep s).g_FrameIndex = s.g_FrameIndex ∧
    (gpuStep s).recording = s.recording ∧ (gpuStep s).trace = s.trace := by
  unfold gpuStep
  split
  · exact ⟨rfl, rfl, rfl, rfl⟩
  · exact ⟨rfl, rfl, rfl, rfl⟩
  · exact ⟨rfl, rfl, rfl, rfl⟩
  · split <;> exact ⟨rfl, rfl, rfl, rfl⟩

theorem gpuSteps_fields (n : Nat) (s : FrameState) :
    (gpuSteps n s).g_FenceValues = s.g_FenceValues ∧ (gpuSteps n s).g_FrameIndex = s.g_FrameIndex ∧
    (gpuSteps n s).recording = s.recording ∧ (gpuSteps n s).trace = s.trace := by
  induction n generalizing s with
  | zero => exact ⟨rfl, rfl, rfl, rfl⟩
  | succ n ih =>
    obtain ⟨a1, a2, a3, a4⟩ := ih (gpuStep s)
    obtain ⟨b1, b2, b3, b4⟩ := gpuStep_fields s
    exact ⟨a1.trans b1, a2.trans b2, a3.trans b3, a4.trans b4⟩

/-- What `WaitGPUIdle` guarantees when it returns. -/
theorem WaitGPUIdle_spec (i : Nat) (s s1 : FrameState) (h : WaitGPUIdle i s = some s1) :
    i < FRAME_BUFFER_COUNT ∧
    s1.g_FenceValues = Function.update s.g_FenceValues i (asUINT64 (s.g_FenceValues i + 1)) ∧
    s1.g_FrameIndex = s.g_FrameIndex ∧ s1.recording = s.recording ∧
    asUINT64 (s.g_FenceValues i + 1) ≤ s1.completed i ∧
    ∃ sig post, s1.trace = s.trace ++ [sig] ++ post ∧
      sig.ev = Event.Signal i (asUINT64 (s.g_FenceValues i + 1)) ∧
      ∀ l, l ∈ post → l.ev.quiet = true := by
  unfold WaitGPUIdle at h
  split at h
  · rename_i hi
    obtain ⟨_, w2, w3, w4, w5, ls, w6, w7⟩ := WaitForFrame_spec i _ s1 h
    simp only [enqueue_g_FenceValues, log_g_FenceValues, enqueue_g_FrameIndex, log_g_FrameIndex,
      enqueue_recording, log_recording, enqueue_trace, log_trace, Function.update_same] at w2 w3 w4 w5 w6
    exact ⟨hi, w2, w3, w4, w5, _, ls, w6, rfl, w7⟩
  · exact absurd h (by simp)

/-- The shape of a `Render` that returns. -/
theorem Render_spec (bb : Nat) (s s1 : FrameState) (h : Render bb s = some s1) :
    bb < FRAME_BUFFER_COUNT ∧
    s1.g_FenceValues = Function.update s.g_FenceValues bb (asUINT64 (s.g_FenceValues bb + 1)) ∧
    s1.g_FrameIndex = bb ∧
    ∃ pre r mid sig post, s1.trace = s.trace ++ (pre ++ [r] ++ mid) ++ [sig] ++ post ∧
      r.ev = Event.AllocatorReset bb ∧ s.g_FenceValues bb ≤ r.completed bb ∧
      sig.ev = Event.Signal bb (asUINT64 (s.g_FenceValues bb + 1)) ∧
      (∀ l, l ∈ pre → l.ev.quiet = true) ∧ (∀ l, l ∈ mid → l.ev.quiet = true) ∧
      (∀ l, l ∈ post → l.ev.quiet = true) := by
  unfold Render at h
  dsimp only at h
  split at h
  · exact absurd h (by simp)
  · rename_i sw hw
    obtain ⟨w1, w2, w3, w4, w5, ls, w6, w7⟩ := WaitForFrame_spec _ _ sw hw
    simp only at w1 w2 w3 w4 w5 w6
    simp only [Option.some.injEq] at h
    subst h
    simp only [w3]
    refine ⟨w1, ?_, rfl, ?_⟩
    · simp [w2]
    · refine ⟨ls, ⟨Event.AllocatorReset bb, sw.completed,
          Function.update sw.g_FenceValues bb (asUINT64 (sw.g_FenceValues bb + 1)), sw.recording⟩,
        [⟨Event.ListReset bb, sw.completed,
            Function.update sw.g_FenceValues bb (asUINT64 (sw.g_FenceValues bb + 1)),
            sw.recording⟩] ++
          (renderCommands bb).map (fun c => ⟨Event.Record c, sw.completed,
            Function.update sw.g_FenceValues bb (asUINT64 (sw.g_FenceValues bb + 1)), true⟩) ++
          [⟨Event.ListClose, sw.completed,
              Function.update sw.g_FenceValues bb (asUINT64 (sw.g_FenceValues bb + 1)), true⟩,
           ⟨Event.ExecuteCommandLists, sw.completed,
              Function.update sw.g_FenceValues bb (asUINT64 (sw.g_FenceValues bb + 1)), false⟩],
        ⟨Event.Signal bb (asUINT64 (sw.g_FenceValues bb + 1)), sw.completed,
          Function.update sw.g_FenceValues bb (asUINT64 (sw.g_FenceValues bb + 1)), false⟩,
        [⟨Event.Present, sw.completed,
          Function.update sw.g_FenceValues bb (asUINT64 (sw.g_FenceValues bb + 1)), false⟩],
        ?_, rfl, w5, ?_, w7, ?_, ?_⟩
      · simp [w6, List.map_map, Function.comp_def]
      · simp [w2]
      · intro l hl
        simp only [List.mem_append, List.mem_cons, List.mem_singleton, List.not_mem_nil,
          or_false, List.mem_map] at hl
        rcases hl with (hl | ⟨c, _, hl⟩) | hl | hl <;> subst hl <;> rfl
      · intro l hl
        simp only [List.mem_singleton] at hl
        subst hl; rfl

/-- The first loop of `Cleanup` keeps the targets and adds quiet actions. -/
theorem cleanupLoop_spec (n : Nat) (s s1 : FrameState)
    (h : forLoopO cleanupWait n s = some s1) :
    s1.g_FenceValues = s.g_FenceValues ∧ s1.g_FrameIndex = s.g_FrameIndex ∧
    ∃ ls, s1.trace = s.trace ++ ls ∧ ∀ l, l ∈ ls → l.ev.quiet = true := by
  induction n generalizing s1 with
  | zero =>
    simp only [forLoopO, Option.some.injEq] at h
    subst h
    exact ⟨rfl, rfl, [], by simp, by simp⟩
  | succ n ih =>
    simp only [forLoopO] at h
    split at h
    · rename_i sa ha
      obtain ⟨a1, a2, la, a3, a4⟩ := ih sa ha
      unfold cleanupWait at h
      split at h
      · exact absurd h (by simp)
      · rename_i sw hw
        obtain ⟨_, w2, w3, _, _, lw, w6, w7⟩ := WaitForFrame_spec _ _ sw hw
        simp only [Option.some.injEq] at h
        subst h
        refine ⟨by simp [w2, a1], by simp [w3, a2],
          la ++ lw ++ [⟨Event.QueueWait n (sw.g_FenceValues n), sw.completed, sw.g_FenceValues,
            sw.recording⟩], by simp [w6, a3], ?_⟩
        intro l hl
        simp only [List.mem_append, List.mem_singleton] at hl
        rcases hl with (hl | hl) | hl
        · exact a4 l hl
        · exact w7 l hl
        · subst hl; rfl
    · exact absurd h (by simp)

/-- Every step either keeps the fence targets and adds quiet actions to the
trace, or acquires one slot `i`: the target of `i` becomes the old one plus
one (as `UINT64`), that value is signalled on fence `i`, and an allocator
reset made before the signal is a reset of slot `i` made when fence `i` had
reached the old target. -/
theorem step_shape (op : Op) (s s1 : FrameState) (h : step op s = some s1) :
    (op.acquires s = none ∧ s1.g_FenceValues = s.g_FenceValues ∧
      ∃ ls, s1.trace = s.trace ++ ls ∧ ∀ l, l ∈ ls → l.ev.quiet = true) ∨
    (∃ i, op.acquires s = some i ∧
      s1.g_FenceValues = Function.update s.g_FenceValues i (asUINT64 (s.g_FenceValues i + 1)) ∧
      ∃ pre sig post, s1.trace = s.trace ++ pre ++ [sig] ++ post ∧
        sig.ev = Event.Signal i (asUINT64 (s.g_FenceValues i + 1)) ∧
        (∀ l, l ∈ pre → l.ev.quiet = true ∨
          (l.ev = Event.AllocatorReset i ∧ s.g_FenceValues i ≤ l.completed i)) ∧
        (∀ l, l ∈ post → l.ev.quiet = true)) := by
  cases op with
  | Update =>
    left
    simp only [step, Update] at h
    split at h
    · simp only [Option.some.injEq] at h
      subst h
      refine ⟨rfl, by simp, _, logAll_trace _ _, ?_⟩
      intro l hl
      simp only [List.map_cons, List.map_nil, List.mem_cons, List.mem_singleton,
        List.not_mem_nil, or_false] at hl
      rcases hl with hl | hl | hl <;> subst hl <;> rfl
    · exact absurd h (by simp)
  | Render bb =>
    right
    obtain ⟨_, r2, _, pre, r, mid, sig, post, r4, r5, r6, r7, r8, r9, r10⟩ := Render_spec bb s s1 h
    refine ⟨bb, rfl, r2, pre ++ [r] ++ mid, sig, post, by simp [r4], r7, ?_, r10⟩
    intro l hl
    simp only [List.mem_append, List.mem_singleton] at hl
    rcases hl with (hl | hl) | hl
    · exact Or.inl (r8 l hl)
    · subst hl; exact Or.inr ⟨r5, r6⟩
    · exact Or.inl (r9 l hl)
  | WaitForFrame i =>
    left
    obtain ⟨_, w2, _, _, _, ls, w6, w7⟩ := WaitForFrame_spec i s s1 h
    exact ⟨rfl, w2, ls, w6, w7⟩
  | WaitGPUIdle i =>
    right
    obtain ⟨_, w2, _, _, _, sig, post, w6, w7, w8⟩ := WaitGPUIdle_spec i s s1 h
    exact ⟨i, rfl, w2, [], sig, post, by simp [w6], w7, by simp, w8⟩
  | BeginCommandList =>
    left
    simp only [step, BeginCommandList] at h
    split at h
    · simp only [Option.some.injEq] at h
      subst h
      refine ⟨rfl, rfl, [⟨Event.ListReset s.g_FrameIndex, s.completed, s.g_FenceValues,
        s.recording⟩], rfl, ?_⟩
      intro l hl
      simp only [List.mem_singleton] at hl
      subst hl; rfl
    · exact absurd h (by simp)
  | EndCommandList =>
    right
    simp only [step, EndCommandList] at h
    obtain ⟨_, w2, _, _, _, sig, post, w6, w7, w8⟩ := WaitGPUIdle_spec _ _ s1 h
    simp only [enqueue_g_FrameIndex, log_g_FrameIndex, enqueue_g_FenceValues,
      log_g_FenceValues, enqueue_trace, log_trace] at w2 w6 w7
    refine ⟨s.g_FrameIndex, rfl, w2,
      [⟨Event.ListClose, s.completed, s.g_FenceValues, s.recording⟩,
       ⟨Event.ExecuteCommandLists, s.completed, s.g_FenceValues, false⟩], sig, post,
      by simp [w6], w7, ?_, w8⟩
    intro l hl
    simp only [List.mem_cons, List.mem_singleton, List.not_mem_nil, or_false] at hl
    rcases hl with hl | hl <;> subst hl <;> exact Or.inl rfl
  | Cleanup =>
    right
    simp only [step, Cleanup] at h
    split at h
    · exact absurd h (by simp)
    · rename_i sa ha
      obtain ⟨a1, _, la, a3, a4⟩ := cleanupLoop_spec _ s sa ha
      split at h
      · exact absurd h (by simp)
      · rename_i sb hb
        obtain ⟨_, w2, _, _, _, sig, post, w6, w7, w8⟩ := WaitGPUIdle_spec 0 sa sb hb
        simp only [Option.some.injEq] at h
        subst h
        rw [a1] at w2 w7
        refine ⟨0, rfl, by simp [w2], la, sig,
          post ++ (cleanupReleases.map Event.Release).map
            (fun e => ⟨e, sb.completed, sb.g_FenceValues, sb.recording⟩),
          by simp [w6, a3], w7, fun l hl => Or.inl (a4 l hl), ?_⟩
        intro l hl
        simp only [List.mem_append, List.mem_map] at hl
        rcases hl with hl | ⟨e, ⟨o, _, ho⟩, he⟩
        · exact w8 l hl
        · subst he; subst ho; rfl
  | gpu n =>
    left
    simp only [step, Option.some.injEq] at h
    subst h
    obtain ⟨g1, _, _, g4⟩ := gpuSteps_fields n s
    exact ⟨rfl, g1, [], by simp [g4], by simp⟩

theorem QuietExt.refl (s : FrameState) : QuietExt s s :=
  ⟨rfl, rfl, rfl, ⟨0, by simp⟩, [], by simp, by simp⟩

theorem QuietExt.log {s s1 : FrameState} (h : QuietExt s s1) (e : Event) (he : e.quiet = true) :
    QuietExt s (s1.log e) := by
  obtain ⟨h1, h2, h3, h4, ls, h5, h6⟩ := h
  refine ⟨h1, h2, h3, h4, ls ++ [⟨e, s1.completed, s1.g_FenceValues, s1.recording⟩],
    by simp [h5], ?_⟩
  intro l hl
  simp only [List.mem_append, List.mem_singleton] at hl
  rcases hl with hl | hl
  · exact h6 l hl
  · subst hl; exact he

theorem QuietExt.setRecording {s s1 : FrameState} (h : QuietExt s s1) (b : Bool) :
    QuietExt s { s1 with recording := b } := h

theorem QuietExt.execute {s s1 : FrameState} (h : QuietExt s s1) :
    QuietExt s (s1.enqueue QueueOp.Execute) := by
  obtain ⟨h1, h2, h3, ⟨n, h4⟩, h5⟩ := h
  refine ⟨h1, h2, h3, ⟨n + 1, ?_⟩, h5⟩
  simp [h4, List.replicate_succ']

theorem QuietExt.upload {s s1 : FrameState} (h : QuietExt s s1) (env : InitEnv)
    (dest staging : ID3D12Resource) (src : D3D12_SUBRESOURCE_DATA) :
    QuietExt s (uploadAndRecord env dest staging src s1).2 := by
  obtain ⟨h1, h2, h3, h4, ls, h5, h6⟩ := h
  refine ⟨by simp [uploadAndRecord, h1], by simp [uploadAndRecord, h2],
    by simp [uploadAndRecord, h3], by simpa [uploadAndRecord] using h4, ?_⟩
  refine ⟨ls ++ _, by rw [uploadAndRecord, logAll_trace, h5, List.append_assoc], ?_⟩
  intro l hl
  simp only [List.mem_append, List.mem_map] at hl
  rcases hl with hl | ⟨e, ⟨c, _, hc⟩, he⟩
  · exact h6 l hl
  · subst he; subst hc; rfl

theorem recordInitialUploads_spec (env : InitEnv) (s s1 : FrameState)
    (h : recordInitialUploads env s = some s1) : QuietExt s s1 := by
  unfold recordInitialUploads at h
  dsimp only at h
  split at h
  · exact absurd h (by simp)
  · split at h
    · exact absurd h (by simp)
    · simp only [Option.some.injEq] at h
      subst h
      simp only [FrameState.record]
      apply QuietExt.execute
      refine QuietExt.log ?_ _ (by rfl)
      apply QuietExt.setRecording
      refine QuietExt.log ?_ _ (by rfl)
      refine QuietExt.log ?_ _ (by rfl)
      apply QuietExt.upload
      refine QuietExt.log ?_ _ (by rfl)
      apply QuietExt.upload
      refine QuietExt.log ?_ _ (by rfl)
      apply QuietExt.upload
      apply QuietExt.setRecording
      refine QuietExt.log ?_ _ (by rfl)
      exact QuietExt.refl s

/-- The state `InitD3D` returns: the slot of the first back buffer has target 1,
signalled and reached; every other target is 0; nothing else was signalled
and no allocator was reset. -/
theorem InitD3D_spec (env : InitEnv) (bb : Nat) (s0 : FrameState)
    (h : InitD3D env bb = some s0) :
    bb < FRAME_BUFFER_COUNT ∧ s0.g_FenceValues = Function.update (fun _ => 0) bb 1 ∧
    s0.g_FrameIndex = bb ∧ TargetsMatchSignals s0 ∧ NoPrematureReset s0.trace := by
  unfold InitD3D at h
  dsimp only at h
  split at h
  · rename_i hbb
    split at h
    · exact absurd h (by simp)
    · rename_i s7 h7
      split at h
      · exact absurd h (by simp)
      · rename_i s8 h8
        simp only [Option.some.injEq] at h
        subst h
        obtain ⟨q1, q2, _, _, lq, q5, q6⟩ := recordInitialUploads_spec env _ s7 h7
        obtain ⟨_, w2, w3, _, _, sig, post, w6, w7, w8⟩ := WaitGPUIdle_spec _ _ s8 h8
        simp only [log_g_FenceValues, log_g_FrameIndex, log_trace, initialState,
          List.nil_append] at q1 q2 q5 hbb
        rw [q2, q1] at w2 w7
        have hone : asUINT64 (0 + 1) = 1 := by decide
        simp only [hone] at w2 w7
        have hg : (s8.logAll
            [Event.Release (Owned.allocation Resource.textureUpload),
             Event.Release (Owned.allocation Resource.iBufferUploadHeap),
             Event.Release (Owned.allocation Resource.vBufferUploadHeap)]).g_FenceValues
            = Function.update (initialState bb).g_FenceValues bb 1 := by
          rw [logAll_g_FenceValues]; exact w2
        refine ⟨hbb, hg, by simp [w3, q2], ?_⟩
        refine acquire_preserves bb 1 (initialState bb) _
          ([⟨Event.ListClose, fun _ => 0, fun _ => 0, true⟩] ++ lq) 
          (post ++ [Event.Release (Owned.allocation Resource.textureUpload),
             Event.Release (Owned.allocation Resource.iBufferUploadHeap),
             Event.Release (Owned.allocation Resource.vBufferUploadHeap)].map
             (fun e => ⟨e, s8.completed, s8.g_FenceValues, s8.recording⟩)) sig
          ⟨fun S v hv => by simp [initialState, lastSignal] at hv,
            fun pre e post S ht => by
              simp only [initialState] at ht
              exact absurd ht (by simp)⟩
          hg ?_ w7 ?_ ?_
        · rw [logAll_trace, w6, q5]
          simp [initialState]
        · intro l hl
          simp only [List.mem_append, List.mem_singleton] at hl
          rcases hl with hl | hl
          · subst hl; exact Or.inl rfl
          · exact Or.inl (q6 l hl)
        · intro l hl
          simp only [List.mem_append, List.mem_map] at hl
          rcases hl with hl | ⟨e, he, hl⟩
          · exact w8 l hl
          · subst hl
            simp only [List.mem_cons, List.mem_singleton, List.not_mem_nil, or_false] at he
            rcases he with he | he | he <;> subst he <;> rfl
  · exact absurd h (by simp)

/-- The invariant behind C2 holds after every execution. -/
theorem run_preserves (ops : List Op) (s s1 : FrameState) (h : run ops s = some s1)
    (hs : TargetsMatchSignals s ∧ NoPrematureReset s.trace) :
    TargetsMatchSignals s1 ∧ NoPrematureReset s1.trace := by
  induction ops generalizing s with
  | nil =>
    simp only [run, Option.some.injEq] at h
    subst h; exact hs
  | cons op ops ih =>
    simp only [run] at h
    split at h
    · exact absurd h (by simp)
    · rename_i sa ha
      refine ih sa h ?_
      rcases step_shape op s sa ha with ⟨_, q2, ls, q3, q4⟩ | ⟨i, _, a2, pre, sig, post, a3, a4, a5, a6⟩
      · exact quiet_preserves s sa ls hs q2 q3 q4
      · exact acquire_preserves i _ s sa pre post sig hs a2 a3 a4 a5 a6

/-! ## Properties of the frame ring -/

/-- C3, evaluated on two iterations of the main loop with back buffers 0 and 1
while the GPU executes nothing: the first `Update` writes the buffers of slot
0 with fence 0 at its target 1; the second `Update` still writes the buffers
of slot 0, because `g_FrameIndex` is only refreshed inside `Render`, at a
moment when the frame just submitted on slot 0 has target 2 and fence 0 has
completed only 1. -/
theorem Update_writes_slot_in_flight :
    ((InitD3D exEnv 0).bind (run (mainLoop (fun _ => 0) [0, 1] 0))).map
        (fun s => cpuWrites s.trace)
      = some
        [(Event.CpuWrite (Resource.g_ConstantBufferUploadHeap 0) 0 16, 1, 1),
         (Event.CpuWrite (Resource.g_CbPerObjectUploadHeaps 0) 0 64, 1, 1),
         (Event.CpuWrite (Resource.g_CbPerObjectUploadHeaps 0) 256 64, 1, 1),
         (Event.CpuWrite (Resource.g_ConstantBufferUploadHeap 0) 0 16, 1, 2),
         (Event.CpuWrite (Resource.g_CbPerObjectUploadHeaps 0) 0 64, 1, 2),
         (Event.CpuWrite (Resource.g_CbPerObjectUploadHeaps 0) 256 64, 1, 2)] := by
  decide

theorem asUINT64_succ (n : Nat) (h : n < 2 ^ 64 - 1) : asUINT64 (n + 1) = n + 1 :=
  Nat.mod_eq_of_lt (by omega)

/-- The fence target of a slot after one step. -/
theorem step_targets (op : Op) (s s1 : FrameState) (h : step op s = some s1) (S : Nat) :
    (op.acquires s = some S → s1.g_FenceValues S = asUINT64 (s.g_FenceValues S + 1)) ∧
    (op.acquires s ≠ some S → s1.g_FenceValues S = s.g_FenceValues S) := by
  rcases step_shape op s s1 h with ⟨q1, q2, _⟩ | ⟨i, a1, a2, _⟩
  · exact ⟨fun hc => (by rw [q1] at hc; cases hc), fun _ => (by rw [q2])⟩
  · refine ⟨fun hc => ?_, fun hc => ?_⟩
    · rw [a1] at hc
      simp only [Option.some.injEq] at hc
      subst hc
      simp [a2]
    · rw [a1] at hc
      have hne : S ≠ i := fun e => hc (by rw [e])
      simp [a2, Function.update_noteq hne]

/-- C4, amended. Monotonicity of fence targets: every target is 0 when
`InitD3D` has created the fences; `InitD3D` itself ends with
`WaitGPUIdle(g_FrameIndex)` and returns with target 1 for that slot and 0 for
the others; a step that acquires slot `S` (`Render` on `S`, `WaitGPUIdle(S)`,
also inside `EndCommandList` and `Cleanup`) makes `g_FenceValues[S]` the
`UINT64` successor of its old value and any other step leaves it alone, so
while the target is below `2^64 - 1` it does not decrease and each acquisition
makes it exactly one greater; hence over an execution of fewer steps than are
left before `2^64` the target of `S` never decreases, and the targets assigned
to `S` are strictly increasing until one of them is `2^64 - 1`. -/
theorem fence_targets_monotone :
    (∀ bb S, (initialState bb).g_FenceValues S = 0) ∧
    (∀ env bb s0, InitD3D env bb = some s0 →
      ∀ S, s0.g_FenceValues S = if S = bb then 1 else 0) ∧
    (∀ op s s1, step op s = some s1 → ∀ S,
      (op.acquires s = some S → s1.g_FenceValues S = asUINT64 (s.g_FenceValues S + 1)) ∧
      (op.acquires s ≠ some S → s1.g_FenceValues S = s.g_FenceValues S) ∧
      (s.g_FenceValues S < 2 ^ 64 - 1 →
        s.g_FenceValues S ≤ s1.g_FenceValues S ∧
        (op.acquires s = some S → s1.g_FenceValues S = s.g_FenceValues S + 1))) ∧
    (∀ ops s s1, run ops s = some s1 → ∀ S, s.g_FenceValues S + ops.length < 2 ^ 64 →
      s.g_FenceValues S ≤ s1.g_FenceValues S ∧
      s1.g_FenceValues S ≤ s.g_FenceValues S + ops.length) := by
  refine ⟨fun _ _ => rfl, ?_, ?_, ?_⟩
  · intro env bb s0 h S
    obtain ⟨_, hg, _⟩ := InitD3D_spec env bb s0 h
    rw [hg]
    by_cases hS : S = bb
    · subst hS; simp
    · simp [Function.update_noteq hS, hS]
  · intro op s s1 h S
    obtain ⟨h1, h2⟩ := step_targets op s s1 h S
    refine ⟨h1, h2, fun hlt => ?_⟩
    by_cases hc : op.acquires s = some S
    · have := h1 hc
      rw [asUINT64_succ _ hlt] at this
      exact ⟨by omega, fun _ => this⟩
    · have := h2 hc
      exact ⟨by omega, fun hc1 => absurd hc1 hc⟩
  · intro ops
    induction ops with
    | nil =>
      intro s s1 h S _
      simp only [run, Option.some.injEq] at h
      subst h
      simp
    | cons op ops ih =>
      intro s s1 h S hlen
      simp only [run] at h
      split at h
      · exact absurd h (by simp)
      · rename_i sa ha
        obtain ⟨h1, h2⟩ := step_targets op s sa ha S
        simp only [List.length_cons] at hlen ⊢
        by_cases hc : op.acquires s = some S
        · have e1 := h1 hc
          rw [asUINT64_succ _ (by omega)] at e1
          have := ih sa s1 h S (by omega)
          omega
        · have e1 := h2 hc
          have := ih sa s1 h S (by omega)
          omega

/-- Witness for C4: `InitD3D` on back buffer 0, and a first `Render` on slot 0. -/
theorem fence_targets_monotone_witness :
    (∀ S, ((InitD3D exEnv 0).get (by decide)).g_FenceValues S = if S = 0 then 1 else 0) ∧
    ((step (Op.Render 0) (initialState 0)).get (by decide)).g_FenceValues 0
      = asUINT64 ((initialState 0).g_FenceValues 0 + 1) :=
  ⟨fence_targets_monotone.2.1 exEnv 0 _ (Option.some_get _).symm,
   (fence_targets_monotone.2.2.1 (Op.Render 0) (initialState 0) _ (Option.some_get _).symm 0).1
     rfl⟩

/-! ### The queue reaches every target -/

theorem lastQueuedSignal_snoc (S : Nat) (q : List QueueOp) (op : QueueOp) :
    lastQueuedSignal S (q ++ [op])
      = (match op with
        | QueueOp.Signal f v => if f = S then some v else lastQueuedSignal S q
        | _ => lastQueuedSignal S q) := by
  induction q with
  | nil => cases op <;> simp [lastQueuedSignal]
  | cons a q ih =>
    have e : lastQueuedSignal S ((a :: q) ++ [op])
        = (match lastQueuedSignal S (q ++ [op]) with
          | some v => some v
          | none =>
            match a with
            | QueueOp.Signal f v => if f = S then some v else none
            | _ => none) := rfl
    rw [e, ih]
    cases op with
    | Execute => rfl
    | Wait f v => rfl
    | Signal f v =>
      simp only
      by_cases hf : f = S
      · simp [hf]
      · simp [hf, lastQueuedSignal]

/-- Executing the operation at the head of a live queue leaves it live. -/
theorem Live_tail (g : Nat → Nat) (op : QueueOp) (q : List QueueOp) (c : Nat → Nat)
    (h : Live g (op :: q) c) :
    Live g q (match op with
      | QueueOp.Signal f v => Function.update c f v
      | _ => c) := by
  obtain ⟨hw, hl⟩ := h
  refine ⟨fun f v hm => hw f v (List.mem_cons_of_mem _ hm), fun S => ?_⟩
  have hS := hl S
  simp only [lastQueuedSignal] at hS
  cases hq : lastQueuedSignal S q with
  | some w =>
    rw [hq] at hS
    simpa using hS
  | none =>
    rw [hq] at hS
    simp only at hS ⊢
    cases op with
    | Execute => simpa using hS
    | Wait f v => simpa using hS
    | Signal f v =>
      simp only at hS ⊢
      by_cases hf : f = S
      · subst hf
        simp only [if_true] at hS
        simp [hS]
      · simp only [if_neg hf] at hS
        rw [Function.update_noteq (Ne.symm hf)]
        exact hS

/-- On a live queue the GPU reaches the target of every slot, and the queue
stays live. -/
theorem gpuRunUntil_live (g : Nat → Nat) (S : Nat) (q : List QueueOp) (c : Nat → Nat)
    (h : Live g q c) :
    ∃ q1 c1, gpuRunUntil S (g S) q c = some (q1, c1) ∧ Live g q1 c1 := by
  induction q generalizing c with
  | nil =>
    have hS := h.2 S
    simp only [lastQueuedSignal] at hS
    exact ⟨[], c, by simp [gpuRunUntil, hS], h⟩
  | cons op q ih =>
    by_cases hc : g S ≤ c S
    · exact ⟨op :: q, c, by simp [gpuRunUntil, hc], h⟩
    · have ht := Live_tail g op q c h
      cases op with
      | Execute =>
        obtain ⟨q1, c1, h1, h2⟩ := ih c ht
        exact ⟨q1, c1, by simp [gpuRunUntil, hc, h1], h2⟩
      | Signal f v =>
        obtain ⟨q1, c1, h1, h2⟩ := ih _ ht
        exact ⟨q1, c1, by simp [gpuRunUntil, hc, h1], h2⟩
      | Wait f v => exact absurd (List.mem_cons_self _ _) (h.1 f v)

theorem gpuStep_live (s : FrameState) (h : Live s.g_FenceValues s.queue s.completed) :
    Live (gpuStep s).g_FenceValues (gpuStep s).queue (gpuStep s).completed := by
  unfold gpuStep
  split
  · exact h
  · rename_i q hq
    rw [hq] at h
    exact Live_tail _ _ _ _ h
  · rename_i f v q hq
    rw [hq] at h
    exact Live_tail _ _ _ _ h
  · rename_i f v q hq
    rw [hq] at h
    exact absurd (List.mem_cons_self _ _) (h.1 f v)

theorem gpuSteps_live (n : Nat) (s : FrameState)
    (h : Live s.g_FenceValues s.queue s.completed) :
    Live (gpuSteps n s).g_FenceValues (gpuSteps n s).queue (gpuSteps n s).completed := by
  induction n generalizing s with
  | zero => exact h
  | succ n ih => exact ih (gpuStep s) (gpuStep_live s h)

/-- On a live queue `WaitForFrame` returns. -/
theorem WaitForFrame_live (i : Nat) (s : FrameState) (hi : i < FRAME_BUFFER_COUNT)
    (h : Live s.g_FenceValues s.queue s.completed) :
    ∃ s1, WaitForFrame i s = some s1 ∧ Live s1.g_FenceValues s1.queue s1.completed := by
  unfold WaitForFrame
  simp only [if_pos hi, log_completed, log_g_FenceValues, log_queue]
  split
  · obtain ⟨q1, c1, h1, h2⟩ := gpuRunUntil_live s.g_FenceValues i s.queue s.completed h
    rw [h1]
    exact ⟨_, rfl, h2⟩
  · exact ⟨_, rfl, h⟩

/-- On a live queue `Render` returns, and the queue is live again. -/
theorem Render_live (bb : Nat) (s : FrameState) (hbb : bb < FRAME_BUFFER_COUNT)
    (h : Live s.g_FenceValues s.queue s.completed) :
    ∃ s1, Render bb s = some s1 ∧ Live s1.g_FenceValues s1.queue s1.completed := by
  obtain ⟨sw, hw, hl⟩ := WaitForFrame_live bb { s with g_FrameIndex := bb } hbb h
  obtain ⟨_, _, w3, _⟩ := WaitForFrame_spec _ _ sw hw
  simp only at w3
  unfold Render
  dsimp only
  rw [hw]
  refine ⟨_, rfl, ?_⟩
  simp only [w3, log_g_FenceValues, enqueue_g_FenceValues, logAll_g_FenceValues, log_queue,
    enqueue_queue, logAll_queue, log_completed, enqueue_completed, logAll_completed,
    Function.update_same]
  obtain ⟨hw1, hl1⟩ := hl
  refine ⟨?_, fun S => ?_⟩
  · intro f v hm
    simp only [List.append_assoc, List.mem_append, List.mem_singleton, List.mem_cons,
      List.not_mem_nil, or_false] at hm
    rcases hm with hm | hm | hm
    · exact hw1 f v hm
    · cases hm
    · cases hm
  · rw [lastQueuedSignal_snoc]
    simp only
    by_cases hS : bb = S
    · subst hS; simp
    · simp only [if_neg hS]
      rw [lastQueuedSignal_snoc, Function.update_noteq (Ne.symm hS)]
      exact hl1 S

/-! ### Resets and signals of a trace -/

theorem allocatorResets_append (t1 t2 : List Logged) :
    allocatorResets (t1 ++ t2) = allocatorResets t1 ++ allocatorResets t2 := by
  simp [allocatorResets]

theorem signals_append (t1 t2 : List Logged) : signals (t1 ++ t2) = signals t1 ++ signals t2 := by
  simp [signals]

theorem allocatorResets_quiet (ls : List Logged) (h : ∀ l, l ∈ ls → l.ev.quiet = true) :
    allocatorResets ls = [] := by
  simp only [allocatorResets, List.filter_eq_nil_iff]
  intro l hl
  have := h l hl
  cases hev : l.ev <;> simp_all [Event.quiet]

theorem signals_quiet (ls : List Logged) (h : ∀ l, l ∈ ls → l.ev.quiet = true) :
    signals ls = [] := by
  simp only [signals, List.filterMap_eq_nil_iff]
  intro l hl
  have := h l hl
  cases hev : l.ev <;> simp_all [Event.quiet]

/-- A frame on a live queue: `Render` returns, the queue is live again, the
trace gains one allocator reset, made on the slot of the frame when its fence
had reached the target the slot had on entry, and one signal, of the new
target. -/
theorem Render_frame (bb : Nat) (s : FrameState) (hbb : bb < FRAME_BUFFER_COUNT)
    (h : Live s.g_FenceValues s.queue s.completed) :
    ∃ s1, Render bb s = some s1 ∧ Live s1.g_FenceValues s1.queue s1.completed ∧
      s1.g_FenceValues = Function.update s.g_FenceValues bb (asUINT64 (s.g_FenceValues bb + 1)) ∧
      (∃ r, allocatorResets s1.trace = allocatorResets s.trace ++ [r] ∧
        r.ev = Event.AllocatorReset bb ∧ s.g_FenceValues bb ≤ r.completed bb) ∧
      signals s1.trace = signals s.trace ++ [(bb, asUINT64 (s.g_FenceValues bb + 1))] := by
  obtain ⟨s1, h1, h2⟩ := Render_live bb s hbb h
  obtain ⟨_, r2, _, pre, r, mid, sig, post, r4, r5, r6, r7, r8, r9, r10⟩ := Render_spec bb s s1 h1
  refine ⟨s1, h1, h2, r2, ⟨r, ?_, r5, r6⟩, ?_⟩
  · rw [r4]
    simp only [allocatorResets_append, allocatorResets_quiet pre r8, allocatorResets_quiet mid r9,
      allocatorResets_quiet post r10, List.append_nil, List.nil_append]
    simp [allocatorResets, r5, r7]
  · rw [r4]
    simp only [signals_append, signals_quiet pre r8, signals_quiet mid r9,
      signals_quiet post r10, List.append_nil, List.nil_append]
    simp [signals, r5, r7]

/-- A run of frames on a live queue returns; its allocator resets are those of
the frames, each made when the fence of its slot had reached the target the
CPU-side bookkeeping gives for the start of the frame. -/
theorem frames_run (delay : Nat → Nat) (bbs : List Nat) (k : Nat) (s : FrameState)
    (hbbs : ∀ bb, bb ∈ bbs → bb < FRAME_BUFFER_COUNT)
    (h : Live s.g_FenceValues s.queue s.completed) :
    ∃ s1, run (frames delay bbs k) s = some s1 ∧
      Live s1.g_FenceValues s1.queue s1.completed ∧
      (∃ rs, allocatorResets s1.trace = allocatorResets s.trace ++ rs ∧
        List.Forall₂ (fun r e => r.ev = Event.AllocatorReset e.1 ∧ e.2 ≤ r.completed e.1)
          rs (frameWaits bbs s.g_FenceValues)) ∧
      signals s1.trace = signals s.trace ++ frameSignals bbs s.g_FenceValues := by
  induction bbs generalizing k s with
  | nil => exact ⟨s, rfl, h, ⟨[], by simp, by simp [frameWaits]⟩, by simp [frameSignals]⟩
  | cons bb bbs ih =>
    obtain ⟨g1, _, _, g4⟩ := gpuSteps_fields (delay k) s
    have hl := gpuSteps_live (delay k) s h
    obtain ⟨sa, a1, a2, a3, ⟨r, a4, a5, a6⟩, a7⟩ :=
      Render_frame bb (gpuSteps (delay k) s) (hbbs bb (by simp)) hl
    rw [g1] at a3 a6 a7
    rw [g4] at a4 a7
    obtain ⟨s1, b1, b2, ⟨rs, b3, b4⟩, b5⟩ :=
      ih (k + 1) sa (fun x hx => hbbs x (by simp [hx])) a2
    rw [a3] at b4 b5
    refine ⟨s1, by simp [frames, run, step, a1, b1], b2, ⟨r :: rs, ?_, ?_⟩, ?_⟩
    · rw [b3, a4]; simp
    · exact List.Forall₂.cons ⟨a5, a6⟩ b4
    · rw [b5, a7]; simp [frameSignals]

/-- On a live queue `WaitGPUIdle` returns, and the queue is live again. -/
theorem WaitGPUIdle_live (i : Nat) (s : FrameState) (hi : i < FRAME_BUFFER_COUNT)
    (h : Live s.g_FenceValues s.queue s.completed) :
    ∃ s1, WaitGPUIdle i s = some s1 ∧ Live s1.g_FenceValues s1.queue s1.completed := by
  unfold WaitGPUIdle
  rw [if_pos hi]
  dsimp only
  apply WaitForFrame_live _ _ hi
  simp only [log_g_FenceValues, enqueue_g_FenceValues, log_queue, enqueue_queue, log_completed,
    enqueue_completed, Function.update_same]
  obtain ⟨hw1, hl1⟩ := h
  refine ⟨?_, fun S => ?_⟩
  · intro f v hm
    simp only [List.mem_append, List.mem_singleton] at hm
    rcases hm with hm | hm
    · exact hw1 f v hm
    · cases hm
  · rw [lastQueuedSignal_snoc]
    simp only
    by_cases hS : i = S
    · subst hS; simp
    · simp only [if_neg hS]
      rw [Function.update_noteq (Ne.symm hS)]
      exact hl1 S

/-- After `InitD3D` the queue is live, no allocator has been reset and the
only signal is that of `WaitGPUIdle`. -/
theorem InitD3D_live (env : InitEnv) (bb : Nat) (s0 : FrameState)
    (h : InitD3D env bb = some s0) :
    Live s0.g_FenceValues s0.queue s0.completed ∧ allocatorResets s0.trace = [] ∧
    signals s0.trace = [(bb, 1)] := by
  unfold InitD3D at h
  dsimp only at h
  split at h
  · rename_i hbb
    split at h
    · exact absurd h (by simp)
    · rename_i s7 h7
      split at h
      · exact absurd h (by simp)
      · rename_i s8 h8
        simp only [Option.some.injEq] at h
        subst h
        obtain ⟨q1, q2, q3, ⟨n, q4⟩, lq, q5, q6⟩ := recordInitialUploads_spec env _ s7 h7
        obtain ⟨_, w2, _, _, _, sig, post, w6, w7, w8⟩ := WaitGPUIdle_spec _ _ s8 h8
        simp only [log_g_FenceValues, log_g_FrameIndex, log_trace, log_completed, log_queue,
          initialState, List.nil_append] at q1 q2 q3 q4 q5 hbb
        rw [q2, q1] at w2 w7
        have hone : asUINT64 (0 + 1) = 1 := by decide
        simp only [hone] at w2 w7
        have hnone : ∀ S m, lastQueuedSignal S (List.replicate m QueueOp.Execute) = none := by
          intro S m
          induction m with
          | zero => rfl
          | succ m ihm => simp [List.replicate_succ, lastQueuedSignal, ihm]
        have hlive7 : Live s7.g_FenceValues s7.queue s7.completed := by
          refine ⟨?_, fun S => ?_⟩
          · intro f v hm
            rw [q4] at hm
            simp only [List.mem_replicate] at hm
            cases hm.2
          · rw [q4, hnone, q1, q3]
        obtain ⟨s9, h9, hl9⟩ := WaitGPUIdle_live s7.g_FrameIndex s7 (by rw [q2]; exact hbb) hlive7
        rw [h9] at h8
        simp only [Option.some.injEq] at h8
        subst h8
        refine ⟨by simpa using hl9, ?_, ?_⟩
        · rw [logAll_trace, w6, q5]
          simp only [allocatorResets_append, allocatorResets_quiet lq q6,
            allocatorResets_quiet post w8]
          simp [allocatorResets, w7]
        · rw [logAll_trace, w6, q5]
          simp only [signals_append, signals_quiet lq q6, signals_quiet post w8]
          simp [signals, w7]
  · exact absurd h (by simp)

/-- C2. No premature reuse. In every execution made of `InitD3D` followed by
any steps, whenever `Render` resets the command allocator of a slot `S`, the
completed value of `g_Fences[S]` at that moment is at least the value last
signalled on it, the target recorded for `S` at its previous submission. In
particular, for ten frames with frame `k` on slot `k mod 3` and any delays of
the GPU, the run returns, and for `3 <= k < 10` the `k`-th allocator reset is
the one of slot `k mod 3` and is made when that fence has completed the value
signalled at the submission of frame `k - 3` (signal number `k - 2`, the
first signal being the one of `InitD3D`). -/
theorem no_premature_reuse :
    (∀ env bb ops s0 s, InitD3D env bb = some s0 → run ops s0 = some s →
      NoPrematureReset s.trace) ∧
    (∀ env delay s0, InitD3D env 0 = some s0 →
      ∃ s, run (tenFrames delay) s0 = some s ∧
        ∀ k, 3 ≤ k → k < 10 →
          ∃ r v, (allocatorResets s.trace)[k]? = some r ∧
            r.ev = Event.AllocatorReset (k % 3) ∧
            (signals s.trace)[k - 2]? = some (k % 3, v) ∧ v ≤ r.completed (k % 3)) := by
  refine ⟨?_, ?_⟩
  · intro env bb ops s0 s h0 hrun
    obtain ⟨_, _, _, i1, i2⟩ := InitD3D_spec env bb s0 h0
    exact (run_preserves ops s0 s hrun ⟨i1, i2⟩).2
  · intro env delay s0 h0
    obtain ⟨_, hg, _⟩ := InitD3D_spec env 0 s0 h0
    obtain ⟨hl, hr, hsig⟩ := InitD3D_live env 0 s0 h0
    have hb : (List.range 10).map (· % 3) = [0, 1, 2, 0, 1, 2, 0, 1, 2, 0] := by decide
    obtain ⟨s, h1, _, ⟨rs, h3, h4⟩, h5⟩ := frames_run delay [0, 1, 2, 0, 1, 2, 0, 1, 2, 0] 0 s0
      (by intro bb hbb; simp only [List.mem_cons, List.mem_singleton, List.not_mem_nil,
            or_false] at hbb; simp only [FRAME_BUFFER_COUNT]; omega) hl
    have hw : frameWaits [0, 1, 2, 0, 1, 2, 0, 1, 2, 0] (Function.update (fun _ => 0) 0 1)
        = [(0, 1), (1, 0), (2, 0), (0, 2), (1, 1), (2, 1), (0, 3), (1, 2), (2, 2), (0, 4)] := by
      decide
    have hs : frameSignals [0, 1, 2, 0, 1, 2, 0, 1, 2, 0] (Function.update (fun _ => 0) 0 1)
        = [(0, 2), (1, 1), (2, 1), (0, 3), (1, 2), (2, 2), (0, 4), (1, 3), (2, 3), (0, 5)] := by
      decide
    rw [hg, hw] at h4
    rw [hg, hs, hsig] at h5
    rw [hr, List.nil_append] at h3
    refine ⟨s, by rw [tenFrames, hb]; exact h1, ?_⟩
    rcases h4 with _ | ⟨_, h4⟩
    rcases h4 with _ | ⟨_, h4⟩
    rcases h4 with _ | ⟨_, h4⟩
    rcases h4 with _ | ⟨⟨e3, c3⟩, h4⟩
    rcases h4 with _ | ⟨⟨e4, c4⟩, h4⟩
    rcases h4 with _ | ⟨⟨e5, c5⟩, h4⟩
    rcases h4 with _ | ⟨⟨e6, c6⟩, h4⟩
    rcases h4 with _ | ⟨⟨e7, c7⟩, h4⟩
    rcases h4 with _ | ⟨⟨e8, c8⟩, h4⟩
    rcases h4 with _ | ⟨⟨e9, c9⟩, h4⟩
    cases h4
    intro k hk3 hk10
    rw [h3, h5]
    interval_cases k
    · exact ⟨_, 2, rfl, e3, rfl, c3⟩
    · exact ⟨_, 1, rfl, e4, rfl, c4⟩
    · exact ⟨_, 1, rfl, e5, rfl, c5⟩
    · exact ⟨_, 3, rfl, e6, rfl, c6⟩
    · exact ⟨_, 2, rfl, e7, rfl, c7⟩
    · exact ⟨_, 2, rfl, e8, rfl, c8⟩
    · exact ⟨_, 4, rfl, e9, rfl, c9⟩

/-- Witness for C2: `InitD3D` on back buffer 0 followed by two main-loop
iterations on back buffers 0 and 1, and the ten-frame run without delays. -/
theorem no_premature_reuse_witness :
    NoPrematureReset
        ((run (mainLoop (fun _ => 0) [0, 1] 0) ((InitD3D exEnv 0).get (by decide))).get
          (by decide)).trace ∧
    ∃ s, run (tenFrames (fun _ => 0)) ((InitD3D exEnv 0).get (by decide)) = some s ∧
      ∀ k, 3 ≤ k → k < 10 →
        ∃ r v, (allocatorResets s.trace)[k]? = some r ∧
          r.ev = Event.AllocatorReset (k % 3) ∧
          (signals s.trace)[k - 2]? = some (k % 3, v) ∧ v ≤ r.completed (k % 3) :=
  ⟨no_premature_reuse.1 exEnv 0 (mainLoop (fun _ => 0) [0, 1] 0) _ _
      (Option.some_get _).symm (Option.some_get _).symm,
   no_premature_reuse.2 exEnv (fun _ => 0) _ (Option.some_get _).symm⟩

/-! ### Commands and result of a successful upload -/

/-- The texture branch (lines 306-320) appends one `CopyTextureRegion` per
subresource, in the order of the loop. -/
theorem recordCopies_texture_cmdList (pDestinationResource pIntermediate : ID3D12Resource)
    (FirstSubresource NumSubresources : Nat)
    (pLayouts : Nat → D3D12_PLACED_SUBRESOURCE_FOOTPRINT) (s : UploadState)
    (hdim : pDestinationResource.Desc.Dimension ≠ D3D12_RESOURCE_DIMENSION.BUFFER) :
    (recordCopies pDestinationResource pIntermediate FirstSubresource NumSubresources pLayouts
      s).cmdList = s.cmdList ++ (List.range NumSubresources).map fun i =>
        Command.CopyTextureRegion pDestinationResource.name (asUINT (i + FirstSubresource))
          0 0 0 pIntermediate.name (pLayouts i) none := by
  unfold recordCopies
  rw [if_neg hdim]
  induction NumSubresources with
  | zero => simp [forLoop]
  | succ n ih =>
    rw [List.range_succ, List.map_append, ← List.append_assoc, ← ih]
    rfl

/-- C11. Texture destination copies: a successful call of the 10-argument
`UpdateSubresources` (validation passed, `Map` succeeded, every row size fits
`SIZE_T`) whose destination is not a BUFFER adds exactly `NumSubresources`
commands to the list, for `i = 0, 1, ...` in this order; the `i`-th is a
`CopyTextureRegion` to subresource `FirstSubresource + i` of the destination at
origin (0,0,0), from the staging resource with placed footprint `pLayouts[i]`,
without a source box. The subresource arguments are in the range their
declaration gives them (`_In_range_(0, D3D12_REQ_SUBRESOURCES)` and
`_In_range_(0, D3D12_REQ_SUBRESOURCES - FirstSubresource)`), so that
`FirstSubresource + NumSubresources` is within `UINT`. -/
theorem UpdateSubresources_texture_copies (a : Arch)
    (pDestinationResource pIntermediate : ID3D12Resource)
    (FirstSubresource NumSubresources RequiredSize : Nat)
    (pLayouts : Nat → D3D12_PLACED_SUBRESOURCE_FOOTPRINT) (pNumRows pRowSizesInBytes : Nat → Nat)
    (pSrcData : Nat → D3D12_SUBRESOURCE_DATA) (s : UploadState)
    (hvalid : validationFails a pDestinationResource pIntermediate FirstSubresource
      NumSubresources RequiredSize pLayouts = false)
    (hfit : ∀ i, i < NumSubresources → pRowSizesInBytes i ≤ SIZE_T_MAX a)
    (hdim : pDestinationResource.Desc.Dimension ≠ D3D12_RESOURCE_DIMENSION.BUFFER)
    (hrange : FirstSubresource + NumSubresources ≤ 2 ^ 32) :
    (UpdateSubresources a true pDestinationResource pIntermediate FirstSubresource
        NumSubresources RequiredSize pLayouts pNumRows pRowSizesInBytes pSrcData s).2.cmdList
      = s.cmdList ++ (List.range NumSubresources).map fun i =>
          Command.CopyTextureRegion pDestinationResource.name (FirstSubresource + i) 0 0 0
            pIntermediate.name (pLayouts i) none := by
  have hloop := forLoopE_copy_ok a pLayouts pNumRows pRowSizesInBytes pSrcData NumSubresources
    { s with trace := s.trace ++ [UpEvent.Map true] } hfit
  simp only [UpdateSubresources, hvalid, hloop, Bool.false_eq_true, if_false, Bool.not_true]
  rw [recordCopies_texture_cmdList _ _ _ _ _ _ hdim]
  have hc : ({ (forLoop (copyRows a pLayouts pNumRows pRowSizesInBytes pSrcData) NumSubresources
      { s with trace := s.trace ++ [UpEvent.Map true] }) with
      trace := (forLoop (copyRows a pLayouts pNumRows pRowSizesInBytes pSrcData) NumSubresources
        { s with trace := s.trace ++ [UpEvent.Map true] }).trace ++ [UpEvent.Unmap] }
        : UploadState).cmdList = s.cmdList :=
    forLoop_copyRows_cmdList a pLayouts pNumRows pRowSizesInBytes pSrcData NumSubresources _
  rw [hc]
  congr 1
  apply List.map_congr_left
  intro i hi
  have hi2 : i < NumSubresources := List.mem_range.mp hi
  have e : asUINT (i + FirstSubresource) = FirstSubresource + i := by
    unfold asUINT
    rw [Nat.mod_eq_of_lt (by omega)]
    omega
  rw [e]

theorem UpdateSubresources_texture_copies_witness :
    (UpdateSubresources Arch.x64 true exTexture (exStaging 1024) 3 2 1024 (exLayouts 0)
        (fun _ => 2) (fun _ => 16) (fun _ => exSrc 16 32) exState).2.cmdList
      = exState.cmdList ++ (List.range 2).map fun i =>
          Command.CopyTextureRegion exTexture.name (3 + i) 0 0 0
            (exStaging 1024).name (exLayouts 0 i) none :=
  UpdateSubresources_texture_copies Arch.x64 exTexture (exStaging 1024) 3 2 1024 (exLayouts 0)
    (fun _ => 2) (fun _ => 16) (fun _ => exSrc 16 32) exState (by decide)
    (fun _ _ => (by decide : (16 : Nat) ≤ SIZE_T_MAX Arch.x64)) (by decide) (by decide)

/-- C12. Success result: a call of the 10-argument `UpdateSubresources` that
passes the validation, whose `Map` succeeds and whose row sizes all fit
`SIZE_T` returns `RequiredSize` unchanged; the 7-argument overload, when its
scratch allocation succeeds and the call it forwards to is such a call,
returns the total size reported by the footprint query it makes with
`FirstSubresource`, `NumSubresources` and base offset `IntermediateOffset`. -/
theorem UpdateSubresources_success_result (a : Arch)
    (pDestinationResource pIntermediate : ID3D12Resource)
    (FirstSubresource NumSubresources : Nat)
    (pSrcData : Nat → D3D12_SUBRESOURCE_DATA) (s : UploadState) :
    (∀ (RequiredSize : Nat) (pLayouts : Nat → D3D12_PLACED_SUBRESOURCE_FOOTPRINT)
        (pNumRows pRowSizesInBytes : Nat → Nat),
      validationFails a pDestinationResource pIntermediate FirstSubresource NumSubresources
        RequiredSize pLayouts = false →
      (∀ i, i < NumSubresources → pRowSizesInBytes i ≤ SIZE_T_MAX a) →
      (UpdateSubresources a true pDestinationResource pIntermediate FirstSubresource
        NumSubresources RequiredSize pLayouts pNumRows pRowSizesInBytes pSrcData s).1
        = RequiredSize) ∧
    (∀ (GetCopyableFootprints : FootprintQuery) (IntermediateOffset : Nat),
      asUINT64 (scratchBytesPerSubresource * NumSubresources) ≤ SIZE_T_MAX a →
      validationFails a pDestinationResource pIntermediate FirstSubresource NumSubresources
        (GetCopyableFootprints pDestinationResource.Desc FirstSubresource NumSubresources
          IntermediateOffset).pTotalBytes
        (GetCopyableFootprints pDestinationResource.Desc FirstSubresource NumSubresources
          IntermediateOffset).pLayouts = false →
      (∀ i, i < NumSubresources →
        (GetCopyableFootprints pDestinationResource.Desc FirstSubresource NumSubresources
          IntermediateOffset).pRowSizesInBytes i ≤ SIZE_T_MAX a) →
      (UpdateSubresources_heap a GetCopyableFootprints true true pDestinationResource
        pIntermediate IntermediateOffset FirstSubresource NumSubresources pSrcData s).1
        = (GetCopyableFootprints pDestinationResource.Desc FirstSubresource NumSubresources
          IntermediateOffset).pTotalBytes) := by
  have key : ∀ (RequiredSize : Nat) (pLayouts : Nat → D3D12_PLACED_SUBRESOURCE_FOOTPRINT)
      (pNumRows pRowSizesInBytes : Nat → Nat),
      validationFails a pDestinationResource pIntermediate FirstSubresource NumSubresources
        RequiredSize pLayouts = false →
      (∀ i, i < NumSubresources → pRowSizesInBytes i ≤ SIZE_T_MAX a) →
      (UpdateSubresources a true pDestinationResource pIntermediate FirstSubresource
        NumSubresources RequiredSize pLayouts pNumRows pRowSizesInBytes pSrcData s).1
        = RequiredSize := by
    intro RequiredSize pLayouts pNumRows pRowSizesInBytes hvalid hfit
    have hloop := forLoopE_copy_ok a pLayouts pNumRows pRowSizesInBytes pSrcData
      NumSubresources { s with trace := s.trace ++ [UpEvent.Map true] } hfit
    simp only [UpdateSubresources, hvalid, hloop, Bool.false_eq_true, if_false, Bool.not_true]
  refine ⟨key, ?_⟩
  intro GetCopyableFootprints IntermediateOffset hmem hvalid hfit
  have hm : ¬ asUINT64 (scratchBytesPerSubresource * NumSubresources) > SIZE_T_MAX a :=
    Nat.not_lt.mpr hmem
  simp only [UpdateSubresources_heap, hm, if_false, Bool.not_true, Bool.false_eq_true]
  exact key _ _ _ _ hvalid hfit

theorem UpdateSubresources_success_result_witness :
    (UpdateSubresources Arch.x64 true exTexture (exStaging 1024) 0 2 1024 (exLayouts 0)
        (fun _ => 2) (fun _ => 16) (fun _ => exSrc 16 32) exState).1 = 1024 ∧
    (UpdateSubresources_heap Arch.x64 exQuery true true exTexture (exStaging 1024) 0 0 1
        (fun _ => exSrc 16 32) exState).1 = 272 :=
  ⟨(UpdateSubresources_success_result Arch.x64 exTexture (exStaging 1024) 0 2
      (fun _ => exSrc 16 32) exState).1 1024 (exLayouts 0) (fun _ => 2) (fun _ => 16)
      (by decide) (fun _ _ => (by decide : (16 : Nat) ≤ SIZE_T_MAX Arch.x64)),
   (UpdateSubresources_success_result Arch.x64 exTexture (exStaging 1024) 0 1
      (fun _ => exSrc 16 32) exState).2 exQuery 0 (by decide) (by decide)
      (fun _ _ => (by decide : (16 : Nat) ≤ SIZE_T_MAX Arch.x64))⟩

/-- C13. Staging-kind and size validation: when the staging resource's
dimension is not BUFFER, or `RequiredSize` exceeds the largest `SIZE_T`
(whatever the staging resource's width), the 10-argument `UpdateSubresources`
returns 0 and leaves the state as it was: no `Map`, no byte copied, no command
recorded. -/
theorem UpdateSubresources_staging_rejected (a : Arch) (mapOk : Bool)
    (pDestinationResource pIntermediate : ID3D12Resource)
    (FirstSubresource NumSubresources RequiredSize : Nat)
    (pLayouts : Nat → D3D12_PLACED_SUBRESOURCE_FOOTPRINT) (pNumRows pRowSizesInBytes : Nat → Nat)
    (pSrcData : Nat → D3D12_SUBRESOURCE_DATA) (s : UploadState)
    (h : pIntermediate.Desc.Dimension ≠ D3D12_RESOURCE_DIMENSION.BUFFER ∨
      RequiredSize > SIZE_T_MAX a) :
    UpdateSubresources a mapOk pDestinationResource pIntermediate FirstSubresource
      NumSubresources RequiredSize pLayouts pNumRows pRowSizesInBytes pSrcData s = (0, s) := by
  have hv : validationFails a pDestinationResource pIntermediate FirstSubresource
      NumSubresources RequiredSize pLayouts = true := by
    unfold validationFails
    rcases h with h | h
    · simp [h]
    · simp [h]
  simp [UpdateSubresources, hv]

theorem UpdateSubresources_staging_rejected_witness :
    UpdateSubresources Arch.x64 true exTexture exTexture 0 1 32 (exLayouts 0)
        (fun _ => 2) (fun _ => 16) (fun _ => exSrc 16 32) exState = (0, exState) ∧
    UpdateSubresources Arch.x86 true exTexture (exStaging (2 ^ 40)) 0 1 (2 ^ 32) (exLayouts 0)
        (fun _ => 2) (fun _ => 16) (fun _ => exSrc 16 32) exState = (0, exState) :=
  ⟨UpdateSubresources_staging_rejected Arch.x64 true exTexture exTexture 0 1 32 (exLayouts 0)
      (fun _ => 2) (fun _ => 16) (fun _ => exSrc 16 32) exState (Or.inl (by decide)),
   UpdateSubresources_staging_rejected Arch.x86 true exTexture (exStaging (2 ^ 40)) 0 1 (2 ^ 32)
      (exLayouts 0) (fun _ => 2) (fun _ => 16) (fun _ => exSrc 16 32) exState
      (Or.inr (by decide))⟩

/-! ### Waiting for a slot -/

/-- C14. Wait-before-reuse: `WaitForFrame(S)` blocks exactly when the completed
value of `g_Fences[S]` is below `g_FenceValues[S]`. When it is not below, the
call returns after reading the completed value, without registering the event
and without waiting. When it is below, the event is registered on
`g_Fences[S]` for exactly `g_FenceValues[S]` and the thread waits, the GPU
running meanwhile until the fence has reached that value. In both cases no
entry of `g_FenceValues` changes and on return the completed value of the
fence is at least `g_FenceValues[S]`; the call returns whenever the queue
leads the fence to its target. -/
theorem WaitForFrame_blocks_iff_below (S : Nat) (s : FrameState)
    (hS : S < FRAME_BUFFER_COUNT) :
    (s.g_FenceValues S ≤ s.completed S →
      WaitForFrame S s = some (s.log (Event.GetCompletedValue S (s.completed S)))) ∧
    (s.completed S < s.g_FenceValues S →
      WaitForFrame S s
        = (gpuRunUntil S (s.g_FenceValues S) s.queue s.completed).map fun qc =>
            { (s.logAll [Event.GetCompletedValue S (s.completed S),
                Event.SetEventOnCompletion S (s.g_FenceValues S),
                Event.WaitForSingleObject]) with queue := qc.1, completed := qc.2 }) ∧
    (∀ s1, WaitForFrame S s = some s1 →
      s1.g_FenceValues = s.g_FenceValues ∧ s.g_FenceValues S ≤ s1.completed S ∧
      events s1.trace = events s.trace ++
        (if s.completed S < s.g_FenceValues S then
          [Event.GetCompletedValue S (s.completed S),
           Event.SetEventOnCompletion S (s.g_FenceValues S), Event.WaitForSingleObject]
         else [Event.GetCompletedValue S (s.completed S)])) ∧
    (Live s.g_FenceValues s.queue s.completed → (WaitForFrame S s).isSome = true) := by
  have hge : s.g_FenceValues S ≤ s.completed S →
      WaitForFrame S s = some (s.log (Event.GetCompletedValue S (s.completed S))) := by
    intro h
    unfold WaitForFrame
    simp only [if_pos hS, log_completed, log_g_FenceValues, if_neg (Nat.not_lt.mpr h)]
  have hlt : s.completed S < s.g_FenceValues S →
      WaitForFrame S s
        = (gpuRunUntil S (s.g_FenceValues S) s.queue s.completed).map fun qc =>
            { (s.logAll [Event.GetCompletedValue S (s.completed S),
                Event.SetEventOnCompletion S (s.g_FenceValues S),
                Event.WaitForSingleObject]) with queue := qc.1, completed := qc.2 } := by
    intro h
    unfold WaitForFrame
    simp only [if_pos hS, log_completed, log_g_FenceValues, log_queue, if_pos h]
    cases gpuRunUntil S (s.g_FenceValues S) s.queue s.completed with
    | none => rfl
    | some qc => rfl
  refine ⟨hge, hlt, ?_, ?_⟩
  · intro s1 h1
    obtain ⟨_, hg, _, _, hc, _⟩ := WaitForFrame_spec S s s1 h1
    refine ⟨hg, hc, ?_⟩
    by_cases h : s.completed S < s.g_FenceValues S
    · rw [hlt h] at h1
      rw [if_pos h]
      cases hr : gpuRunUntil S (s.g_FenceValues S) s.queue s.completed with
      | none => rw [hr] at h1; exact absurd h1 (by simp)
      | some qc =>
        rw [hr] at h1
        simp only [Option.map_some', Option.some.injEq] at h1
        subst h1
        simp [events, FrameState.logAll, FrameState.log]
    · rw [hge (Nat.not_lt.mp h)] at h1
      rw [if_neg h]
      simp only [Option.some.injEq] at h1
      subst h1
      simp [events, FrameState.log]
  · intro hl
    obtain ⟨s1, h1, _⟩ := WaitForFrame_live S s hS hl
    rw [h1]; rfl

theorem WaitForFrame_blocks_iff_below_witness :
    WaitForFrame 0 exPendingState
      = some (exPendingState.log (Event.GetCompletedValue 0 (exPendingState.completed 0))) ∧
    WaitForFrame 1 exPendingState
      = (gpuRunUntil 1 (exPendingState.g_FenceValues 1) exPendingState.queue
          exPendingState.completed).map fun qc =>
            { (exPendingState.logAll [Event.GetCompletedValue 1 (exPendingState.completed 1),
                Event.SetEventOnCompletion 1 (exPendingState.g_FenceValues 1),
                Event.WaitForSingleObject]) with queue := qc.1, completed := qc.2 } :=
  ⟨(WaitForFrame_blocks_iff_below 0 exPendingState (by decide)).1 (by decide),
   (WaitForFrame_blocks_iff_below 1 exPendingState (by decide)).2.1 (by decide)⟩

/-! ### The trace of a frame -/

/-- The trace and the queue of a `Render` that returns, from the state in
which its `WaitForFrame` returned: allocator reset, list reset, the recorded
commands, close, submission, signal and present, each with the fence values
of its moment. -/
theorem Render_trace (bb : Nat) (s s1 : FrameState) (h : Render bb s = some s1) :
    ∃ sw, WaitForFrame bb { s with g_FrameIndex := bb } = some sw ∧
      s1.queue = sw.queue ++ [QueueOp.Execute,
        QueueOp.Signal bb (asUINT64 (s.g_FenceValues bb + 1))] ∧
      s1.trace = sw.trace ++
        ([⟨Event.AllocatorReset bb, sw.completed,
            Function.update s.g_FenceValues bb (asUINT64 (s.g_FenceValues bb + 1)),
            sw.recording⟩,
          ⟨Event.ListReset bb, sw.completed,
            Function.update s.g_FenceValues bb (asUINT64 (s.g_FenceValues bb + 1)),
            sw.recording⟩] ++
        (renderCommands bb).map (fun c => ⟨Event.Record c, sw.completed,
          Function.update s.g_FenceValues bb (asUINT64 (s.g_FenceValues bb + 1)), true⟩) ++
        [⟨Event.ListClose, sw.completed,
            Function.update s.g_FenceValues bb (asUINT64 (s.g_FenceValues bb + 1)), true⟩,
          ⟨Event.ExecuteCommandLists, sw.completed,
            Function.update s.g_FenceValues bb (asUINT64 (s.g_FenceValues bb + 1)), false⟩,
          ⟨Event.Signal bb (asUINT64 (s.g_FenceValues bb + 1)), sw.completed,
            Function.update s.g_FenceValues bb (asUINT64 (s.g_FenceValues bb + 1)), false⟩,
          ⟨Event.Present, sw.completed,
            Function.update s.g_FenceValues bb (asUINT64 (s.g_FenceValues bb + 1)), false⟩]) := by
  unfold Render at h
  dsimp only at h
  split at h
  · exact absurd h (by simp)
  · rename_i sw hw
    obtain ⟨w1, w2, w3, w4, w5, ls, w6, w7⟩ := WaitForFrame_spec _ _ sw hw
    simp only at w1 w2 w3 w4 w5 w6
    simp only [Option.some.injEq] at h
    subst h
    refine ⟨sw, hw, ?_, ?_⟩
    · simp [w2, w3]
    · simp [w2, w3, List.map_map, Function.comp_def]

/-- The actions `WaitForFrame` adds to the trace are reads of the completed
value, registrations of the event and waits on it. -/
theorem WaitForFrame_trace (i : Nat) (s s1 : FrameState) (h : WaitForFrame i s = some s1) :
    ∃ ls, s1.trace = s.trace ++ ls ∧ ∀ l, l ∈ ls →
      l.ev = Event.GetCompletedValue i (s.completed i) ∨
      l.ev = Event.SetEventOnCompletion i (s.g_FenceValues i) ∨
      l.ev = Event.WaitForSingleObject := by
  unfold WaitForFrame at h
  split at h
  · simp only [log_completed, log_g_FenceValues, log_queue] at h
    split at h
    · split at h
      · simp only [Option.some.injEq] at h
        subst h
        refine ⟨[⟨Event.GetCompletedValue i (s.completed i), s.completed, s.g_FenceValues,
            s.recording⟩,
          ⟨Event.SetEventOnCompletion i (s.g_FenceValues i), s.completed, s.g_FenceValues,
            s.recording⟩,
          ⟨Event.WaitForSingleObject, s.completed, s.g_FenceValues, s.recording⟩], ?_, ?_⟩
        · simp [List.append_assoc]
        · intro l hl
          simp only [List.mem_cons, List.mem_singleton, List.not_mem_nil, or_false] at hl
          rcases hl with hl | hl | hl <;> subst hl <;> simp
      · exact absurd h (by simp)
    · simp only [Option.some.injEq] at h
      subst h
      refine ⟨_, rfl, ?_⟩
      intro l hl
      simp only [List.mem_singleton] at hl
      subst hl; simp
  · exact absurd h (by simp)

/-- C15 as stated fails when the target of the slot is the largest `UINT64`:
the value `Render` signals after the submission is then 0, which is not one
more than the target on entry. -/
theorem Render_signal_wraps :
    ((Render 0 exWrapState).map fun s1 => signals s1.trace) = some [(0, 0)] ∧
    exWrapState.g_FenceValues 0 + 1 = 2 ^ 64 := by
  decide

/-- C15, amended. Signal after submit: in every `Render` that returns, the
submission `ExecuteCommandLists`, the only one of the call, is followed at
once by a `Signal` on `g_Fences[S]`, `S` being the slot of the frame; the
value signalled is `g_FenceValues[S]` at that moment, which is the `UINT64`
successor of `g_FenceValues[S]` on entry: exactly one more while the target on
entry is below `2^64 - 1`. The queue ends with that submission and that
signal. Likewise `WaitGPUIdle(S)` first signals `g_Fences[S]` with the
incremented `g_FenceValues[S]`. -/
theorem signal_follows_submission (bb S : Nat) (s s1 s2 : FrameState) :
    (Render bb s = some s1 →
      ∃ pre ex sig pr, s1.trace = s.trace ++ pre ++ [ex, sig, pr] ∧
        (∀ l, l ∈ pre → l.ev ≠ Event.ExecuteCommandLists) ∧
        ex.ev = Event.ExecuteCommandLists ∧ sig.ev = Event.Signal bb (sig.targets bb) ∧
        pr.ev = Event.Present ∧
        sig.targets bb = asUINT64 (s.g_FenceValues bb + 1) ∧
        (s.g_FenceValues bb < 2 ^ 64 - 1 → sig.targets bb = s.g_FenceValues bb + 1) ∧
        ∃ q, s1.queue = q ++ [QueueOp.Execute, QueueOp.Signal bb (sig.targets bb)]) ∧
    (WaitGPUIdle S s = some s2 →
      ∃ sig post, s2.trace = s.trace ++ [sig] ++ post ∧
        sig.ev = Event.Signal S (sig.targets S) ∧
        sig.targets S = asUINT64 (s.g_FenceValues S + 1) ∧
        s2.g_FenceValues S = sig.targets S ∧
        (s.g_FenceValues S < 2 ^ 64 - 1 → sig.targets S = s.g_FenceValues S + 1) ∧
        ∀ l, l ∈ post → l.ev.quiet = true) := by
  constructor
  · intro h
    obtain ⟨sw, hw, hq, ht⟩ := Render_trace bb s s1 h
    obtain ⟨ls, hl1, hl2⟩ := WaitForFrame_trace _ _ sw hw
    simp only at hl1 hl2
    refine ⟨ls ++ ([⟨Event.AllocatorReset bb, sw.completed,
            Function.update s.g_FenceValues bb (asUINT64 (s.g_FenceValues bb + 1)),
            sw.recording⟩,
          ⟨Event.ListReset bb, sw.completed,
            Function.update s.g_FenceValues bb (asUINT64 (s.g_FenceValues bb + 1)),
            sw.recording⟩] ++
        (renderCommands bb).map (fun c => ⟨Event.Record c, sw.completed,
          Function.update s.g_FenceValues bb (asUINT64 (s.g_FenceValues bb + 1)), true⟩) ++
        [⟨Event.ListClose, sw.completed,
            Function.update s.g_FenceValues bb (asUINT64 (s.g_FenceValues bb + 1)), true⟩]),
      ⟨Event.ExecuteCommandLists, sw.completed,
        Function.update s.g_FenceValues bb (asUINT64 (s.g_FenceValues bb + 1)), false⟩,
      ⟨Event.Signal bb (asUINT64 (s.g_FenceValues bb + 1)), sw.completed,
        Function.update s.g_FenceValues bb (asUINT64 (s.g_FenceValues bb + 1)), false⟩,
      ⟨Event.Present, sw.completed,
        Function.update s.g_FenceValues bb (asUINT64 (s.g_FenceValues bb + 1)), false⟩,
      ?_, ?_, rfl, ?_, rfl, ?_, ?_, ?_⟩
    · rw [ht, hl1]
      simp only [List.append_assoc, List.cons_append, List.nil_append]
    · intro l hl
      simp only [List.mem_append, List.mem_cons, List.mem_singleton, List.not_mem_nil,
        or_false, List.mem_map] at hl
      rcases hl with hl | (((hl | hl) | ⟨c, _, hl⟩) | hl)
      · rcases hl2 l hl with e | e | e <;> rw [e] <;> simp
      · subst hl; simp
      · subst hl; simp
      · subst hl; simp
      · subst hl; simp
    · simp
    · simp
    · intro hlt
      simp only [Function.update_same]
      exact asUINT64_succ _ hlt
    · exact ⟨sw.queue, by simp [hq]⟩
  · intro h
    unfold WaitGPUIdle at h
    split at h
    · obtain ⟨_, w2, _, _, _, ls, w6, w7⟩ := WaitForFrame_spec S _ s2 h
      simp only [enqueue_g_FenceValues, log_g_FenceValues, enqueue_trace, log_trace,
        Function.update_same] at w2 w6
      refine ⟨_, ls, w6, ?_, ?_, ?_, ?_, w7⟩
      · simp
      · simp
      · simp [w2]
      · intro hlt
        simp only [Function.update_same]
        exact asUINT64_succ _ hlt
    · exact absurd h (by simp)

theorem signal_follows_submission_witness :
    (∃ pre ex sig pr,
      ((Render 0 exPendingState).get (by decide)).trace
        = exPendingState.trace ++ pre ++ [ex, sig, pr] ∧
      (∀ l, l ∈ pre → l.ev ≠ Event.ExecuteCommandLists) ∧
      ex.ev = Event.ExecuteCommandLists ∧ sig.ev = Event.Signal 0 (sig.targets 0) ∧
      pr.ev = Event.Present ∧
      sig.targets 0 = asUINT64 (exPendingState.g_FenceValues 0 + 1) ∧
      (exPendingState.g_FenceValues 0 < 2 ^ 64 - 1 →
        sig.targets 0 = exPendingState.g_FenceValues 0 + 1) ∧
      ∃ q, ((Render 0 exPendingState).get (by decide)).queue
        = q ++ [QueueOp.Execute, QueueOp.Signal 0 (sig.targets 0)]) ∧
    (∃ sig post,
      ((WaitGPUIdle 1 exPendingState).get (by decide)).trace
        = exPendingState.trace ++ [sig] ++ post ∧
      sig.ev = Event.Signal 1 (sig.targets 1) ∧
      sig.targets 1 = asUINT64 (exPendingState.g_FenceValues 1 + 1) ∧
      ((WaitGPUIdle 1 exPendingState).get (by decide)).g_FenceValues 1 = sig.targets 1 ∧
      (exPendingState.g_FenceValues 1 < 2 ^ 64 - 1 →
        sig.targets 1 = exPendingState.g_FenceValues 1 + 1) ∧
      ∀ l, l ∈ post → l.ev.quiet = true) :=
  ⟨(signal_follows_submission 0 1 exPendingState ((Render 0 exPendingState).get (by decide))
      ((WaitGPUIdle 1 exPendingState).get (by decide))).1 (Option.some_get _).symm,
   (signal_follows_submission 0 1 exPendingState ((Render 0 exPendingState).get (by decide))
      ((WaitGPUIdle 1 exPendingState).get (by decide))).2 (Option.some_get _).symm⟩

/-- The largest `UINT64` is a target the program reaches: `n` calls of
`WaitGPUIdle(0)` on a live queue return and advance the target of slot 0 by
`n` while that stays below `2^64`. -/
theorem WaitGPUIdle_iterate (n : Nat) (s : FrameState)
    (h : Live s.g_FenceValues s.queue s.completed) (hn : s.g_FenceValues 0 + n < 2 ^ 64) :
    ∃ s1, run (List.replicate n (Op.WaitGPUIdle 0)) s = some s1 ∧
      Live s1.g_FenceValues s1.queue s1.completed ∧
      s1.g_FenceValues 0 = s.g_FenceValues 0 + n := by
  induction n generalizing s with
  | zero => exact ⟨s, rfl, h, rfl⟩
  | succ n ih =>
    obtain ⟨sa, ha, hla⟩ := WaitGPUIdle_live 0 s (by decide) h
    obtain ⟨_, hg, _⟩ := WaitGPUIdle_spec 0 s sa ha
    have e : sa.g_FenceValues 0 = s.g_FenceValues 0 + 1 := by
      rw [hg, Function.update_same]
      exact asUINT64_succ _ (by omega)
    obtain ⟨s1, h1, h2, h3⟩ := ih sa hla (by omega)
    refine ⟨s1, ?_, h2, by omega⟩
    simp only [List.replicate_succ, run, step, ha]
    exact h1

/-- After `InitD3D` and `2^64 - 2` calls of `WaitGPUIdle(0)` the target of
slot 0 is `2^64 - 1`, and the frame rendered next on slot 0 signals 0. -/
theorem fence_target_reaches_max :
    ∃ s0 s s1, InitD3D exEnv 0 = some s0 ∧
      run (List.replicate (2 ^ 64 - 2) (Op.WaitGPUIdle 0)) s0 = some s ∧
      s.g_FenceValues 0 = 2 ^ 64 - 1 ∧ Render 0 s = some s1 ∧
      signals s1.trace = signals s.trace ++ [(0, 0)] := by
  have h0 : InitD3D exEnv 0 = some ((InitD3D exEnv 0).get (by decide)) :=
    (Option.some_get _).symm
  obtain ⟨_, hg, _⟩ := InitD3D_spec exEnv 0 _ h0
  obtain ⟨hl, _, _⟩ := InitD3D_live exEnv 0 _ h0
  have hg0 : ((InitD3D exEnv 0).get (by decide)).g_FenceValues 0 = 1 := by
    rw [hg, Function.update_same]
  obtain ⟨s, h1, h2, h3⟩ := WaitGPUIdle_iterate (2 ^ 64 - 2) _ hl (by rw [hg0]; norm_num)
  obtain ⟨s1, r1, _, _, _, r5⟩ := Render_frame 0 s (by decide) h2
  have e : s.g_FenceValues 0 = 2 ^ 64 - 1 := by rw [h3, hg0]; norm_num
  refine ⟨_, s, s1, h0, h1, e, r1, ?_⟩
  rw [r5, e]
  rfl

/-- C4 as stated fails for "never decreases": after `InitD3D` and `2^64 - 2`
calls of `WaitGPUIdle(0)` the target of slot 0 is `2^64 - 1`, and the `Render`
that acquires slot 0 next takes `g_FenceValues[0]` down to 0. -/
theorem fence_target_falls :
    ∃ s0 s s1, InitD3D exEnv 0 = some s0 ∧
      run (List.replicate (2 ^ 64 - 2) (Op.WaitGPUIdle 0)) s0 = some s ∧
      step (Op.Render 0) s = some s1 ∧
      s.g_FenceValues 0 = 2 ^ 64 - 1 ∧ s1.g_FenceValues 0 = 0 ∧
      s1.g_FenceValues 0 < s.g_FenceValues 0 := by
  obtain ⟨s0, s, s1, h0, hrun, hg, hr, _⟩ := fence_target_reaches_max
  obtain ⟨_, hg1, _⟩ := Render_spec 0 s s1 hr
  have e : s1.g_FenceValues 0 = 0 := by
    rw [hg1, Function.update_same, hg]
    rfl
  exact ⟨s0, s, s1, h0, hrun, hr, hg, e, by rw [e, hg]; norm_num⟩

/-- C16. Per-frame order: the commands a `Render` call records start with the
transition of `g_RenderTargets[S]` from PRESENT to RENDER_TARGET and end with
its transition from RENDER_TARGET to PRESENT, every clear, binding and draw
lying strictly between the two; after the last command the call closes the
list, submits it, signals the fence of `S` and presents, in this order.
Before the recording the call only waits for the slot and resets the
allocator and the list. -/
theorem Render_order (bb : Nat) (s s1 : FrameState) (h : Render bb s = some s1) :
    ∃ waits mid,
      events s1.trace = events s.trace ++ waits ++
        [Event.AllocatorReset bb, Event.ListReset bb] ++
        (renderCommands bb).map Event.Record ++
        [Event.ListClose, Event.ExecuteCommandLists,
         Event.Signal bb (s1.g_FenceValues bb), Event.Present] ∧
      (∀ e, e ∈ waits → e = Event.GetCompletedValue bb (s.completed bb) ∨
        e = Event.SetEventOnCompletion bb (s.g_FenceValues bb) ∨
        e = Event.WaitForSingleObject) ∧
      renderCommands bb
        = Command.ResourceBarrier (Resource.g_RenderTargets bb) D3D12_RESOURCE_STATES.PRESENT
            D3D12_RESOURCE_STATES.RENDER_TARGET :: mid ++
          [Command.ResourceBarrier (Resource.g_RenderTargets bb)
            D3D12_RESOURCE_STATES.RENDER_TARGET D3D12_RESOURCE_STATES.PRESENT] ∧
      mid.length = 17 ∧ ∀ c, c ∈ mid → c.isBarrier = false := by
  obtain ⟨sw, hw, _, ht⟩ := Render_trace bb s s1 h
  obtain ⟨ls, hl1, hl2⟩ := WaitForFrame_trace _ _ sw hw
  obtain ⟨_, hg, _⟩ := Render_spec bb s s1 h
  simp only at hl1 hl2
  refine ⟨events ls, (renderCommands bb).tail.dropLast, ?_, ?_, rfl, rfl, ?_⟩
  · rw [ht, hl1, hg]
    simp [events, List.map_map, Function.comp_def]
  · intro e he
    simp only [events, List.mem_map] at he
    obtain ⟨l, hl, rfl⟩ := he
    exact hl2 l hl
  · have hall : (renderCommands bb).tail.dropLast.all (fun c => !c.isBarrier) = true := rfl
    intro c hc
    have hc2 := List.all_eq_true.mp hall c hc
    simpa using hc2

theorem Render_order_witness :
    ∃ waits mid,
      events ((Render 0 exPendingState).get (by decide)).trace
        = events exPendingState.trace ++ waits ++
        [Event.AllocatorReset 0, Event.ListReset 0] ++
        (renderCommands 0).map Event.Record ++
        [Event.ListClose, Event.ExecuteCommandLists,
         Event.Signal 0 (((Render 0 exPendingState).get (by decide)).g_FenceValues 0),
         Event.Present] ∧
      (∀ e, e ∈ waits → e = Event.GetCompletedValue 0 (exPendingState.completed 0) ∨
        e = Event.SetEventOnCompletion 0 (exPendingState.g_FenceValues 0) ∨
        e = Event.WaitForSingleObject) ∧
      renderCommands 0
        = Command.ResourceBarrier (Resource.g_RenderTargets 0) D3D12_RESOURCE_STATES.PRESENT
            D3D12_RESOURCE_STATES.RENDER_TARGET :: mid ++
          [Command.ResourceBarrier (Resource.g_RenderTargets 0)
            D3D12_RESOURCE_STATES.RENDER_TARGET D3D12_RESOURCE_STATES.PRESENT] ∧
      mid.length = 17 ∧ ∀ c, c ∈ mid → c.isBarrier = false :=
  Render_order 0 exPendingState _ (Option.some_get _).symm

/-! ### Teardown -/

theorem Settles_of_no_wait (q : List QueueOp) (c : Nat → Nat)
    (h : ∀ f v, QueueOp.Wait f v ∉ q) : Settles q c := by
  induction q generalizing c with
  | nil => trivial
  | cons op q ih =>
    have hq : ∀ f v, QueueOp.Wait f v ∉ q := fun f v hm => h f v (List.mem_cons_of_mem _ hm)
    cases op with
    | Execute => exact ih c hq
    | Signal f v => exact ih _ hq
    | Wait f v => exact absurd (List.mem_cons_self _ _) (h f v)

theorem Drains_of_Live (g : Nat → Nat) (q : List QueueOp) (c : Nat → Nat) (h : Live g q c) :
    Drains g q c :=
  ⟨Settles_of_no_wait q c h.1, h.2⟩

/-- Executing the operation at the head of a draining queue leaves it
draining. -/
theorem Drains_tail (g : Nat → Nat) (op : QueueOp) (q : List QueueOp) (c : Nat → Nat)
    (h : Drains g (op :: q) c) :
    Drains g q (match op with
      | QueueOp.Signal f v => Function.update c f v
      | _ => c) := by
  obtain ⟨hs, hl⟩ := h
  refine ⟨?_, fun S => ?_⟩
  · cases op with
    | Execute => exact hs
    | Signal f v => exact hs
    | Wait f v => exact hs.2
  · have hS := hl S
    simp only [lastQueuedSignal] at hS
    cases hq : lastQueuedSignal S q with
    | some w =>
      rw [hq] at hS
      simpa using hS
    | none =>
      rw [hq] at hS
      cases op with
      | Execute => simpa using hS
      | Wait f v => simpa using hS
      | Signal f v =>
        simp only at hS ⊢
        by_cases hf : f = S
        · subst hf
          simp only [if_true] at hS
          simp [hS]
        · simp only [if_neg hf] at hS
          rw [Function.update_noteq (Ne.symm hf)]
          exact hS

/-- On a draining queue the GPU reaches the target of every slot. -/
theorem gpuRunUntil_drains (g : Nat → Nat) (S : Nat) (q : List QueueOp) (c : Nat → Nat)
    (h : Drains g q c) :
    ∃ q1 c1, gpuRunUntil S (g S) q c = some (q1, c1) ∧ Drains g q1 c1 := by
  induction q generalizing c with
  | nil =>
    have hS := h.2 S
    simp only [lastQueuedSignal] at hS
    exact ⟨[], c, by simp [gpuRunUntil, hS], h⟩
  | cons op q ih =>
    by_cases hc : g S ≤ c S
    · exact ⟨op :: q, c, by simp [gpuRunUntil, hc], h⟩
    · have ht := Drains_tail g op q c h
      cases op with
      | Execute =>
        obtain ⟨q1, c1, h1, h2⟩ := ih c ht
        exact ⟨q1, c1, by simp [gpuRunUntil, hc, h1], h2⟩
      | Signal f v =>
        obtain ⟨q1, c1, h1, h2⟩ := ih _ ht
        exact ⟨q1, c1, by simp [gpuRunUntil, hc, h1], h2⟩
      | Wait f v =>
        obtain ⟨q1, c1, h1, h2⟩ := ih c ht
        have hw : v ≤ c f := h.1.1
        exact ⟨q1, c1, by simp [gpuRunUntil, hc, hw, h1], h2⟩

/-- An operation added behind a queue none of whose waits holds the GPU: a
`Wait` must be for a value its fence will have reached by then. -/
theorem Settles_snoc (q : List QueueOp) (c : Nat → Nat) (op : QueueOp) (h : Settles q c)
    (hop : ∀ f v, op = QueueOp.Wait f v →
      match lastQueuedSignal f q with
      | some w => v ≤ w
      | none => v ≤ c f) :
    Settles (q ++ [op]) c := by
  induction q generalizing c with
  | nil =>
    cases op with
    | Execute => trivial
    | Signal f v => trivial
    | Wait f v =>
      have := hop f v rfl
      simp only [lastQueuedSignal] at this
      exact ⟨this, trivial⟩
  | cons a q ih =>
    have key : ∀ c1 : Nat → Nat, Settles q c1 →
        (∀ S, lastQueuedSignal S q = none → c1 S = match a with
          | QueueOp.Signal f v => if f = S then v else c S
          | _ => c S) → Settles (q ++ [op]) c1 := by
      intro c1 h1 hc1
      apply ih c1 h1
      intro f v e
      have h2 := hop f v e
      simp only [lastQueuedSignal] at h2
      cases hq : lastQueuedSignal f q with
      | some w => rw [hq] at h2; simpa using h2
      | none =>
        rw [hq] at h2
        rw [hc1 f hq]
        cases a with
        | Execute => simpa using h2
        | Wait f1 v1 => simpa using h2
        | Signal f1 v1 =>
          simp only at h2 ⊢
          by_cases hf : f1 = f
          · simp only [if_pos hf] at h2 ⊢; exact h2
          · simp only [if_neg hf] at h2 ⊢; exact h2
    cases a with
    | Execute => exact key c h (fun _ _ => rfl)
    | Wait f1 v1 => exact ⟨h.1, key c h.2 (fun _ _ => rfl)⟩
    | Signal f1 v1 =>
      refine key _ h (fun S _ => ?_)
      by_cases hf : f1 = S
      · subst hf; simp
      · simp [hf, Function.update_noteq (Ne.symm hf)]

theorem WaitForFrame_drains (i : Nat) (s : FrameState) (hi : i < FRAME_BUFFER_COUNT)
    (h : Drains s.g_FenceValues s.queue s.completed) :
    ∃ s1, WaitForFrame i s = some s1 ∧ Drains s1.g_FenceValues s1.queue s1.completed := by
  unfold WaitForFrame
  simp only [if_pos hi, log_completed, log_g_FenceValues, log_queue]
  split
  · obtain ⟨q1, c1, h1, h2⟩ := gpuRunUntil_drains s.g_FenceValues i s.queue s.completed h
    rw [h1]
    exact ⟨_, rfl, h2⟩
  · exact ⟨_, rfl, h⟩

theorem cleanupWait_drains (i : Nat) (s : FrameState) (hi : i < FRAME_BUFFER_COUNT)
    (h : Drains s.g_FenceValues s.queue s.completed) :
    ∃ s1, cleanupWait i s = some s1 ∧ Drains s1.g_FenceValues s1.queue s1.completed := by
  obtain ⟨sw, hw, hd⟩ := WaitForFrame_drains i s hi h
  unfold cleanupWait
  rw [hw]
  refine ⟨_, rfl, ?_⟩
  simp only [enqueue_g_FenceValues, log_g_FenceValues, enqueue_queue, log_queue,
    enqueue_completed, log_completed]
  refine ⟨Settles_snoc _ _ _ hd.1 ?_, fun S => ?_⟩
  · intro f v e
    simp only [QueueOp.Wait.injEq] at e
    obtain ⟨e1, e2⟩ := e
    subst e1; subst e2
    have := hd.2 i
    cases hq : lastQueuedSignal i sw.queue with
    | some w => rw [hq] at this; simp only at this ⊢; omega
    | none => rw [hq] at this; simpa using this
  · rw [lastQueuedSignal_snoc]
    exact hd.2 S

theorem cleanupLoop_drains (n : Nat) (s : FrameState) (hn : n ≤ FRAME_BUFFER_COUNT)
    (h : Drains s.g_FenceValues s.queue s.completed) :
    ∃ s1, forLoopO cleanupWait n s = some s1 ∧
      Drains s1.g_FenceValues s1.queue s1.completed := by
  induction n with
  | zero => exact ⟨s, rfl, h⟩
  | succ n ih =>
    obtain ⟨sa, ha, hd⟩ := ih (Nat.le_of_succ_le hn)
    obtain ⟨s1, h1, h2⟩ := cleanupWait_drains n sa hn hd
    exact ⟨s1, by simp [forLoopO, ha, h1], h2⟩

theorem WaitGPUIdle_drains (i : Nat) (s : FrameState) (hi : i < FRAME_BUFFER_COUNT)
    (h : Drains s.g_FenceValues s.queue s.completed) :
    ∃ s1, WaitGPUIdle i s = some s1 ∧ Drains s1.g_FenceValues s1.queue s1.completed := by
  unfold WaitGPUIdle
  rw [if_pos hi]
  dsimp only
  apply WaitForFrame_drains _ _ hi
  simp only [log_g_FenceValues, enqueue_g_FenceValues, log_queue, enqueue_queue, log_completed,
    enqueue_completed, Function.update_same]
  refine ⟨Settles_snoc _ _ _ h.1 (fun f v e => by cases e), fun S => ?_⟩
  rw [lastQueuedSignal_snoc]
  simp only
  by_cases hS : i = S
  · subst hS; simp
  · simp only [if_neg hS]
    rw [Function.update_noteq (Ne.symm hS)]
    exact h.2 S

/-- On a draining queue, in particular on a live one, `Cleanup` returns. -/
theorem Cleanup_returns (s : FrameState) (h : Drains s.g_FenceValues s.queue s.completed) :
    ∃ s3, Cleanup s = some s3 := by
  obtain ⟨s1, h1, d1⟩ := cleanupLoop_drains FRAME_BUFFER_COUNT s (Nat.le_refl _) h
  obtain ⟨s2, h2, _⟩ := WaitGPUIdle_drains 0 s1 (by decide) d1
  exact ⟨s2.logAll (cleanupReleases.map Event.Release), by simp [Cleanup, h1, h2]⟩

/-- The first loop of `Cleanup`: the targets are kept, nothing is released,
and for every slot `i` the queue-side wait that follows `WaitForFrame(i)` is
in the trace, made when fence `i` had reached its target. -/
theorem cleanupLoop_trace (n : Nat) (s s1 : FrameState)
    (h : forLoopO cleanupWait n s = some s1) :
    s1.g_FenceValues = s.g_FenceValues ∧
    ∃ ls, s1.trace = s.trace ++ ls ∧ (∀ l, l ∈ ls → l.ev.isRelease = false) ∧
      ∀ i, i < n → ∃ w, w ∈ ls ∧ w.ev = Event.QueueWait i (s.g_FenceValues i) ∧
        s.g_FenceValues i ≤ w.completed i := by
  induction n generalizing s1 with
  | zero =>
    simp only [forLoopO, Option.some.injEq] at h
    subst h
    exact ⟨rfl, [], by simp, by simp, fun i hi => absurd hi (Nat.not_lt_zero i)⟩
  | succ n ih =>
    simp only [forLoopO] at h
    split at h
    · rename_i sa ha
      obtain ⟨a1, la, a3, a4, a5⟩ := ih sa ha
      unfold cleanupWait at h
      split at h
      · exact absurd h (by simp)
      · rename_i sw hw
        obtain ⟨_, w2, _, _, w5, _⟩ := WaitForFrame_spec _ _ sw hw
        obtain ⟨lw, w6, w7⟩ := WaitForFrame_trace _ _ sw hw
        simp only [Option.some.injEq] at h
        subst h
        refine ⟨by simp [w2, a1],
          la ++ lw ++ [⟨Event.QueueWait n (sw.g_FenceValues n), sw.completed, sw.g_FenceValues,
            sw.recording⟩], by simp [w6, a3], ?_, ?_⟩
        · intro l hl
          simp only [List.mem_append, List.mem_singleton] at hl
          rcases hl with (hl | hl) | hl
          · exact a4 l hl
          · rcases w7 l hl with e | e | e <;> rw [e] <;> rfl
          · subst hl; rfl
        · intro i hi
          rcases Nat.lt_succ_iff_lt_or_eq.mp hi with hi | hi
          · obtain ⟨w, m1, m2, m3⟩ := a5 i hi
            exact ⟨w, by simp [m1], m2, m3⟩
          · subst hi
            refine ⟨⟨Event.QueueWait i (sw.g_FenceValues i), sw.completed, sw.g_FenceValues,
              sw.recording⟩, by simp, ?_, ?_⟩
            · simp [w2, a1]
            · simpa [a1] using w5
    · exact absurd h (by simp)

/-- C17. Teardown waits for every slot: every slot starts with fence value 0
and target 0; `Cleanup` returns whenever the queue is live; and in `Cleanup`
everything precedes the first release: for every slot `i` below
`FRAME_BUFFER_COUNT` the call `WaitForFrame(i)` has returned, the queue-side
wait that follows it being made when the completed value of `g_Fences[i]` was
at least `g_FenceValues[i]` as it stood on entry to `Cleanup`, and
`WaitGPUIdle(0)` has signalled the next target of slot 0 and returned, so that
at every release fence 0 has reached that target. The releases are those of
lines 1329-1369, in their order. -/
theorem Cleanup_waits_before_release (s : FrameState) :
    (∀ bb i, (initialState bb).completed i = 0 ∧ (initialState bb).g_FenceValues i = 0) ∧
    (Live s.g_FenceValues s.queue s.completed → ∃ s3, Cleanup s = some s3) ∧
    (∀ s3, Cleanup s = some s3 →
      ∃ pre rel, s3.trace = s.trace ++ pre ++ rel ∧
        events rel = cleanupReleases.map Event.Release ∧
        (∀ l, l ∈ pre → l.ev.isRelease = false) ∧
        (∀ i, i < FRAME_BUFFER_COUNT → ∃ w, w ∈ pre ∧
          w.ev = Event.QueueWait i (s.g_FenceValues i) ∧ s.g_FenceValues i ≤ w.completed i) ∧
        (∃ sig, sig ∈ pre ∧ sig.ev = Event.Signal 0 (asUINT64 (s.g_FenceValues 0 + 1))) ∧
        ∀ l, l ∈ rel →
          l.targets = Function.update s.g_FenceValues 0 (asUINT64 (s.g_FenceValues 0 + 1)) ∧
          l.targets 0 ≤ l.completed 0) := by
  refine ⟨fun _ _ => ⟨rfl, rfl⟩, fun hl => Cleanup_returns s (Drains_of_Live _ _ _ hl), ?_⟩
  intro s3 h
  unfold Cleanup at h
  split at h
  · exact absurd h (by simp)
  · rename_i s1 h1
    split at h
    · exact absurd h (by simp)
    · rename_i s2 h2
      simp only [Option.some.injEq] at h
      subst h
      obtain ⟨a1, la, a3, a4, a5⟩ := cleanupLoop_trace _ s s1 h1
      obtain ⟨_, b2, _, _, b5, sig, post, b6, b7, _⟩ := WaitGPUIdle_spec 0 s1 s2 h2
      have hw := h2
      unfold WaitGPUIdle at hw
      rw [if_pos (by decide)] at hw
      dsimp only at hw
      obtain ⟨lw, c1, c2⟩ := WaitForFrame_trace _ _ s2 hw
      simp only [enqueue_trace, log_trace, Function.update_same] at c1
      rw [a1] at b2 b5 b7
      refine ⟨la ++ ([⟨Event.Signal 0 (asUINT64 (s1.g_FenceValues 0 + 1)), s1.completed,
          Function.update s1.g_FenceValues 0 (asUINT64 (s1.g_FenceValues 0 + 1)),
          s1.recording⟩] ++ lw),
        (cleanupReleases.map Event.Release).map
          (fun e => ⟨e, s2.completed, s2.g_FenceValues, s2.recording⟩), ?_, ?_, ?_, ?_, ?_, ?_⟩
      · rw [logAll_trace, c1, a3]
        simp only [List.append_assoc]
      · simp [events, List.map_map, Function.comp_def]
      · intro l hl
        simp only [List.mem_append, List.mem_singleton] at hl
        rcases hl with hl | hl | hl
        · exact a4 l hl
        · subst hl; rfl
        · rcases c2 l hl with e | e | e <;> rw [e] <;> rfl
      · intro i hi
        obtain ⟨w, m1, m2, m3⟩ := a5 i hi
        exact ⟨w, by simp [m1], m2, m3⟩
      · exact ⟨⟨Event.Signal 0 (asUINT64 (s1.g_FenceValues 0 + 1)), s1.completed,
          Function.update s1.g_FenceValues 0 (asUINT64 (s1.g_FenceValues 0 + 1)),
          s1.recording⟩, by simp, by simp [a1]⟩
      · intro l hl
        simp only [List.mem_map] at hl
        obtain ⟨e, _, rfl⟩ := hl
        refine ⟨b2, ?_⟩
        show s2.g_FenceValues 0 ≤ s2.completed 0
        simp only [b2, Function.update_same]
        exact b5

theorem Cleanup_waits_before_release_witness :
    (∃ s3, Cleanup exPendingState = some s3) ∧
    ∃ pre rel,
      ((Cleanup exPendingState).get (by decide)).trace = exPendingState.trace ++ pre ++ rel ∧
      events rel = cleanupReleases.map Event.Release ∧
      (∀ l, l ∈ pre → l.ev.isRelease = false) ∧
      (∀ i, i < FRAME_BUFFER_COUNT → ∃ w, w ∈ pre ∧
        w.ev = Event.QueueWait i (exPendingState.g_FenceValues i) ∧
        exPendingState.g_FenceValues i ≤ w.completed i) ∧
      (∃ sig, sig ∈ pre ∧
        sig.ev = Event.Signal 0 (asUINT64 (exPendingState.g_FenceValues 0 + 1))) ∧
      ∀ l, l ∈ rel →
        l.targets = Function.update exPendingState.g_FenceValues 0
          (asUINT64 (exPendingState.g_FenceValues 0 + 1)) ∧
        l.targets 0 ≤ l.completed 0 :=
  ⟨(Cleanup_waits_before_release exPendingState).2.1
      ⟨by intro f v hm; simp [exPendingState] at hm,
       by
        intro S
        by_cases h : 1 = S
        · simp [exPendingState, lastQueuedSignal, h]
        · have h2 : ¬ S = 1 := fun e => h e.symm
          simp [exPendingState, lastQueuedSignal, h, h2]⟩,
   (Cleanup_waits_before_release exPendingState).2.2 _ (Option.some_get _).symm⟩

/-! ### The initial uploads -/

theorem recordExt_refl (s : FrameState) : RecordExt s s :=
  ⟨rfl, rfl, rfl, rfl, [], by simp, by simp⟩

theorem recordExt_log {s s1 : FrameState} (h : RecordExt s s1) (e : Event)
    (he : e.isListWork = true) : RecordExt s (s1.log e) := by
  obtain ⟨h1, h2, h3, h4, ls, h5, h6⟩ := h
  refine ⟨h1, h2, h3, h4, ls ++ [⟨e, s1.completed, s1.g_FenceValues, s1.recording⟩],
    by simp [h5], ?_⟩
  intro l hl
  simp only [List.mem_append, List.mem_singleton] at hl
  rcases hl with hl | hl
  · exact h6 l hl
  · subst hl; exact he

theorem recordExt_setRecording {s s1 : FrameState} (h : RecordExt s s1) (b : Bool) :
    RecordExt s { s1 with recording := b } := h

theorem recordExt_upload {s s1 : FrameState} (h : RecordExt s s1) (env : InitEnv)
    (dest staging : ID3D12Resource) (src : D3D12_SUBRESOURCE_DATA) :
    RecordExt s (uploadAndRecord env dest staging src s1).2 := by
  obtain ⟨h1, h2, h3, h4, ls, h5, h6⟩ := h
  refine ⟨by simp [uploadAndRecord, h1], by simp [uploadAndRecord, h2],
    by simp [uploadAndRecord, h3], by simpa [uploadAndRecord] using h4, ?_⟩
  refine ⟨ls ++ _, by rw [uploadAndRecord, logAll_trace, h5, List.append_assoc], ?_⟩
  intro l hl
  simp only [List.mem_append, List.mem_map] at hl
  rcases hl with hl | ⟨e, ⟨c, _, hc⟩, he⟩
  · exact h6 l hl
  · subst he; subst hc; rfl

/-- Closing the list and submitting it, after the recording. -/
theorem recordExt_submit {s s5 : FrameState} (h : RecordExt s s5) :
    (((({ (s5.log Event.ListClose) with recording := false } : FrameState).log
        Event.ExecuteCommandLists).enqueue QueueOp.Execute).g_FenceValues = s.g_FenceValues) ∧
    (((({ (s5.log Event.ListClose) with recording := false } : FrameState).log
        Event.ExecuteCommandLists).enqueue QueueOp.Execute).completed = s.completed) ∧
    (((({ (s5.log Event.ListClose) with recording := false } : FrameState).log
        Event.ExecuteCommandLists).enqueue QueueOp.Execute).queue
          = s.queue ++ [QueueOp.Execute]) ∧
    ∃ ls cl ex,
      ((({ (s5.log Event.ListClose) with recording := false } : FrameState).log
        Event.ExecuteCommandLists).enqueue QueueOp.Execute).trace = s.trace ++ ls ++ [cl, ex] ∧
      (∀ l, l ∈ ls → l.ev.isListWork = true) ∧
      cl.ev = Event.ListClose ∧ ex.ev = Event.ExecuteCommandLists := by
  obtain ⟨h1, h2, h3, h4, ls, h5, h6⟩ := h
  refine ⟨by simp [h1], by simp [h3], by simp [h4], ls,
    ⟨Event.ListClose, s5.completed, s5.g_FenceValues, s5.recording⟩,
    ⟨Event.ExecuteCommandLists, s5.completed, s5.g_FenceValues, false⟩, ?_, h6, rfl, rfl⟩
  simp [h5, FrameState.log, FrameState.enqueue]

/-- The initial command list of `InitD3D`: a list reset and recorded commands,
then the close and the submission; the fences and their targets are kept and
the queue gains the submitted list. -/
theorem recordInitialUploads_trace (env : InitEnv) (s s7 : FrameState)
    (h : recordInitialUploads env s = some s7) :
    s7.g_FenceValues = s.g_FenceValues ∧ s7.completed = s.completed ∧
    s7.queue = s.queue ++ [QueueOp.Execute] ∧
    ∃ ls cl ex, s7.trace = s.trace ++ ls ++ [cl, ex] ∧
      (∀ l, l ∈ ls → l.ev.isListWork = true) ∧
      cl.ev = Event.ListClose ∧ ex.ev = Event.ExecuteCommandLists := by
  unfold recordInitialUploads at h
  dsimp only at h
  split at h
  · exact absurd h (by simp)
  · split at h
    · exact absurd h (by simp)
    · simp only [Option.some.injEq] at h
      subst h
      simp only [FrameState.record]
      apply recordExt_submit
      refine recordExt_log ?_ _ (by rfl)
      apply recordExt_upload
      refine recordExt_log ?_ _ (by rfl)
      apply recordExt_upload
      refine recordExt_log ?_ _ (by rfl)
      apply recordExt_upload
      apply recordExt_setRecording
      refine recordExt_log ?_ _ (by rfl)
      exact recordExt_refl s


/-- The trace of a `WaitGPUIdle` that returns: the signal of the incremented
target, then the actions of `WaitForFrame`. -/
theorem WaitGPUIdle_trace (i : Nat) (s s1 : FrameState) (h : WaitGPUIdle i s = some s1) :
    ∃ lw, s1.trace = s.trace ++
        [⟨Event.Signal i (asUINT64 (s.g_FenceValues i + 1)), s.completed,
          Function.update s.g_FenceValues i (asUINT64 (s.g_FenceValues i + 1)), s.recording⟩]
        ++ lw ∧
      ∀ l, l ∈ lw → l.ev = Event.GetCompletedValue i (s.completed i) ∨
        l.ev = Event.SetEventOnCompletion i (asUINT64 (s.g_FenceValues i + 1)) ∨
        l.ev = Event.WaitForSingleObject := by
  unfold WaitGPUIdle at h
  split at h
  · dsimp only at h
    obtain ⟨lw, c1, c2⟩ := WaitForFrame_trace _ _ s1 h
    simp only [enqueue_trace, log_trace, enqueue_completed, log_completed,
      enqueue_g_FenceValues, log_g_FenceValues, Function.update_same] at c1 c2
    exact ⟨lw, c1, c2⟩
  · exact absurd h (by simp)

/-- `WaitGPUIdle` on an idle GPU with nothing but submitted lists in the queue:
the GPU executes the lists and the signal, and the queue is empty on return. -/
theorem WaitGPUIdle_queue_empty (i n : Nat) (s s1 : FrameState)
    (h : WaitGPUIdle i s = some s1)
    (hq : s.queue = List.replicate n QueueOp.Execute)
    (hc : s.completed i < asUINT64 (s.g_FenceValues i + 1)) :
    s1.queue = [] := by
  unfold WaitGPUIdle at h
  split at h
  · rename_i hi
    dsimp only at h
    unfold WaitForFrame at h
    simp only [if_pos hi, log_completed, log_g_FenceValues, log_queue, enqueue_completed,
      enqueue_g_FenceValues, enqueue_queue, Function.update_same, if_pos hc, hq] at h
    have key : ∀ (m : Nat), gpuRunUntil i (asUINT64 (s.g_FenceValues i + 1))
        (List.replicate m QueueOp.Execute ++
          [QueueOp.Signal i (asUINT64 (s.g_FenceValues i + 1))]) s.completed
        = some ([], Function.update s.completed i (asUINT64 (s.g_FenceValues i + 1))) := by
      intro m
      induction m with
      | zero => simp [gpuRunUntil, Nat.not_le.mpr hc]
      | succ m ih => simp [List.replicate_succ, gpuRunUntil, Nat.not_le.mpr hc, ih]
    rw [key n] at h
    simp only [Option.some.injEq] at h
    subst h
    rfl
  · exact absurd h (by simp)

/-- C18. Staging buffers outlive their copies: in an `InitD3D` that returns,
the trace ends with the releases of the three staging allocations (texture,
index, vertex). Everything before them is, in order: the recording (the list
reset and the recorded commands, the copies among them, after the initial
close of line 540), the close of the list, its submission, the `Signal` of
`WaitGPUIdle` behind the submission, and the actions of the wait. Nothing is
released before the wait has returned, at each release the completed value of
the fence is at least the value signalled behind the submission, and the GPU
has executed all that was submitted. -/
theorem InitD3D_staging_released_after_wait (env : InitEnv) (bb : Nat) (s0 : FrameState)
    (h : InitD3D env bb = some s0) :
    ∃ rec cl ex sig waits rel,
      s0.trace = rec ++ [cl, ex, sig] ++ waits ++ rel ∧
      (∀ l, l ∈ rec → l.ev = Event.ListClose ∨ l.ev.isListWork = true) ∧
      cl.ev = Event.ListClose ∧ ex.ev = Event.ExecuteCommandLists ∧
      sig.ev = Event.Signal bb 1 ∧
      (∀ l, l ∈ waits → l.ev = Event.GetCompletedValue bb 0 ∨
        l.ev = Event.SetEventOnCompletion bb 1 ∨ l.ev = Event.WaitForSingleObject) ∧
      events rel = [Event.Release (Owned.allocation Resource.textureUpload),
        Event.Release (Owned.allocation Resource.iBufferUploadHeap),
        Event.Release (Owned.allocation Resource.vBufferUploadHeap)] ∧
      (∀ l, l ∈ rec ++ [cl, ex, sig] ++ waits → l.ev.isRelease = false) ∧
      (∀ l, l ∈ rel → 1 ≤ l.completed bb) ∧
      s0.queue = [] := by
  unfold InitD3D at h
  dsimp only at h
  split at h
  · split at h
    · exact absurd h (by simp)
    · rename_i s7 h7
      split at h
      · exact absurd h (by simp)
      · rename_i s8 h8
        simp only [Option.some.injEq] at h
        subst h
        obtain ⟨g7, c7, q7, ls, cl, ex, t7, k7, ecl, eex⟩ := recordInitialUploads_trace env _ s7 h7
        obtain ⟨_, i7, _⟩ := recordInitialUploads_spec env _ s7 h7
        simp only [log_g_FenceValues, log_completed, log_queue, log_trace, initialState,
          List.nil_append, log_g_FrameIndex] at g7 c7 q7 t7 i7
        rw [i7] at h8
        obtain ⟨_, _, _, _, b5, _⟩ := WaitGPUIdle_spec bb s7 s8 h8
        obtain ⟨lw, w1, w2⟩ := WaitGPUIdle_trace bb s7 s8 h8
        have e1 : asUINT64 (s7.g_FenceValues bb + 1) = 1 := by rw [g7]; rfl
        have hempty := WaitGPUIdle_queue_empty bb 1 s7 s8 h8 (by rw [q7]; rfl)
          (by rw [e1, c7]; exact Nat.zero_lt_one)
        rw [e1] at b5 w1 w2
        rw [c7] at w2
        have hkinds : ∀ l, l ∈ ([⟨Event.ListClose, fun _ => 0, fun _ => 0, true⟩] ++ ls :
            List Logged) → l.ev = Event.ListClose ∨ l.ev.isListWork = true := by
          intro l hl
          simp only [List.mem_append, List.mem_singleton] at hl
          rcases hl with hl | hl
          · subst hl; exact Or.inl rfl
          · exact Or.inr (k7 l hl)
        refine ⟨[⟨Event.ListClose, fun _ => 0, fun _ => 0, true⟩] ++ ls, cl, ex,
          ⟨Event.Signal bb 1, s7.completed, Function.update s7.g_FenceValues bb 1,
            s7.recording⟩, lw,
          [Event.Release (Owned.allocation Resource.textureUpload),
            Event.Release (Owned.allocation Resource.iBufferUploadHeap),
            Event.Release (Owned.allocation Resource.vBufferUploadHeap)].map
            (fun e => ⟨e, s8.completed, s8.g_FenceValues, s8.recording⟩),
          ?_, hkinds, ecl, eex, rfl, w2, rfl, ?_, ?_, ?_⟩
        · rw [logAll_trace, w1, t7]
          simp only [List.append_assoc, List.cons_append, List.nil_append, List.singleton_append]
        · intro l hl
          simp only [List.mem_append, List.mem_cons, List.mem_singleton, List.not_mem_nil,
            or_false] at hl
          rcases hl with ((hl | hl) | hl | hl | hl) | hl
          · subst hl; rfl
          · have hwork : ∀ e : Event, e.isListWork = true → e.isRelease = false := by
              intro e he
              cases e <;> first | rfl | cases he
            exact hwork _ (k7 l hl)
          · subst hl; rw [ecl]; rfl
          · subst hl; rw [eex]; rfl
          · subst hl; rfl
          · rcases w2 l hl with e | e | e <;> rw [e] <;> rfl
        · intro l hl
          simp only [List.map_cons, List.map_nil, List.mem_cons, List.mem_singleton,
            List.not_mem_nil, or_false] at hl
          rcases hl with hl | hl | hl <;> subst hl <;> exact b5
        · simpa using hempty
  · exact absurd h (by simp)

theorem InitD3D_staging_released_after_wait_witness :
    ∃ rec cl ex sig waits rel,
      ((InitD3D exEnv 0).get (by decide)).trace = rec ++ [cl, ex, sig] ++ waits ++ rel ∧
      (∀ l, l ∈ rec → l.ev = Event.ListClose ∨ l.ev.isListWork = true) ∧
      cl.ev = Event.ListClose ∧ ex.ev = Event.ExecuteCommandLists ∧
      sig.ev = Event.Signal 0 1 ∧
      (∀ l, l ∈ waits → l.ev = Event.GetCompletedValue 0 0 ∨
        l.ev = Event.SetEventOnCompletion 0 1 ∨ l.ev = Event.WaitForSingleObject) ∧
      events rel = [Event.Release (Owned.allocation Resource.textureUpload),
        Event.Release (Owned.allocation Resource.iBufferUploadHeap),
        Event.Release (Owned.allocation Resource.vBufferUploadHeap)] ∧
      (∀ l, l ∈ rec ++ [cl, ex, sig] ++ waits → l.ev.isRelease = false) ∧
      (∀ l, l ∈ rel → 1 ≤ l.completed 0) ∧
      ((InitD3D exEnv 0).get (by decide)).queue = [] :=
  InitD3D_staging_released_after_wait exEnv 0 _ (Option.some_get _).symm

/-! ### The footprint of the texture -/

/-- Rounding up to a multiple of a positive alignment does not go below. -/
theorem le_roundUp (n alignment : Nat) (h : 0 < alignment) :
    n ≤ (n + alignment - 1) / alignment * alignment := by
  have h1 := Nat.div_add_mod (n + alignment - 1) alignment
  have h2 := Nat.mod_lt (n + alignment - 1) h
  have h3 : (n + alignment - 1) / alignment * alignment
      = alignment * ((n + alignment - 1) / alignment) := Nat.mul_comm _ _
  omega

/-- C19. Footprint scenario: for the texture of the sample, 256x256 texels of
4 bytes with a single mip, the footprint calculator gives a total required
size of at least 262144 bytes and a row pitch that is a multiple of the
row-pitch alignment of the platform, whatever positive alignment that is; and
the staging buffer `InitD3D` then creates for the texture is a buffer whose
`Width` is exactly the total size the query for that texture (first
subresource 0, one subresource, base offset 0) reports. -/
theorem texture_footprint_scenario :
    (∀ alignment, 0 < alignment →
      262144 ≤ (ComputeFootprints alignment 4 textureDesc 0 1 0).pTotalBytes ∧
      alignment ∣ ((ComputeFootprints alignment 4 textureDesc 0 1 0).pLayouts 0).Footprint.RowPitch ∧
      (ComputeFootprints alignment 4 textureDesc 0 1 0).pNumRows 0 = 256 ∧
      (ComputeFootprints alignment 4 textureDesc 0 1 0).pRowSizesInBytes 0 = 1024) ∧
    (∀ env : InitEnv,
      (textureUploadResource env).Desc.Dimension = D3D12_RESOURCE_DIMENSION.BUFFER ∧
      (textureUploadResource env).Desc.Width
        = (env.GetCopyableFootprints textureDesc 0 1 0).pTotalBytes) := by
  refine ⟨fun alignment h => ⟨?_, ?_, rfl, rfl⟩, fun env => ⟨rfl, rfl⟩⟩
  · have := le_roundUp 1024 alignment h
    show 262144 ≤ (1024 + alignment - 1) / alignment * alignment * 255 + 1024
    omega
  · exact Nat.dvd_mul_left _ _

theorem texture_footprint_scenario_witness :
    (262144 ≤ (ComputeFootprints 256 4 textureDesc 0 1 0).pTotalBytes ∧
      256 ∣ ((ComputeFootprints 256 4 textureDesc 0 1 0).pLayouts 0).Footprint.RowPitch ∧
      (ComputeFootprints 256 4 textureDesc 0 1 0).pNumRows 0 = 256 ∧
      (ComputeFootprints 256 4 textureDesc 0 1 0).pRowSizesInBytes 0 = 1024) ∧
    (ComputeFootprints 256 4 textureDesc 0 1 0).pTotalBytes = 262144 :=
  ⟨texture_footprint_scenario.1 256 (by decide), by decide⟩

/-! ### Bounds of the copy -/

/-- C20, evaluated at the call of C6, where `RequiredSize + pLayouts[0].Offset`
does not fit `UINT64`: the 16-byte staging buffer passes the validation, the
only row lies inside the window `[Offset, Offset + RequiredSize)` in exact
arithmetic, the source holds the 16 bytes read, and the call copies 16 bytes
to staging offset `2^64 - 16`, far beyond the width of the staging buffer:
the byte at offset `2^64 - 15` is written. -/
theorem UpdateSubresources_copy_out_of_bounds :
    validationFails Arch.x64 exTexture (exStaging 16) 0 1 16 (fun _ => exWrapLayout) = false ∧
    (∀ z, z < exWrapLayout.Footprint.Depth → ∀ y, y < 1 →
      exWrapLayout.Offset + exWrapLayout.Footprint.RowPitch * y
        + exWrapLayout.Footprint.RowPitch * 1 * z + 16 ≤ exWrapLayout.Offset + 16) ∧
    (exStaging 16).Desc.Width = 16 ∧
    (UpdateSubresources Arch.x64 true exTexture (exStaging 16) 0 1 16 (fun _ => exWrapLayout)
        (fun _ => 1) (fun _ => 16) (fun _ => exSrc 16 16) exState).2.trace
      = [UpEvent.Map true, UpEvent.memcpy 0 ⟨2 ^ 64 - 16, 0, 16⟩, UpEvent.Unmap] ∧
    (UpdateSubresources Arch.x64 true exTexture (exStaging 16) 0 1 16 (fun _ => exWrapLayout)
        (fun _ => 1) (fun _ => 16) (fun _ => exSrc 16 16) exState).2.bytes (2 ^ 64 - 15) = 1 ∧
    ¬ (2 ^ 64 - 15 < (exStaging 16).Desc.Width) := by
  decide

/-- The copy loop either runs to its end or leaves the function at some
subresource `j`, with exactly the subresources before `j` copied. -/
theorem forLoopE_copy_prefix (a : Arch)
    (pLayouts : Nat → D3D12_PLACED_SUBRESOURCE_FOOTPRINT) (pNumRows pRowSizesInBytes : Nat → Nat)
    (pSrcData : Nat → D3D12_SUBRESOURCE_DATA) (n : Nat) (s : UploadState) :
    forLoopE (copySubresource a pLayouts pNumRows pRowSizesInBytes pSrcData) n s
        = .ok (forLoop (copyRows a pLayouts pNumRows pRowSizesInBytes pSrcData) n s) ∨
    ∃ j, j < n ∧
      forLoopE (copySubresource a pLayouts pNumRows pRowSizesInBytes pSrcData) n s
        = .error (forLoop (copyRows a pLayouts pNumRows pRowSizesInBytes pSrcData) j s) := by
  induction n with
  | zero => exact Or.inl rfl
  | succ n ih =>
    rcases ih with h | ⟨j, hj, h⟩
    · by_cases hbig : pRowSizesInBytes n > SIZE_T_MAX a
      · exact Or.inr ⟨n, Nat.lt_succ_self n, by simp [forLoopE, h, copySubresource, hbig]⟩
      · exact Or.inl (by simp [forLoopE, h, copySubresource, hbig, forLoop])
    · exact Or.inr ⟨j, Nat.lt_succ_of_lt hj, by simp [forLoopE, h]⟩

/-- The `memcpy` calls of the first `n` subresources, when the rows lie in the
window in exact arithmetic and the sources hold the rows read: every call
writes inside `[0, limit)` and reads inside its source. The slice pitch the
code computes modulo `2^32` and the address it reduces to the pointer size
only make the staging offsets smaller. -/
theorem forLoop_copyRows_in_bounds (a : Arch)
    (pLayouts : Nat → D3D12_PLACED_SUBRESOURCE_FOOTPRINT) (pNumRows pRowSizesInBytes : Nat → Nat)
    (pSrcData : Nat → D3D12_SUBRESOURCE_DATA) (srcSize : Nat → Nat) (limit n : Nat)
    (s : UploadState)
    (hwin : ∀ i, i < n → ∀ z, z < (pLayouts i).Footprint.Depth → ∀ y, y < pNumRows i →
      (pLayouts i).Offset + (pLayouts i).Footprint.RowPitch * y
        + (pLayouts i).Footprint.RowPitch * pNumRows i * z + pRowSizesInBytes i ≤ limit)
    (hsrc : ∀ i, i < n → 0 ≤ (pSrcData i).SlicePitch ∧ 0 ≤ (pSrcData i).RowPitch ∧
      (pSrcData i).SlicePitch * (((pLayouts i).Footprint.Depth - 1 : Nat) : Int)
        + (pSrcData i).RowPitch * ((pNumRows i - 1 : Nat) : Int) + (pRowSizesInBytes i : Int)
        ≤ (srcSize i : Int))
    (hobj : ∀ i, i < n → (srcSize i : Int) < (2 : Int) ^ (a.bits - 1))
    (i : Nat) (c : MemcpyCall)
    (hmem : UpEvent.memcpy i c
      ∈ (forLoop (copyRows a pLayouts pNumRows pRowSizesInBytes pSrcData) n s).trace) :
    UpEvent.memcpy i c ∈ s.trace ∨
    (i < n ∧ c.dst + c.len ≤ limit ∧ 0 ≤ c.src ∧ c.src + (c.len : Int) ≤ (srcSize i : Int)) := by
  rw [forLoop_copyRows_trace] at hmem
  simp only [List.mem_append, List.mem_flatten, List.mem_map, List.mem_range] at hmem
  rcases hmem with hmem | ⟨l, ⟨i1, hi1, rfl⟩, hmem⟩
  · exact Or.inl hmem
  · right
    simp only [List.mem_flatten, List.mem_map, List.mem_range] at hmem
    obtain ⟨l2, ⟨z, hz, rfl⟩, hmem⟩ := hmem
    simp only [List.mem_map, List.mem_range] at hmem
    obtain ⟨y, hy, he⟩ := hmem
    simp only [UpEvent.memcpy.injEq] at he
    obtain ⟨e1, e2⟩ := he
    subst e1; subst e2
    have hw := hwin i1 hi1 z hz y hy
    obtain ⟨s1, s2, s3⟩ := hsrc i1 hi1
    have ho := hobj i1 hi1
    have d1 : asSIZE_T a ((pLayouts i1).Offset
          + asUINT ((pLayouts i1).Footprint.RowPitch * pNumRows i1) * z
          + (pLayouts i1).Footprint.RowPitch * y)
        ≤ (pLayouts i1).Offset + (pLayouts i1).Footprint.RowPitch * pNumRows i1 * z
          + (pLayouts i1).Footprint.RowPitch * y :=
      Nat.le_trans (asSIZE_T_le a _)
        (Nat.add_le_add_right (Nat.add_le_add_left
          (Nat.mul_le_mul_right z (Nat.mod_le _ _)) _) _)
    have hz1 : (z : Int) ≤ (((pLayouts i1).Footprint.Depth - 1 : Nat) : Int) := by
      have : z ≤ (pLayouts i1).Footprint.Depth - 1 := by omega
      exact_mod_cast this
    have hy1 : (y : Int) ≤ ((pNumRows i1 - 1 : Nat) : Int) := by
      have : y ≤ pNumRows i1 - 1 := by omega
      exact_mod_cast this
    have m1 : (pSrcData i1).SlicePitch * (z : Int)
        ≤ (pSrcData i1).SlicePitch * (((pLayouts i1).Footprint.Depth - 1 : Nat) : Int) :=
      mul_le_mul_of_nonneg_left hz1 s1
    have m2 : (pSrcData i1).RowPitch * (y : Int)
        ≤ (pSrcData i1).RowPitch * ((pNumRows i1 - 1 : Nat) : Int) :=
      mul_le_mul_of_nonneg_left hy1 s2
    have n1 : 0 ≤ (pSrcData i1).SlicePitch * (z : Int) := mul_nonneg s1 (Int.ofNat_nonneg z)
    have n2 : 0 ≤ (pSrcData i1).RowPitch * (y : Int) := mul_nonneg s2 (Int.ofNat_nonneg y)
    have n3 : 0 ≤ (pSrcData i1).SlicePitch * (((pLayouts i1).Footprint.Depth - 1 : Nat) : Int) :=
      mul_nonneg s1 (Int.ofNat_nonneg _)
    have n4 : 0 ≤ (pSrcData i1).RowPitch * ((pNumRows i1 - 1 : Nat) : Int) :=
      mul_nonneg s2 (Int.ofNat_nonneg _)
    have n5 : (0 : Int) ≤ (pRowSizesInBytes i1 : Int) := Int.ofNat_nonneg _
    have hpos : (0 : Int) < (2 : Int) ^ (a.bits - 1) := by positivity
    have r1 : asLONG_PTR a ((pSrcData i1).SlicePitch * (z : Int)
          + (pSrcData i1).RowPitch * (y : Int))
        = (pSrcData i1).SlicePitch * (z : Int) + (pSrcData i1).RowPitch * (y : Int) :=
      asLONG_PTR_of_range a _ ⟨by omega, by omega⟩
    refine ⟨hi1, ?_, ?_, ?_⟩
    · show asSIZE_T a ((pLayouts i1).Offset
          + asUINT ((pLayouts i1).Footprint.RowPitch * pNumRows i1) * z
          + (pLayouts i1).Footprint.RowPitch * y) + pRowSizesInBytes i1 ≤ limit
      omega
    · show 0 ≤ asLONG_PTR a ((pSrcData i1).SlicePitch * (z : Int)
          + (pSrcData i1).RowPitch * (y : Int))
      rw [r1]; omega
    · show asLONG_PTR a ((pSrcData i1).SlicePitch * (z : Int)
          + (pSrcData i1).RowPitch * (y : Int)) + (pRowSizesInBytes i1 : Int)
        ≤ (srcSize i1 : Int)
      rw [r1]; omega

/-- Copy stays in bounds when the capacity check does not wrap: for every call
of the 10-argument `UpdateSubresources` that passes the validation with
`RequiredSize + pLayouts[0].Offset` within `UINT64`, whose rows lie inside the
window `[Offset_0, Offset_0 + RequiredSize)` in exact arithmetic and whose
source `i` holds `srcSize i` bytes, enough for the rows read and less than
half the address space as every object is, each `memcpy` the call makes writes
below the `Width` of the staging buffer and reads inside source `i`. This
holds on every path, also when the call ends at a failing `Map` or at a row
size that does not fit `SIZE_T`. -/
theorem UpdateSubresources_in_bounds_of_sum_fits (a : Arch) (mapOk : Bool)
    (pDestinationResource pIntermediate : ID3D12Resource)
    (FirstSubresource NumSubresources RequiredSize : Nat)
    (pLayouts : Nat → D3D12_PLACED_SUBRESOURCE_FOOTPRINT) (pNumRows pRowSizesInBytes : Nat → Nat)
    (pSrcData : Nat → D3D12_SUBRESOURCE_DATA) (srcSize : Nat → Nat) (s : UploadState)
    (hvalid : validationFails a pDestinationResource pIntermediate FirstSubresource
      NumSubresources RequiredSize pLayouts = false)
    (hsum : RequiredSize + (pLayouts 0).Offset < 2 ^ 64)
    (hwin : ∀ i, i < NumSubresources → ∀ z, z < (pLayouts i).Footprint.Depth →
      ∀ y, y < pNumRows i →
      (pLayouts i).Offset + (pLayouts i).Footprint.RowPitch * y
        + (pLayouts i).Footprint.RowPitch * pNumRows i * z + pRowSizesInBytes i
        ≤ (pLayouts 0).Offset + RequiredSize)
    (hsrc : ∀ i, i < NumSubresources →
      0 ≤ (pSrcData i).SlicePitch ∧ 0 ≤ (pSrcData i).RowPitch ∧
      (pSrcData i).SlicePitch * (((pLayouts i).Footprint.Depth - 1 : Nat) : Int)
        + (pSrcData i).RowPitch * ((pNumRows i - 1 : Nat) : Int) + (pRowSizesInBytes i : Int)
        ≤ (srcSize i : Int))
    (hobj : ∀ i, i < NumSubresources → (srcSize i : Int) < (2 : Int) ^ (a.bits - 1))
    (i : Nat) (c : MemcpyCall)
    (hmem : UpEvent.memcpy i c
      ∈ (UpdateSubresources a mapOk pDestinationResource pIntermediate FirstSubresource
          NumSubresources RequiredSize pLayouts pNumRows pRowSizesInBytes pSrcData s).2.trace) :
    UpEvent.memcpy i c ∈ s.trace ∨
    (i < NumSubresources ∧ c.dst + c.len ≤ pIntermediate.Desc.Width ∧ 0 ≤ c.src ∧
      c.src + (c.len : Int) ≤ (srcSize i : Int)) := by
  have hcap : (pLayouts 0).Offset + RequiredSize ≤ pIntermediate.Desc.Width := by
    have hv := hvalid
    unfold validationFails at hv
    simp only [Bool.or_eq_false_iff, decide_eq_false_iff_not, Nat.not_lt] at hv
    have h2 := hv.1.1.2
    unfold asUINT64 at h2
    rw [Nat.mod_eq_of_lt hsum] at h2
    omega
  have key : ∀ j, j ≤ NumSubresources →
      UpEvent.memcpy i c ∈ (forLoop (copyRows a pLayouts pNumRows pRowSizesInBytes pSrcData) j
        { s with trace := s.trace ++ [UpEvent.Map true] }).trace →
      UpEvent.memcpy i c ∈ s.trace ∨
      (i < NumSubresources ∧ c.dst + c.len ≤ pIntermediate.Desc.Width ∧ 0 ≤ c.src ∧
        c.src + (c.len : Int) ≤ (srcSize i : Int)) := by
    intro j hj hm
    rcases forLoop_copyRows_in_bounds a pLayouts pNumRows pRowSizesInBytes pSrcData srcSize
      ((pLayouts 0).Offset + RequiredSize) j _
      (fun i hi => hwin i (Nat.lt_of_lt_of_le hi hj))
      (fun i hi => hsrc i (Nat.lt_of_lt_of_le hi hj))
      (fun i hi => hobj i (Nat.lt_of_lt_of_le hi hj)) i c hm with h | ⟨h1, h2, h3, h4⟩
    · simp only [List.mem_append, List.mem_singleton] at h
      rcases h with h | h
      · exact Or.inl h
      · cases h
    · exact Or.inr ⟨Nat.lt_of_lt_of_le h1 hj, Nat.le_trans h2 hcap, h3, h4⟩
  unfold UpdateSubresources at hmem
  simp only [hvalid, Bool.false_eq_true, if_false] at hmem
  cases mapOk with
  | false =>
    simp only [Bool.not_false, if_true, List.mem_append, List.mem_singleton] at hmem
    rcases hmem with h | h
    · exact Or.inl h
    · cases h
  | true =>
    simp only [Bool.not_true, Bool.false_eq_true, if_false] at hmem
    rcases forLoopE_copy_prefix a pLayouts pNumRows pRowSizesInBytes pSrcData NumSubresources
      { s with trace := s.trace ++ [UpEvent.Map true] } with h | ⟨j, hj, h⟩
    · rw [h] at hmem
      simp only [recordCopies_trace, List.mem_append, List.mem_singleton] at hmem
      rcases hmem with hm | hm
      · exact key NumSubresources (Nat.le_refl _) hm
      · cases hm
    · rw [h] at hmem
      exact key j (Nat.le_of_lt hj) hmem

/-! ## Slots used by `Update` and `Render` -/

/-- C21, evaluated on two iterations of the main loop with back buffers 0 and
1: in the first iteration `Update` writes the constant buffers of slot 0 and
`Render` binds the descriptor heap and the per-object constant buffer of slot
0; in the second iteration `Update` again writes the buffers of slot 0,
because it indexes with `g_FrameIndex` as the previous `Render` left it, while
the `Render` that follows reads back buffer 1 and binds the heap and the
buffer of slot 1. -/
theorem Update_and_Render_slots_differ :
    ((InitD3D exEnv 0).bind (run (mainLoop (fun _ => 0) [0, 1] 0))).map
        (fun s => slotUses s.trace)
      = some
        [(true, 0), (true, 0), (true, 0),
         (false, 0), (false, 0), (false, 0), (false, 0), (false, 0),
         (true, 0), (true, 0), (true, 0),
         (false, 1), (false, 1), (false, 1), (false, 1), (false, 1)] := by
  decide

theorem slotUses_append (t1 t2 : List Logged) :
    slotUses (t1 ++ t2) = slotUses t1 ++ slotUses t2 := by
  simp [slotUses, List.filterMap_append]

/-- An `Update` followed by a `Render`: the three writes of `Update` go to the
slot `g_FrameIndex` had before the two calls, and the five bindings of `Render`
name the back buffer read at its start. The two agree exactly when the swap
chain returns the index of the previous frame again. -/
theorem Update_then_Render_slots (bb : Nat) (s s1 s2 : FrameState)
    (hu : Update s = some s1) (hr : Render bb s1 = some s2) :
    slotUses s2.trace = slotUses s.trace
      ++ List.replicate 3 (true, s.g_FrameIndex) ++ List.replicate 5 (false, bb) := by
  obtain ⟨sw, hw, _, ht⟩ := Render_trace bb s1 s2 hr
  obtain ⟨ls, hl1, hl2⟩ := WaitForFrame_trace _ _ sw hw
  simp only at hl1
  have hls : slotUses ls = [] := by
    simp only [slotUses, List.filterMap_eq_nil_iff]
    intro l hl
    rcases hl2 l hl with e | e | e <;> simp [Logged.slotUse, e]
  unfold Update at hu
  split at hu
  · simp only [Option.some.injEq] at hu
    subst hu
    rw [ht, hl1, logAll_trace]
    simp only [slotUses_append, hls, List.append_nil]
    simp [slotUses, Logged.slotUse, Resource.slotOf, renderCommands, Command.boundSlot,
      List.replicate]
  · exact absurd hu (by simp)

/-! ## The uploads of `InitD3D` -/

/-- C22, evaluated where `Map` fails on a staging buffer. With the failure on
the staging buffer of the texture, `UpdateSubresources` returns 0 and records
no copy for the texture, yet `InitD3D` records the barrier of `g_Texture`,
closes the list and submits it: the result of that call is never looked at.
With the failure on the staging buffer of the vertex buffer in a build without
`assert`, the same happens for `g_VertexBuffer`; with `assert` compiled in the
program ends at `assert(r)`. -/
theorem InitD3D_ignores_failed_upload :
    (uploadAndRecord exEnvTextureMapFails ⟨Resource.g_Texture, textureDesc⟩
        (textureUploadResource exEnvTextureMapFails)
        ⟨exEnvTextureMapFails.imageData, 256 * 4, 256 * 4 * 256⟩ (initialState 0)).1 = 0 ∧
    (InitD3D exEnvTextureMapFails 0).map
        (fun s => (recorded s.trace, (events s.trace).count Event.ExecuteCommandLists))
      = some
        ([Command.CopyBufferRegion Resource.g_VertexBuffer 0 Resource.vBufferUploadHeap 0 480,
          Command.ResourceBarrier Resource.g_VertexBuffer D3D12_RESOURCE_STATES.COPY_DEST
            D3D12_RESOURCE_STATES.VERTEX_AND_CONSTANT_BUFFER,
          Command.CopyBufferRegion Resource.g_IndexBuffer 0 Resource.iBufferUploadHeap 0 72,
          Command.ResourceBarrier Resource.g_IndexBuffer D3D12_RESOURCE_STATES.COPY_DEST
            D3D12_RESOURCE_STATES.INDEX_BUFFER,
          Command.ResourceBarrier Resource.g_Texture D3D12_RESOURCE_STATES.COPY_DEST
            D3D12_RESOURCE_STATES.PIXEL_SHADER_RESOURCE], 1) ∧
    (uploadAndRecord exEnvVertexMapFails ⟨Resource.g_VertexBuffer, bufferDesc vBufferSize⟩
        ⟨Resource.vBufferUploadHeap, bufferDesc vBufferSize⟩
        ⟨exEnvVertexMapFails.vList, vBufferSize, vBufferSize⟩ (initialState 0)).1 = 0 ∧
    (InitD3D exEnvVertexMapFails 0).map
        (fun s => ((recorded s.trace).take 2,
          (events s.trace).count Event.ExecuteCommandLists))
      = some
        ([Command.ResourceBarrier Resource.g_VertexBuffer D3D12_RESOURCE_STATES.COPY_DEST
            D3D12_RESOURCE_STATES.VERTEX_AND_CONSTANT_BUFFER,
          Command.CopyBufferRegion Resource.g_IndexBuffer 0 Resource.iBufferUploadHeap 0 72],
          1) ∧
    (InitD3D { exEnvVertexMapFails with assertsEnabled := true } 0).isNone = true := by
  decide

/-! ## Recorded commands -/

theorem recorded_append (t1 t2 : List Logged) :
    recorded (t1 ++ t2) = recorded t1 ++ recorded t2 := by
  simp [recorded, List.filterMap_append]

theorem recorded_records (cs : List Command) (c g : Nat → Nat) (b : Bool) :
    recorded (cs.map fun x => (⟨Event.Record x, c, g, b⟩ : Logged)) = cs := by
  induction cs with
  | nil => rfl
  | cons x xs ih =>
    have e : recorded ((x :: xs).map fun x => (⟨Event.Record x, c, g, b⟩ : Logged))
        = x :: recorded (xs.map fun x => (⟨Event.Record x, c, g, b⟩ : Logged)) := rfl
    rw [e, ih]

/-- Entries that are not recordings add nothing to the recorded commands. -/
theorem recorded_eq_nil (ls : List Logged) (h : ∀ l, l ∈ ls → ∀ c, l.ev ≠ Event.Record c) :
    recorded ls = [] := by
  simp only [recorded, List.filterMap_eq_nil_iff]
  intro l hl
  have := h l hl
  cases he : l.ev <;> simp_all

/-- The commands an upload leaves on the list are those it found there and
copies into its destination. -/
theorem UpdateSubresources_cmdList_dest (a : Arch) (mapOk : Bool)
    (pDestinationResource pIntermediate : ID3D12Resource)
    (FirstSubresource NumSubresources RequiredSize : Nat)
    (pLayouts : Nat → D3D12_PLACED_SUBRESOURCE_FOOTPRINT) (pNumRows pRowSizesInBytes : Nat → Nat)
    (pSrcData : Nat → D3D12_SUBRESOURCE_DATA) (s : UploadState) :
    ∃ cs, (UpdateSubresources a mapOk pDestinationResource pIntermediate FirstSubresource
        NumSubresources RequiredSize pLayouts pNumRows pRowSizesInBytes pSrcData s).2.cmdList
        = s.cmdList ++ cs ∧
      ∀ c, c ∈ cs → c.copyDest = some pDestinationResource.name := by
  unfold UpdateSubresources
  split
  · exact ⟨[], by simp, by simp⟩
  · cases mapOk with
    | false => exact ⟨[], by simp, by simp⟩
    | true =>
      simp only [Bool.not_true, Bool.false_eq_true, if_false]
      rcases forLoopE_copy_prefix a pLayouts pNumRows pRowSizesInBytes pSrcData NumSubresources
        { s with trace := s.trace ++ [UpEvent.Map true] } with h | ⟨j, _, h⟩
      · rw [h]
        simp only
        by_cases hdim : pDestinationResource.Desc.Dimension = D3D12_RESOURCE_DIMENSION.BUFFER
        · refine ⟨[Command.CopyBufferRegion pDestinationResource.name 0 pIntermediate.name
            (pLayouts 0).Offset (pLayouts 0).Footprint.Width], ?_, ?_⟩
          · simp only [recordCopies, if_pos hdim]
            rw [forLoop_copyRows_cmdList]
          · intro c hc
            simp only [List.mem_singleton] at hc
            subst hc; rfl
        · refine ⟨(List.range NumSubresources).map fun i =>
            Command.CopyTextureRegion pDestinationResource.name (asUINT (i + FirstSubresource))
              0 0 0 pIntermediate.name (pLayouts i) none, ?_, ?_⟩
          · rw [recordCopies_texture_cmdList _ _ _ _ _ _ hdim]
            show (forLoop (copyRows a pLayouts pNumRows pRowSizesInBytes pSrcData)
              NumSubresources _).cmdList ++ _ = _
            rw [forLoop_copyRows_cmdList]
          · intro c hc
            simp only [List.mem_map, List.mem_range] at hc
            obtain ⟨i, _, rfl⟩ := hc
            rfl
      · rw [h]
        refine ⟨[], ?_, by simp⟩
        simp only [List.append_nil]
        rw [forLoop_copyRows_cmdList]

theorem uploadCommands_dest (env : InitEnv) (dest staging : ID3D12Resource)
    (src : D3D12_SUBRESOURCE_DATA) :
    ∀ c, c ∈ uploadCommands env dest staging src → c.copyDest = some dest.name := by
  unfold uploadCommands UpdateSubresources_heap
  dsimp only
  split
  · simp
  · split
    · simp
    · obtain ⟨cs, h1, h2⟩ := UpdateSubresources_cmdList_dest env.arch (env.mapOk staging.name)
        dest staging 0 1 (env.GetCopyableFootprints dest.Desc 0 1 0).pTotalBytes
        (env.GetCopyableFootprints dest.Desc 0 1 0).pLayouts
        (env.GetCopyableFootprints dest.Desc 0 1 0).pNumRows
        (env.GetCopyableFootprints dest.Desc 0 1 0).pRowSizesInBytes (fun _ => src)
        ⟨fun _ => 0, [], []⟩
      rw [h1]
      simpa using h2

theorem uploadAndRecord_trace (env : InitEnv) (dest staging : ID3D12Resource)
    (src : D3D12_SUBRESOURCE_DATA) (s : FrameState) :
    (uploadAndRecord env dest staging src s).2.trace
      = s.trace ++ (uploadCommands env dest staging src).map
          (fun c => ⟨Event.Record c, s.completed, s.g_FenceValues, s.recording⟩) := by
  simp [uploadAndRecord, uploadCommands, List.map_map, Function.comp_def]

theorem uploadAndRecord_fields (env : InitEnv) (dest staging : ID3D12Resource)
    (src : D3D12_SUBRESOURCE_DATA) (s : FrameState) :
    (uploadAndRecord env dest staging src s).2.g_FenceValues = s.g_FenceValues ∧
    (uploadAndRecord env dest staging src s).2.completed = s.completed ∧
    (uploadAndRecord env dest staging src s).2.recording = s.recording ∧
    (uploadAndRecord env dest staging src s).2.queue = s.queue ∧
    (uploadAndRecord env dest staging src s).2.g_FrameIndex = s.g_FrameIndex := by
  simp [uploadAndRecord]

/-- The commands of the initial command list of `InitD3D`: for the vertex
buffer, the index buffer and the texture in turn, the copies of the upload
and then the barrier of the resource. -/
theorem recordInitialUploads_recorded (env : InitEnv) (s s7 : FrameState)
    (h : recordInitialUploads env s = some s7) :
    recorded s7.trace = recorded s.trace ++ initialCommands env := by
  unfold recordInitialUploads at h
  dsimp only at h
  split at h
  · exact absurd h (by simp)
  · split at h
    · exact absurd h (by simp)
    · simp only [Option.some.injEq] at h
      subst h
      simp only [FrameState.record, enqueue_trace, log_trace, uploadAndRecord_trace,
        recorded_append, recorded_records, List.append_assoc, initialCommands]
      simp [recorded]

/-! ## The entries each call adds to the trace -/

/-- The entries `WaitForFrame` adds: actions of waiting, made with the targets
and the recording state of the call. -/
theorem WaitForFrame_entries (i : Nat) (s s1 : FrameState) (h : WaitForFrame i s = some s1) :
    ∃ ls, s1.trace = s.trace ++ ls ∧ ∀ l, l ∈ ls →
      l.targets = s.g_FenceValues ∧ l.recording = s.recording ∧ l.ev.isWaiting = true := by
  unfold WaitForFrame at h
  split at h
  · simp only [log_completed, log_g_FenceValues, log_queue] at h
    split at h
    · split at h
      · simp only [Option.some.injEq] at h
        subst h
        refine ⟨[⟨Event.GetCompletedValue i (s.completed i), s.completed, s.g_FenceValues,
            s.recording⟩,
          ⟨Event.SetEventOnCompletion i (s.g_FenceValues i), s.completed, s.g_FenceValues,
            s.recording⟩,
          ⟨Event.WaitForSingleObject, s.completed, s.g_FenceValues, s.recording⟩], ?_, ?_⟩
        · simp [List.append_assoc]
        · intro l hl
          simp only [List.mem_cons, List.mem_singleton, List.not_mem_nil, or_false] at hl
          rcases hl with hl | hl | hl <;> subst hl <;> exact ⟨rfl, rfl, rfl⟩
      · exact absurd h (by simp)
    · simp only [Option.some.injEq] at h
      subst h
      refine ⟨[⟨Event.GetCompletedValue i (s.completed i), s.completed, s.g_FenceValues,
        s.recording⟩], rfl, ?_⟩
      intro l hl
      simp only [List.mem_singleton] at hl
      subst hl; exact ⟨rfl, rfl, rfl⟩
  · exact absurd h (by simp)

/-- The entries `WaitGPUIdle` adds: the signal of the new target and actions
of waiting, all made with the new targets. -/
theorem WaitGPUIdle_entries (i : Nat) (s s1 : FrameState) (h : WaitGPUIdle i s = some s1) :
    ∃ lw, s1.trace = s.trace ++
        [⟨Event.Signal i (asUINT64 (s.g_FenceValues i + 1)), s.completed,
          Function.update s.g_FenceValues i (asUINT64 (s.g_FenceValues i + 1)), s.recording⟩]
        ++ lw ∧
      ∀ l, l ∈ lw →
        l.targets = Function.update s.g_FenceValues i (asUINT64 (s.g_FenceValues i + 1)) ∧
        l.recording = s.recording ∧ l.ev.isWaiting = true := by
  unfold WaitGPUIdle at h
  split at h
  · dsimp only at h
    obtain ⟨lw, c1, c2⟩ := WaitForFrame_entries _ _ s1 h
    simp only [enqueue_trace, log_trace, enqueue_recording, log_recording,
      enqueue_g_FenceValues, log_g_FenceValues, Function.update_same] at c1 c2
    exact ⟨lw, c1, c2⟩
  · exact absurd h (by simp)

/-- The entries the first loop of `Cleanup` adds: actions of waiting, made
with the targets and the recording state of the call. -/
theorem cleanupLoop_entries (n : Nat) (s s1 : FrameState)
    (h : forLoopO cleanupWait n s = some s1) :
    s1.g_FenceValues = s.g_FenceValues ∧ s1.recording = s.recording ∧
    ∃ ls, s1.trace = s.trace ++ ls ∧ ∀ l, l ∈ ls →
      l.targets = s.g_FenceValues ∧ l.recording = s.recording ∧ l.ev.isWaiting = true := by
  induction n generalizing s1 with
  | zero =>
    simp only [forLoopO, Option.some.injEq] at h
    subst h
    exact ⟨rfl, rfl, [], by simp, by simp⟩
  | succ n ih =>
    simp only [forLoopO] at h
    split at h
    · rename_i sa ha
      obtain ⟨a1, a2, la, a3, a4⟩ := ih sa ha
      unfold cleanupWait at h
      split at h
      · exact absurd h (by simp)
      · rename_i sw hw
        obtain ⟨_, w2, _, w4, _⟩ := WaitForFrame_spec _ _ sw hw
        obtain ⟨lw, w6, w7⟩ := WaitForFrame_entries _ _ sw hw
        simp only [Option.some.injEq] at h
        subst h
        refine ⟨by simp [w2, a1], by simp [w4, a2],
          la ++ lw ++ [⟨Event.QueueWait n (sw.g_FenceValues n), sw.completed, sw.g_FenceValues,
            sw.recording⟩], by simp [w6, a3], ?_⟩
        intro l hl
        simp only [List.mem_append, List.mem_singleton] at hl
        rcases hl with (hl | hl) | hl
        · exact a4 l hl
        · obtain ⟨x1, x2, x3⟩ := w7 l hl
          exact ⟨x1.trans a1, x2.trans a2, x3⟩
        · subst hl
          exact ⟨w2.trans a1, w4.trans a2, rfl⟩
    · exact absurd h (by simp)

theorem recorded_waiting (ls : List Logged) (h : ∀ l, l ∈ ls → l.ev.isWaiting = true) :
    recorded ls = [] := by
  apply recorded_eq_nil
  intro l hl c hc
  have := h l hl
  rw [hc] at this
  cases this

/-- After `InitD3D` the recorded commands are those of the initial command
list. -/
theorem InitD3D_recorded (env : InitEnv) (bb : Nat) (s0 : FrameState)
    (h : InitD3D env bb = some s0) : recorded s0.trace = initialCommands env := by
  unfold InitD3D at h
  dsimp only at h
  split at h
  · split at h
    · exact absurd h (by simp)
    · rename_i s7 h7
      split at h
      · exact absurd h (by simp)
      · rename_i s8 h8
        simp only [Option.some.injEq] at h
        subst h
        have r7 := recordInitialUploads_recorded env _ s7 h7
        obtain ⟨lw, w1, w2⟩ := WaitGPUIdle_entries _ s7 s8 h8
        rw [logAll_trace, w1]
        simp only [recorded_append, r7, recorded_waiting lw (fun l hl => (w2 l hl).2.2)]
        simp [recorded, initialState, FrameState.log]
  · exact absurd h (by simp)

/-- The commands a step records: those of the frame for `Render`, none for
any other step. -/
theorem step_recorded (op : Op) (s s1 : FrameState) (h : step op s = some s1) :
    recorded s1.trace = recorded s.trace ++
      (match op with
        | Op.Render bb => renderCommands bb
        | _ => []) := by
  cases op with
  | Update =>
    simp only [step, Update] at h
    split at h
    · simp only [Option.some.injEq] at h
      subst h
      simp [recorded_append, recorded]
    · exact absurd h (by simp)
  | Render bb =>
    obtain ⟨sw, hw, _, ht⟩ := Render_trace bb s s1 h
    obtain ⟨ls, hl1, hl2⟩ := WaitForFrame_entries _ _ sw hw
    rw [ht, hl1]
    simp only [recorded_append, recorded_records,
      recorded_waiting ls (fun l hl => (hl2 l hl).2.2)]
    simp [recorded]
  | WaitForFrame i =>
    obtain ⟨ls, hl1, hl2⟩ := WaitForFrame_entries i s s1 h
    rw [hl1]
    simp [recorded_append, recorded_waiting ls (fun l hl => (hl2 l hl).2.2)]
  | WaitGPUIdle i =>
    obtain ⟨lw, w1, w2⟩ := WaitGPUIdle_entries i s s1 h
    rw [w1]
    simp only [recorded_append, recorded_waiting lw (fun l hl => (w2 l hl).2.2)]
    simp [recorded]
  | BeginCommandList =>
    simp only [step, BeginCommandList] at h
    split at h
    · simp only [Option.some.injEq] at h
      subst h
      simp [recorded_append, recorded]
    · exact absurd h (by simp)
  | EndCommandList =>
    simp only [step, EndCommandList] at h
    obtain ⟨lw, w1, w2⟩ := WaitGPUIdle_entries _ _ s1 h
    rw [w1]
    simp only [recorded_append, recorded_waiting lw (fun l hl => (w2 l hl).2.2)]
    simp [recorded_append, recorded]
  | Cleanup =>
    simp only [step, Cleanup] at h
    split at h
    · exact absurd h (by simp)
    · rename_i sa ha
      split at h
      · exact absurd h (by simp)
      · rename_i sb hb
        simp only [Option.some.injEq] at h
        subst h
        obtain ⟨_, _, la, a1, a2⟩ := cleanupLoop_entries _ s sa ha
        obtain ⟨lw, w1, w2⟩ := WaitGPUIdle_entries 0 sa sb hb
        rw [logAll_trace, w1, a1]
        simp only [recorded_append, recorded_waiting lw (fun l hl => (w2 l hl).2.2),
          recorded_waiting la (fun l hl => (a2 l hl).2.2)]
        have hr : recorded ((cleanupReleases.map Event.Release).map fun e =>
            (⟨e, sb.completed, sb.g_FenceValues, sb.recording⟩ : Logged)) = [] := by
          apply recorded_eq_nil
          intro l hl c hc
          simp only [List.mem_map] at hl
          obtain ⟨e, ⟨o, _, rfl⟩, rfl⟩ := hl
          cases hc
        rw [hr]
        simp [recorded]
  | gpu n =>
    simp only [step, Option.some.injEq] at h
    subst h
    rw [(gpuSteps_fields n s).2.2.2]
    simp

/-! ## Barriers of the uploaded resources -/

theorem transitionsOf_append (r : Resource) (c1 c2 : List Command) :
    transitionsOf r (c1 ++ c2) = transitionsOf r c1 ++ transitionsOf r c2 := by
  simp [transitionsOf, List.filterMap_append]

theorem transitionsOf_copies (r d : Resource) (cs : List Command)
    (h : ∀ c, c ∈ cs → c.copyDest = some d) : transitionsOf r cs = [] := by
  simp only [transitionsOf, List.filterMap_eq_nil_iff]
  intro c hc
  have := h c hc
  cases c <;> first | rfl | cases this

/-- A frame records no transition of a resource that is not a back buffer. -/
theorem transitionsOf_renderCommands (r : Resource) (bb : Nat)
    (h : ∀ i, r ≠ Resource.g_RenderTargets i) : transitionsOf r (renderCommands bb) = [] := by
  have h1 : ¬ Resource.g_RenderTargets bb = r := fun e => h bb e.symm
  simp [transitionsOf, renderCommands, h1]

/-- The transitions of a resource that is not a back buffer are those of the
initial command list, whatever runs after `InitD3D`. -/
theorem run_transitionsOf (r : Resource) (h : ∀ i, r ≠ Resource.g_RenderTargets i)
    (ops : List Op) (s s1 : FrameState) (hrun : run ops s = some s1) :
    transitionsOf r (recorded s1.trace) = transitionsOf r (recorded s.trace) := by
  induction ops generalizing s with
  | nil =>
    simp only [run, Option.some.injEq] at hrun
    subst hrun; rfl
  | cons op ops ih =>
    simp only [run] at hrun
    split at hrun
    · exact absurd hrun (by simp)
    · rename_i sa ha
      rw [ih sa hrun, step_recorded op s sa ha, transitionsOf_append]
      cases op with
      | Render b => simp only [transitionsOf_renderCommands r b h, List.append_nil]
      | _ => simp [transitionsOf]

/-- C23. Barrier convention for uploaded resources: the vertex buffer, the
index buffer and the texture are created in state COPY_DEST; the commands
`InitD3D` records are, for each of them in turn, the copy commands of its
upload, all writing that resource, immediately followed by the transition of
that resource from COPY_DEST to its consumption state
(VERTEX_AND_CONSTANT_BUFFER, INDEX_BUFFER, PIXEL_SHADER_RESOURCE); and
whatever runs after `InitD3D`, that transition stays the only transition of
the resource among all recorded commands. -/
theorem uploaded_resources_transition_once (env : InitEnv) (bb : Nat) (s0 : FrameState)
    (h : InitD3D env bb = some s0) :
    (createdState Resource.g_VertexBuffer = D3D12_RESOURCE_STATES.COPY_DEST ∧
      createdState Resource.g_IndexBuffer = D3D12_RESOURCE_STATES.COPY_DEST ∧
      createdState Resource.g_Texture = D3D12_RESOURCE_STATES.COPY_DEST) ∧
    (∃ cv ci ct,
      recorded s0.trace
        = cv ++ [Command.ResourceBarrier Resource.g_VertexBuffer D3D12_RESOURCE_STATES.COPY_DEST
              D3D12_RESOURCE_STATES.VERTEX_AND_CONSTANT_BUFFER]
          ++ ci ++ [Command.ResourceBarrier Resource.g_IndexBuffer D3D12_RESOURCE_STATES.COPY_DEST
              D3D12_RESOURCE_STATES.INDEX_BUFFER]
          ++ ct ++ [Command.ResourceBarrier Resource.g_Texture D3D12_RESOURCE_STATES.COPY_DEST
              D3D12_RESOURCE_STATES.PIXEL_SHADER_RESOURCE] ∧
      (∀ c, c ∈ cv → c.copyDest = some Resource.g_VertexBuffer) ∧
      (∀ c, c ∈ ci → c.copyDest = some Resource.g_IndexBuffer) ∧
      (∀ c, c ∈ ct → c.copyDest = some Resource.g_Texture)) ∧
    (∀ ops s, run ops s0 = some s →
      transitionsOf Resource.g_VertexBuffer (recorded s.trace)
        = [(D3D12_RESOURCE_STATES.COPY_DEST, D3D12_RESOURCE_STATES.VERTEX_AND_CONSTANT_BUFFER)] ∧
      transitionsOf Resource.g_IndexBuffer (recorded s.trace)
        = [(D3D12_RESOURCE_STATES.COPY_DEST, D3D12_RESOURCE_STATES.INDEX_BUFFER)] ∧
      transitionsOf Resource.g_Texture (recorded s.trace)
        = [(D3D12_RESOURCE_STATES.COPY_DEST, D3D12_RESOURCE_STATES.PIXEL_SHADER_RESOURCE)]) := by
  have hrec := InitD3D_recorded env bb s0 h
  have dv := uploadCommands_dest env ⟨Resource.g_VertexBuffer, bufferDesc vBufferSize⟩
    ⟨Resource.vBufferUploadHeap, bufferDesc vBufferSize⟩ ⟨env.vList, vBufferSize, vBufferSize⟩
  have di := uploadCommands_dest env ⟨Resource.g_IndexBuffer, bufferDesc iBufferSize⟩
    ⟨Resource.iBufferUploadHeap, bufferDesc iBufferSize⟩ ⟨env.iList, iBufferSize, iBufferSize⟩
  have dt := uploadCommands_dest env ⟨Resource.g_Texture, textureDesc⟩
    (textureUploadResource env) ⟨env.imageData, 256 * 4, 256 * 4 * 256⟩
  refine ⟨⟨rfl, rfl, rfl⟩, ⟨_, _, _, hrec, dv, di, dt⟩, ?_⟩
  intro ops s hrun
  have key : ∀ r : Resource, (∀ i, r ≠ Resource.g_RenderTargets i) →
      transitionsOf r (recorded s.trace) = transitionsOf r (initialCommands env) := by
    intro r hr
    rw [run_transitionsOf r hr ops s0 s hrun, hrec]
  refine ⟨?_, ?_, ?_⟩
  · rw [key _ (fun i => by simp)]
    simp only [initialCommands, transitionsOf_append, transitionsOf_copies _ _ _ dv,
      transitionsOf_copies _ _ _ di, transitionsOf_copies _ _ _ dt]
    simp [transitionsOf]
  · rw [key _ (fun i => by simp)]
    simp only [initialCommands, transitionsOf_append, transitionsOf_copies _ _ _ dv,
      transitionsOf_copies _ _ _ di, transitionsOf_copies _ _ _ dt]
    simp [transitionsOf]
  · rw [key _ (fun i => by simp)]
    simp only [initialCommands, transitionsOf_append, transitionsOf_copies _ _ _ dv,
      transitionsOf_copies _ _ _ di, transitionsOf_copies _ _ _ dt]
    simp [transitionsOf]

theorem uploaded_resources_transition_once_witness :
    (∃ cv ci ct,
      recorded ((InitD3D exEnv 0).get (by decide)).trace
        = cv ++ [Command.ResourceBarrier Resource.g_VertexBuffer D3D12_RESOURCE_STATES.COPY_DEST
              D3D12_RESOURCE_STATES.VERTEX_AND_CONSTANT_BUFFER]
          ++ ci ++ [Command.ResourceBarrier Resource.g_IndexBuffer D3D12_RESOURCE_STATES.COPY_DEST
              D3D12_RESOURCE_STATES.INDEX_BUFFER]
          ++ ct ++ [Command.ResourceBarrier Resource.g_Texture D3D12_RESOURCE_STATES.COPY_DEST
              D3D12_RESOURCE_STATES.PIXEL_SHADER_RESOURCE] ∧
      (∀ c, c ∈ cv → c.copyDest = some Resource.g_VertexBuffer) ∧
      (∀ c, c ∈ ci → c.copyDest = some Resource.g_IndexBuffer) ∧
      (∀ c, c ∈ ct → c.copyDest = some Resource.g_Texture)) ∧
    transitionsOf Resource.g_Texture
        (recorded ((run (mainLoop (fun _ => 0) [0, 1] 0)
          ((InitD3D exEnv 0).get (by decide))).get (by decide)).trace)
      = [(D3D12_RESOURCE_STATES.COPY_DEST, D3D12_RESOURCE_STATES.PIXEL_SHADER_RESOURCE)] :=
  ⟨(uploaded_resources_transition_once exEnv 0 _ (Option.some_get _).symm).2.1,
   ((uploaded_resources_transition_once exEnv 0 _ (Option.some_get _).symm).2.2
      (mainLoop (fun _ => 0) [0, 1] 0) _ (Option.some_get _).symm).2.2⟩

/-! ## Declared states -/

theorem trackStates_append (st : Resource → D3D12_RESOURCE_STATES) (c1 c2 : List Command) :
    trackStates st (c1 ++ c2) = (trackStates st c1).bind fun st1 => trackStates st1 c2 := by
  induction c1 generalizing st with
  | nil => rfl
  | cons c cs ih =>
    cases c with
    | ResourceBarrier r b a =>
      show (if st r = b ∧ b ≠ a then trackStates (Function.update st r a) (cs ++ c2) else none)
        = (if st r = b ∧ b ≠ a then trackStates (Function.update st r a) cs else none).bind
            fun st1 => trackStates st1 c2
      split
      · exact ih _
      · rfl
    | _ => exact ih st

theorem trackStates_copies (st : Resource → D3D12_RESOURCE_STATES) (d : Resource)
    (cs : List Command) (h : ∀ c, c ∈ cs → c.copyDest = some d) :
    trackStates st cs = some st := by
  induction cs with
  | nil => rfl
  | cons c cs ih =>
    have hc := h c (List.mem_cons_self _ _)
    have ht := ih (fun x hx => h x (List.mem_cons_of_mem _ hx))
    cases c <;> first | exact ht | cases hc

/-- A frame keeps the declared states: its two barriers take the back buffer
from PRESENT to RENDER_TARGET and back. -/
theorem trackStates_renderCommands (st : Resource → D3D12_RESOURCE_STATES) (bb : Nat)
    (h : st (Resource.g_RenderTargets bb) = D3D12_RESOURCE_STATES.PRESENT) :
    trackStates st (renderCommands bb) = some st := by
  have e : Function.update (Function.update st (Resource.g_RenderTargets bb)
      D3D12_RESOURCE_STATES.RENDER_TARGET) (Resource.g_RenderTargets bb)
      D3D12_RESOURCE_STATES.PRESENT = st := by
    rw [Function.update_idem, ← h, Function.update_eq_self]
  simp [trackStates, renderCommands, h, e]

theorem trackStates_initialCommands (env : InitEnv) :
    trackStates createdState (initialCommands env) = some statesAfterInit := by
  have dv := uploadCommands_dest env ⟨Resource.g_VertexBuffer, bufferDesc vBufferSize⟩
    ⟨Resource.vBufferUploadHeap, bufferDesc vBufferSize⟩ ⟨env.vList, vBufferSize, vBufferSize⟩
  have di := uploadCommands_dest env ⟨Resource.g_IndexBuffer, bufferDesc iBufferSize⟩
    ⟨Resource.iBufferUploadHeap, bufferDesc iBufferSize⟩ ⟨env.iList, iBufferSize, iBufferSize⟩
  have dt := uploadCommands_dest env ⟨Resource.g_Texture, textureDesc⟩
    (textureUploadResource env) ⟨env.imageData, 256 * 4, 256 * 4 * 256⟩
  simp only [initialCommands, trackStates_append, trackStates_copies _ _ _ dv,
    trackStates_copies _ _ _ di, trackStates_copies _ _ _ dt, Option.some_bind]
  simp [trackStates, createdState, statesAfterInit, Function.update]

/-- Steps keep the declared states once every back buffer is in PRESENT. -/
theorem run_trackStates (st0 st : Resource → D3D12_RESOURCE_STATES)
    (hp : ∀ i, st (Resource.g_RenderTargets i) = D3D12_RESOURCE_STATES.PRESENT)
    (ops : List Op) (s s1 : FrameState) (hrun : run ops s = some s1)
    (h : trackStates st0 (recorded s.trace) = some st) :
    trackStates st0 (recorded s1.trace) = some st := by
  induction ops generalizing s with
  | nil =>
    simp only [run, Option.some.injEq] at hrun
    subst hrun; exact h
  | cons op ops ih =>
    simp only [run] at hrun
    split at hrun
    · exact absurd hrun (by simp)
    · rename_i sa ha
      apply ih sa hrun
      rw [step_recorded op s sa ha, trackStates_append, h, Option.some_bind]
      cases op with
      | Render b => exact trackStates_renderCommands st b (hp b)
      | _ => rfl

/-- C30. Declared states stay consistent: tracking for every resource the
state last declared for it, from the state it was created in (back buffers in
PRESENT, uploaded resources in COPY_DEST), every transition barrier recorded
by `InitD3D` and by whatever runs after it, `Render` calls in particular, names
the tracked state of its resource as `StateBefore` and a different state as
`StateAfter`; the tracking ends with the three uploaded resources in their
consumption states and every back buffer in PRESENT, after `InitD3D` and
after every step, so after every `Render` the back buffer it drew to is in
PRESENT again. -/
theorem declared_states_consistent (env : InitEnv) (bb : Nat) (s0 : FrameState)
    (h : InitD3D env bb = some s0) :
    (∀ i, createdState (Resource.g_RenderTargets i) = D3D12_RESOURCE_STATES.PRESENT) ∧
    (∀ i, statesAfterInit (Resource.g_RenderTargets i) = D3D12_RESOURCE_STATES.PRESENT) ∧
    trackStates createdState (recorded s0.trace) = some statesAfterInit ∧
    (∀ ops s, run ops s0 = some s →
      trackStates createdState (recorded s.trace) = some statesAfterInit) ∧
    (∀ ops s b s1, run ops s0 = some s → Render b s = some s1 →
      ∃ st, trackStates createdState (recorded s.trace ++ (renderCommands b).take 1) = some st ∧
        st (Resource.g_RenderTargets b) = D3D12_RESOURCE_STATES.RENDER_TARGET) := by
  have hp : ∀ i, statesAfterInit (Resource.g_RenderTargets i) = D3D12_RESOURCE_STATES.PRESENT := by
    intro i
    simp [statesAfterInit, Function.update, createdState]
  have h0 : trackStates createdState (recorded s0.trace) = some statesAfterInit := by
    rw [InitD3D_recorded env bb s0 h]
    exact trackStates_initialCommands env
  refine ⟨fun _ => rfl, hp, h0, fun ops s hrun => run_trackStates _ _ hp ops s0 s hrun h0, ?_⟩
  intro ops s b s1 hrun _
  have hs := run_trackStates _ _ hp ops s0 s hrun h0
  refine ⟨Function.update statesAfterInit (Resource.g_RenderTargets b)
    D3D12_RESOURCE_STATES.RENDER_TARGET, ?_, by simp⟩
  rw [trackStates_append, hs, Option.some_bind]
  simp [renderCommands, trackStates, hp b]

theorem declared_states_consistent_witness :
    trackStates createdState (recorded ((InitD3D exEnv 0).get (by decide)).trace)
      = some statesAfterInit ∧
    trackStates createdState
        (recorded ((run (mainLoop (fun _ => 0) [0, 1] 0)
          ((InitD3D exEnv 0).get (by decide))).get (by decide)).trace)
      = some statesAfterInit :=
  ⟨(declared_states_consistent exEnv 0 _ (Option.some_get _).symm).2.2.1,
   (declared_states_consistent exEnv 0 _ (Option.some_get _).symm).2.2.2.1
      (mainLoop (fun _ => 0) [0, 1] 0) _ (Option.some_get _).symm⟩

/-! ## The command list alternates between recording and closed -/

theorem disciplined_log {s : FrameState} {b : Bool} (h : Disciplined s b) (e : Event)
    (he : (⟨e, s.completed, s.g_FenceValues, b⟩ : Logged).obeys = true) :
    Disciplined (s.log e) b := by
  obtain ⟨h1, h2⟩ := h
  refine ⟨?_, h2⟩
  intro l hl
  simp only [log_trace, List.mem_append, List.mem_singleton] at hl
  rcases hl with hl | hl
  · exact h1 l hl
  · subst hl; rw [h2]; exact he

theorem disciplined_setRecording {s : FrameState} {b : Bool} (h : Disciplined s b) (b1 : Bool) :
    Disciplined { s with recording := b1 } b1 :=
  ⟨h.1, rfl⟩

theorem disciplined_enqueue {s : FrameState} {b : Bool} (h : Disciplined s b) (op : QueueOp) :
    Disciplined (s.enqueue op) b := h

/-- Entries appended to a disciplined trace, each finding the list in the
state it needs. -/
theorem disciplined_append {s s1 : FrameState} {b : Bool} (h : Disciplined s b)
    (ls : List Logged) (ht : s1.trace = s.trace ++ ls) (hl : ∀ l, l ∈ ls → l.obeys = true)
    (b1 : Bool) (hr : s1.recording = b1) : Disciplined s1 b1 := by
  refine ⟨?_, hr⟩
  intro l hm
  rw [ht, List.mem_append] at hm
  rcases hm with hm | hm
  · exact h.1 l hm
  · exact hl l hm

theorem obeys_of_isWaiting (l : Logged) (h : l.ev.isWaiting = true) : l.obeys = true := by
  unfold Logged.obeys
  cases he : l.ev <;> rw [he] at h <;> first | rfl | cases h

theorem disciplined_upload {s : FrameState} (h : Disciplined s true) (env : InitEnv)
    (dest staging : ID3D12Resource) (src : D3D12_SUBRESOURCE_DATA) :
    Disciplined (uploadAndRecord env dest staging src s).2 true := by
  apply disciplined_append h _ (uploadAndRecord_trace env dest staging src s)
  · intro l hl
    simp only [List.mem_map] at hl
    obtain ⟨c, _, rfl⟩ := hl
    exact h.2
  · rw [(uploadAndRecord_fields env dest staging src s).2.2.1, h.2]

theorem recordInitialUploads_disciplined (env : InitEnv) (s s7 : FrameState)
    (h : recordInitialUploads env s = some s7) (hd : Disciplined s false) :
    Disciplined s7 false := by
  unfold recordInitialUploads at h
  dsimp only at h
  split at h
  · exact absurd h (by simp)
  · split at h
    · exact absurd h (by simp)
    · simp only [Option.some.injEq] at h
      subst h
      simp only [FrameState.record]
      apply disciplined_enqueue
      refine disciplined_log ?_ _ (by rfl)
      apply disciplined_setRecording (b := true)
      refine disciplined_log ?_ _ (by rfl)
      refine disciplined_log ?_ _ (by rfl)
      apply disciplined_upload
      refine disciplined_log ?_ _ (by rfl)
      apply disciplined_upload
      refine disciplined_log ?_ _ (by rfl)
      apply disciplined_upload
      apply disciplined_setRecording (b := false)
      refine disciplined_log hd _ (by rfl)

theorem WaitGPUIdle_disciplined (i : Nat) (s s1 : FrameState) (b : Bool)
    (h : WaitGPUIdle i s = some s1) (hd : Disciplined s b) : Disciplined s1 b := by
  obtain ⟨lw, w1, w2⟩ := WaitGPUIdle_entries i s s1 h
  obtain ⟨_, _, _, w4, _⟩ := WaitGPUIdle_spec i s s1 h
  refine disciplined_append hd _ (by rw [w1, List.append_assoc]) ?_ b (w4.trans hd.2)
  intro l hl
  simp only [List.mem_append, List.mem_singleton] at hl
  rcases hl with hl | hl
  · subst hl; rfl
  · exact obeys_of_isWaiting l (w2 l hl).2.2

theorem InitD3D_disciplined (env : InitEnv) (bb : Nat) (s0 : FrameState)
    (h : InitD3D env bb = some s0) : Disciplined s0 false := by
  unfold InitD3D at h
  dsimp only at h
  split at h
  · split at h
    · exact absurd h (by simp)
    · rename_i s7 h7
      split at h
      · exact absurd h (by simp)
      · rename_i s8 h8
        simp only [Option.some.injEq] at h
        subst h
        have d0 : Disciplined (initialState bb) true := ⟨by simp [initialState], rfl⟩
        have d1 := disciplined_setRecording (disciplined_log d0 Event.ListClose (by rfl)) false
        have d7 := recordInitialUploads_disciplined env _ s7 h7 d1
        have d8 := WaitGPUIdle_disciplined _ s7 s8 false h8 d7
        refine disciplined_append d8 _ (logAll_trace _ _) ?_ false ?_
        · intro l hl
          simp only [List.map_cons, List.map_nil, List.mem_cons, List.mem_singleton,
            List.not_mem_nil, or_false] at hl
          rcases hl with hl | hl | hl <;> subst hl <;> rfl
        · rw [logAll_recording]; exact d8.2
  · exact absurd h (by simp)

theorem Render_disciplined (bb : Nat) (s s1 : FrameState) (h : Render bb s = some s1)
    (hd : Disciplined s false) : Disciplined s1 false := by
  obtain ⟨sw, hw, _, ht⟩ := Render_trace bb s s1 h
  obtain ⟨ls, hl1, hl2⟩ := WaitForFrame_entries _ _ sw hw
  obtain ⟨_, _, _, w4, _⟩ := WaitForFrame_spec _ _ sw hw
  simp only at hl1 w4
  have hrec : s1.recording = false := by
    unfold Render at h
    dsimp only at h
    rw [hw] at h
    simp only [Option.some.injEq] at h
    subst h
    rfl
  have hsw : sw.recording = false := w4.trans hd.2
  refine disciplined_append hd _ (by rw [ht, hl1, List.append_assoc]) ?_ false hrec
  intro l hl
  simp only [List.mem_append, List.mem_cons, List.mem_singleton, List.not_mem_nil, or_false,
    List.mem_map] at hl
  rcases hl with hl | ((hl | hl) | ⟨c, _, hl⟩) | hl | hl | hl | hl
  · exact obeys_of_isWaiting l (hl2 l hl).2.2
  · subst hl; rfl
  · subst hl; simp [Logged.obeys, hsw]
  · subst hl; rfl
  · subst hl; rfl
  · subst hl; rfl
  · subst hl; rfl
  · subst hl; rfl

theorem BeginCommandList_disciplined (s s1 : FrameState) (h : BeginCommandList s = some s1)
    (hd : Disciplined s false) : Disciplined s1 true := by
  unfold BeginCommandList at h
  split at h
  · simp only [Option.some.injEq] at h
    subst h
    exact disciplined_setRecording (disciplined_log hd _ (by rfl)) true
  · exact absurd h (by simp)

theorem EndCommandList_disciplined (s s1 : FrameState) (h : EndCommandList s = some s1)
    (hd : Disciplined s true) : Disciplined s1 false := by
  unfold EndCommandList at h
  dsimp only at h
  apply WaitGPUIdle_disciplined _ _ s1 false h
  apply disciplined_enqueue
  refine disciplined_log ?_ _ (by rfl)
  exact disciplined_setRecording (disciplined_log hd _ (by rfl)) false

/-- Every phase takes a closed list to a closed list and keeps the trace
disciplined. -/
theorem phases_disciplined (ps : List Phase) (s s1 : FrameState)
    (hrun : run (phasesOps ps) s = some s1) (hd : Disciplined s false) :
    Disciplined s1 false := by
  induction ps generalizing s with
  | nil =>
    simp only [phasesOps, List.map_nil, List.flatten_nil, run, Option.some.injEq] at hrun
    subst hrun; exact hd
  | cons p ps ih =>
    have e : phasesOps (p :: ps) = p.ops ++ phasesOps ps := by
      simp [phasesOps]
    rw [e] at hrun
    cases p with
    | render bb =>
      simp only [Phase.ops, List.singleton_append, run, step] at hrun
      split at hrun
      · exact absurd hrun (by simp)
      · rename_i sa ha
        exact ih sa hrun (Render_disciplined bb s sa ha hd)
    | beginEnd =>
      simp only [Phase.ops, List.cons_append, List.nil_append, run, step] at hrun
      split at hrun
      · exact absurd hrun (by simp)
      · rename_i sa ha
        split at hrun
        · exact absurd hrun (by simp)
        · rename_i sb hb
          exact ih sb hrun (EndCommandList_disciplined sa sb hb
            (BeginCommandList_disciplined s sa ha hd))
    | update =>
      simp only [Phase.ops, List.singleton_append, run, step] at hrun
      split at hrun
      · exact absurd hrun (by simp)
      · rename_i sa ha
        apply ih sa hrun
        unfold Update at ha
        split at ha
        · simp only [Option.some.injEq] at ha
          subst ha
          refine disciplined_append hd _ (logAll_trace _ _) ?_ false ?_
          · intro l hl
            simp only [List.map_cons, List.map_nil, List.mem_cons, List.mem_singleton,
              List.not_mem_nil, or_false] at hl
            rcases hl with hl | hl | hl <;> subst hl <;> rfl
          · rw [logAll_recording]; exact hd.2
        · exact absurd ha (by simp)
    | gpu n =>
      simp only [Phase.ops, List.singleton_append, run, step] at hrun
      apply ih _ hrun
      obtain ⟨_, _, g3, g4⟩ := gpuSteps_fields n s
      exact ⟨by rw [g4]; exact hd.1, g3.trans hd.2⟩

/-- C24. Recording state alternates: over every execution made of `InitD3D`
followed by any sequence of `Render` calls and `BeginCommandList` /
`EndCommandList` pairs (and of `Update` calls and GPU progress between them),
every `Reset` of the command list is applied to a closed list, every recorded
command and every `Close` to a recording list, the list is closed whenever it
is passed to `ExecuteCommandLists`, and it is closed when `InitD3D` returns
and after every `Render` and every `EndCommandList`; between a
`BeginCommandList` and its `EndCommandList` it is recording. -/
theorem recording_alternates (env : InitEnv) (bb : Nat) (s0 : FrameState)
    (h : InitD3D env bb = some s0) :
    ((∀ l, l ∈ s0.trace → l.obeys = true) ∧ s0.recording = false) ∧
    (∀ ps s, run (phasesOps ps) s0 = some s →
      (∀ l, l ∈ s.trace → l.obeys = true) ∧ s.recording = false ∧
      ∀ s1, BeginCommandList s = some s1 → s1.recording = true) := by
  have d0 := InitD3D_disciplined env bb s0 h
  refine ⟨d0, ?_⟩
  intro ps s hrun
  have d := phases_disciplined ps s0 s hrun d0
  exact ⟨d.1, d.2, fun s1 h1 => (BeginCommandList_disciplined s s1 h1 d).2⟩

theorem recording_alternates_witness :
    (∀ l, l ∈ ((run (phasesOps [Phase.update, Phase.render 0, Phase.beginEnd, Phase.render 1])
        ((InitD3D exEnv 0).get (by decide))).get (by decide)).trace → l.obeys = true) ∧
    ((run (phasesOps [Phase.update, Phase.render 0, Phase.beginEnd, Phase.render 1])
        ((InitD3D exEnv 0).get (by decide))).get (by decide)).recording = false ∧
    ∀ s1, BeginCommandList ((run (phasesOps [Phase.update, Phase.render 0, Phase.beginEnd,
        Phase.render 1]) ((InitD3D exEnv 0).get (by decide))).get (by decide)) = some s1 →
      s1.recording = true :=
  (recording_alternates exEnv 0 _ (Option.some_get _).symm).2
    [Phase.update, Phase.render 0, Phase.beginEnd, Phase.render 1] _ (Option.some_get _).symm

/-! ## Every call returns while the indices are in range -/

theorem Render_drains (bb : Nat) (s : FrameState) (hbb : bb < FRAME_BUFFER_COUNT)
    (h : Drains s.g_FenceValues s.queue s.completed) :
    ∃ s1, Render bb s = some s1 ∧ Drains s1.g_FenceValues s1.queue s1.completed := by
  obtain ⟨sw, hw, hd⟩ := WaitForFrame_drains bb { s with g_FrameIndex := bb } hbb h
  obtain ⟨_, _, w3, _⟩ := WaitForFrame_spec _ _ sw hw
  simp only at w3
  unfold Render
  dsimp only
  rw [hw]
  refine ⟨_, rfl, ?_⟩
  simp only [w3, log_g_FenceValues, enqueue_g_FenceValues, logAll_g_FenceValues, log_queue,
    enqueue_queue, logAll_queue, log_completed, enqueue_completed, logAll_completed,
    Function.update_same]
  refine ⟨?_, fun S => ?_⟩
  · apply Settles_snoc _ _ _ _ (fun f v e => by cases e)
    exact Settles_snoc _ _ _ hd.1 (fun f v e => by cases e)
  · rw [lastQueuedSignal_snoc]
    simp only
    by_cases hS : bb = S
    · subst hS; simp
    · simp only [if_neg hS]
      rw [lastQueuedSignal_snoc, Function.update_noteq (Ne.symm hS)]
      exact hd.2 S

theorem EndCommandList_drains (s : FrameState) (hi : s.g_FrameIndex < FRAME_BUFFER_COUNT)
    (h : Drains s.g_FenceValues s.queue s.completed) :
    ∃ s1, EndCommandList s = some s1 ∧ Drains s1.g_FenceValues s1.queue s1.completed := by
  unfold EndCommandList
  dsimp only
  apply WaitGPUIdle_drains _ _ hi
  simp only [log_g_FenceValues, enqueue_g_FenceValues, log_queue, enqueue_queue, log_completed,
    enqueue_completed]
  refine ⟨Settles_snoc _ _ _ h.1 (fun f v e => by cases e), fun S => ?_⟩
  rw [lastQueuedSignal_snoc]
  exact h.2 S

theorem gpuStep_drains (s : FrameState) (h : Drains s.g_FenceValues s.queue s.completed) :
    Drains (gpuStep s).g_FenceValues (gpuStep s).queue (gpuStep s).completed := by
  unfold gpuStep
  split
  · exact h
  · rename_i q hq
    rw [hq] at h
    exact Drains_tail _ _ _ _ h
  · rename_i f v q hq
    rw [hq] at h
    exact Drains_tail _ _ _ _ h
  · rename_i f v q hq
    rw [hq] at h
    split
    · exact Drains_tail _ _ _ _ h
    · rw [hq]; exact h

theorem gpuSteps_drains (n : Nat) (s : FrameState)
    (h : Drains s.g_FenceValues s.queue s.completed) :
    Drains (gpuSteps n s).g_FenceValues (gpuSteps n s).queue (gpuSteps n s).completed := by
  induction n generalizing s with
  | zero => exact h
  | succ n ih => exact ih (gpuStep s) (gpuStep_drains s h)

theorem Cleanup_drains (s : FrameState) (h : Drains s.g_FenceValues s.queue s.completed) :
    ∃ s3, Cleanup s = some s3 ∧ Drains s3.g_FenceValues s3.queue s3.completed ∧
      s3.g_FrameIndex = s.g_FrameIndex := by
  obtain ⟨s1, h1, d1⟩ := cleanupLoop_drains FRAME_BUFFER_COUNT s (Nat.le_refl _) h
  obtain ⟨s2, h2, d2⟩ := WaitGPUIdle_drains 0 s1 (by decide) d1
  obtain ⟨_, a2, _⟩ := cleanupLoop_spec _ s s1 h1
  obtain ⟨_, _, b3, _⟩ := WaitGPUIdle_spec 0 s1 s2 h2
  refine ⟨s2.logAll (cleanupReleases.map Event.Release), by simp [Cleanup, h1, h2], ?_, ?_⟩
  · simpa using d2
  · simp [b3, a2]

/-- A step with its index in range, on a draining queue and with
`g_FrameIndex` in range: the step returns, and both hold again. -/
theorem step_total (op : Op) (s : FrameState) (hop : op.inRange = true)
    (hi : s.g_FrameIndex < FRAME_BUFFER_COUNT)
    (h : Drains s.g_FenceValues s.queue s.completed) :
    ∃ s1, step op s = some s1 ∧ s1.g_FrameIndex < FRAME_BUFFER_COUNT ∧
      Drains s1.g_FenceValues s1.queue s1.completed := by
  cases op with
  | Update =>
    simp only [step, Update, if_pos hi]
    exact ⟨_, rfl, by simpa using hi, by simpa using h⟩
  | Render bb =>
    have hbb : bb < FRAME_BUFFER_COUNT := by simpa [Op.inRange, swapChainBufferCount] using hop
    obtain ⟨s1, h1, d1⟩ := Render_drains bb s hbb h
    obtain ⟨_, _, r3, _⟩ := Render_spec bb s s1 h1
    exact ⟨s1, h1, by rw [r3]; exact hbb, d1⟩
  | WaitForFrame i =>
    have hbb : i < FRAME_BUFFER_COUNT := by simpa [Op.inRange, swapChainBufferCount] using hop
    obtain ⟨s1, h1, d1⟩ := WaitForFrame_drains i s hbb h
    obtain ⟨_, _, r3, _⟩ := WaitForFrame_spec i s s1 h1
    exact ⟨s1, h1, by rw [r3]; exact hi, d1⟩
  | WaitGPUIdle i =>
    have hbb : i < FRAME_BUFFER_COUNT := by simpa [Op.inRange, swapChainBufferCount] using hop
    obtain ⟨s1, h1, d1⟩ := WaitGPUIdle_drains i s hbb h
    obtain ⟨_, _, r3, _⟩ := WaitGPUIdle_spec i s s1 h1
    exact ⟨s1, h1, by rw [r3]; exact hi, d1⟩
  | BeginCommandList =>
    simp only [step, BeginCommandList, if_pos hi]
    exact ⟨_, rfl, by simpa using hi, by simpa using h⟩
  | EndCommandList =>
    obtain ⟨s1, h1, d1⟩ := EndCommandList_drains s hi h
    have h1c := h1
    unfold EndCommandList at h1c
    dsimp only at h1c
    obtain ⟨_, _, r3, _⟩ := WaitGPUIdle_spec _ _ s1 h1c
    exact ⟨s1, h1, by rw [r3]; simpa using hi, d1⟩
  | Cleanup =>
    obtain ⟨s3, h3, d3, i3⟩ := Cleanup_drains s h
    exact ⟨s3, h3, by rw [i3]; exact hi, d3⟩
  | gpu n =>
    refine ⟨gpuSteps n s, rfl, ?_, gpuSteps_drains n s h⟩
    rw [(gpuSteps_fields n s).2.1]; exact hi

/-- Every sequence of steps with their indices in range returns. -/
theorem run_total (ops : List Op) (s : FrameState) (hops : ∀ op, op ∈ ops → op.inRange = true)
    (hi : s.g_FrameIndex < FRAME_BUFFER_COUNT)
    (h : Drains s.g_FenceValues s.queue s.completed) :
    ∃ s1, run ops s = some s1 ∧ s1.g_FrameIndex < FRAME_BUFFER_COUNT ∧
      Drains s1.g_FenceValues s1.queue s1.completed := by
  induction ops generalizing s with
  | nil => exact ⟨s, rfl, hi, h⟩
  | cons op ops ih =>
    obtain ⟨sa, ha, ia, da⟩ := step_total op s (hops op (List.mem_cons_self _ _)) hi h
    obtain ⟨s1, h1, i1, d1⟩ := ih sa (fun o ho => hops o (List.mem_cons_of_mem _ ho)) ia da
    exact ⟨s1, by simp only [run, ha]; exact h1, i1, d1⟩

/-! ## The indices of per-slot arrays -/

theorem slotsExt_refl (s : FrameState) : SlotsExt s s :=
  ⟨rfl, [], by simp, by simp⟩

theorem slotsExt_log {s s1 : FrameState} (h : SlotsExt s s1) (e : Event)
    (he : ∀ i, i ∈ e.slots → i = s.g_FrameIndex) : SlotsExt s (s1.log e) := by
  obtain ⟨h1, ls, h2, h3⟩ := h
  refine ⟨h1, ls ++ [⟨e, s1.completed, s1.g_FenceValues, s1.recording⟩], by simp [h2], ?_⟩
  intro l hl
  simp only [List.mem_append, List.mem_singleton] at hl
  rcases hl with hl | hl
  · exact h3 l hl
  · subst hl; exact he

theorem slotsExt_setRecording {s s1 : FrameState} (h : SlotsExt s s1) (b : Bool) :
    SlotsExt s { s1 with recording := b } := h

theorem slotsExt_enqueue {s s1 : FrameState} (h : SlotsExt s s1) (op : QueueOp) :
    SlotsExt s (s1.enqueue op) := h

theorem slots_of_copy (c : Command) (d : Resource) (h : c.copyDest = some d) : c.slots = [] := by
  cases c <;> first | rfl | cases h

theorem slotsExt_upload {s s1 : FrameState} (h : SlotsExt s s1) (env : InitEnv)
    (dest staging : ID3D12Resource) (src : D3D12_SUBRESOURCE_DATA) :
    SlotsExt s (uploadAndRecord env dest staging src s1).2 := by
  obtain ⟨h1, ls, h2, h3⟩ := h
  refine ⟨by rw [(uploadAndRecord_fields env dest staging src s1).2.2.2.2, h1], ls ++ _,
    by rw [uploadAndRecord_trace, h2, List.append_assoc], ?_⟩
  intro l hl
  simp only [List.mem_append, List.mem_map] at hl
  rcases hl with hl | ⟨c, hc, rfl⟩
  · exact h3 l hl
  · intro i hi
    have : c.slots = [] := slots_of_copy c _ (uploadCommands_dest env dest staging src c hc)
    simp only [Event.slots, this, List.not_mem_nil] at hi

theorem recordInitialUploads_slots (env : InitEnv) (s s7 : FrameState)
    (h : recordInitialUploads env s = some s7) : SlotsExt s s7 := by
  unfold recordInitialUploads at h
  dsimp only at h
  split at h
  · exact absurd h (by simp)
  · split at h
    · exact absurd h (by simp)
    · simp only [Option.some.injEq] at h
      subst h
      simp only [FrameState.record]
      apply slotsExt_enqueue
      refine slotsExt_log ?_ _ (by simp [Event.slots])
      apply slotsExt_setRecording
      refine slotsExt_log ?_ _ (by simp [Event.slots])
      refine slotsExt_log ?_ _ (by simp [Event.slots, Command.slots])
      apply slotsExt_upload
      refine slotsExt_log ?_ _ (by simp [Event.slots, Command.slots])
      apply slotsExt_upload
      refine slotsExt_log ?_ _ (by simp [Event.slots, Command.slots])
      apply slotsExt_upload
      apply slotsExt_setRecording
      refine slotsExt_log ?_ _ (by simp [Event.slots])
      exact slotsExt_refl s

/-- The entries of `WaitForFrame(i)` use per-slot arrays at index `i` only. -/
theorem WaitForFrame_slots (i : Nat) (s s1 : FrameState) (h : WaitForFrame i s = some s1) :
    ∃ ls, s1.trace = s.trace ++ ls ∧ ∀ l, l ∈ ls → ∀ k, k ∈ l.ev.slots → k = i := by
  obtain ⟨ls, h1, h2⟩ := WaitForFrame_trace i s s1 h
  refine ⟨ls, h1, ?_⟩
  intro l hl k hk
  rcases h2 l hl with e | e | e <;> rw [e] at hk <;> simp [Event.slots] at hk <;> exact hk

/-- The entries of `WaitGPUIdle(i)` use per-slot arrays at index `i` only. -/
theorem WaitGPUIdle_slots (i : Nat) (s s1 : FrameState) (h : WaitGPUIdle i s = some s1) :
    ∃ ls, s1.trace = s.trace ++ ls ∧ ∀ l, l ∈ ls → ∀ k, k ∈ l.ev.slots → k = i := by
  obtain ⟨lw, h1, h2⟩ := WaitGPUIdle_trace i s s1 h
  refine ⟨_, by rw [h1, List.append_assoc], ?_⟩
  intro l hl k hk
  simp only [List.mem_append, List.mem_singleton] at hl
  rcases hl with hl | hl
  · subst hl; simpa [Event.slots] using hk
  · rcases h2 l hl with e | e | e <;> rw [e] at hk <;> simp [Event.slots] at hk <;> exact hk

/-- The entries of `Render` use per-slot arrays at the index of the back
buffer only. -/
theorem Render_slots (bb : Nat) (s s1 : FrameState) (h : Render bb s = some s1) :
    ∃ ls, s1.trace = s.trace ++ ls ∧ ∀ l, l ∈ ls → ∀ k, k ∈ l.ev.slots → k = bb := by
  obtain ⟨sw, hw, _, ht⟩ := Render_trace bb s s1 h
  obtain ⟨ls, hl1, hl2⟩ := WaitForFrame_slots _ _ sw hw
  simp only at hl1
  refine ⟨_, by rw [ht, hl1, List.append_assoc], ?_⟩
  intro l hl k hk
  simp only [List.mem_append, List.mem_cons, List.mem_singleton, List.not_mem_nil, or_false,
    List.mem_map] at hl
  rcases hl with hl | ((hl | hl) | ⟨c, hc, hl⟩) | hl | hl | hl | hl
  · exact hl2 l hl k hk
  · subst hl; simpa [Event.slots] using hk
  · subst hl; simpa [Event.slots] using hk
  · subst hl
    simp only [Event.slots] at hk
    simp only [renderCommands, List.mem_cons, List.mem_singleton, List.not_mem_nil,
      or_false] at hc
    rcases hc with hc | hc | hc | hc | hc | hc | hc | hc | hc | hc | hc | hc | hc | hc | hc |
      hc | hc | hc | hc <;> subst hc <;> simp [Command.slots] at hk <;> exact hk
  · subst hl; simp [Event.slots] at hk
  · subst hl; simp [Event.slots] at hk
  · subst hl; simpa [Event.slots] using hk
  · subst hl; simp [Event.slots] at hk

theorem cleanupLoop_slots (n : Nat) (s s1 : FrameState)
    (h : forLoopO cleanupWait n s = some s1) :
    ∃ ls, s1.trace = s.trace ++ ls ∧
      ∀ l, l ∈ ls → ∀ k, k ∈ l.ev.slots → k < FRAME_BUFFER_COUNT := by
  induction n generalizing s1 with
  | zero =>
    simp only [forLoopO, Option.some.injEq] at h
    subst h
    exact ⟨[], by simp, by simp⟩
  | succ n ih =>
    simp only [forLoopO] at h
    split at h
    · rename_i sa ha
      obtain ⟨la, a1, a2⟩ := ih sa ha
      unfold cleanupWait at h
      split at h
      · exact absurd h (by simp)
      · rename_i sw hw
        obtain ⟨hn, _⟩ := WaitForFrame_spec _ _ sw hw
        obtain ⟨lw, w1, w2⟩ := WaitForFrame_slots _ _ sw hw
        simp only [Option.some.injEq] at h
        subst h
        refine ⟨la ++ lw ++ [⟨Event.QueueWait n (sw.g_FenceValues n), sw.completed,
          sw.g_FenceValues, sw.recording⟩], by simp [w1, a1], ?_⟩
        intro l hl k hk
        simp only [List.mem_append, List.mem_singleton] at hl
        rcases hl with (hl | hl) | hl
        · exact a2 l hl k hk
        · rw [w2 l hl k hk]; exact hn
        · subst hl
          simp only [Event.slots, List.mem_singleton] at hk
          rw [hk]; exact hn
    · exact absurd h (by simp)

/-- The entries a step adds use per-slot arrays inside their bounds. -/
theorem step_slots (op : Op) (s s1 : FrameState) (h : step op s = some s1)
    (hi : s.g_FrameIndex < FRAME_BUFFER_COUNT) :
    ∃ ls, s1.trace = s.trace ++ ls ∧
      ∀ l, l ∈ ls → ∀ k, k ∈ l.ev.slots → k < FRAME_BUFFER_COUNT := by
  cases op with
  | Update =>
    simp only [step, Update, if_pos hi, Option.some.injEq] at h
    subst h
    refine ⟨_, logAll_trace _ _, ?_⟩
    intro l hl k hk
    simp only [List.map_cons, List.map_nil, List.mem_cons, List.mem_singleton,
      List.not_mem_nil, or_false] at hl
    rcases hl with hl | hl | hl <;> subst hl <;>
      simp [Event.slots, Resource.slotOf] at hk <;> rw [hk] <;> exact hi
  | Render bb =>
    obtain ⟨hbb, _⟩ := Render_spec bb s s1 h
    obtain ⟨ls, h1, h2⟩ := Render_slots bb s s1 h
    exact ⟨ls, h1, fun l hl k hk => by rw [h2 l hl k hk]; exact hbb⟩
  | WaitForFrame i =>
    obtain ⟨hbb, _⟩ := WaitForFrame_spec i s s1 h
    obtain ⟨ls, h1, h2⟩ := WaitForFrame_slots i s s1 h
    exact ⟨ls, h1, fun l hl k hk => by rw [h2 l hl k hk]; exact hbb⟩
  | WaitGPUIdle i =>
    obtain ⟨hbb, _⟩ := WaitGPUIdle_spec i s s1 h
    obtain ⟨ls, h1, h2⟩ := WaitGPUIdle_slots i s s1 h
    exact ⟨ls, h1, fun l hl k hk => by rw [h2 l hl k hk]; exact hbb⟩
  | BeginCommandList =>
    simp only [step, BeginCommandList, if_pos hi, Option.some.injEq] at h
    subst h
    refine ⟨[⟨Event.ListReset s.g_FrameIndex, s.completed, s.g_FenceValues, s.recording⟩],
      rfl, ?_⟩
    intro l hl k hk
    simp only [List.mem_singleton] at hl
    subst hl
    simp only [Event.slots, List.mem_singleton] at hk
    rw [hk]; exact hi
  | EndCommandList =>
    simp only [step, EndCommandList] at h
    obtain ⟨hbb, _⟩ := WaitGPUIdle_spec _ _ s1 h
    obtain ⟨ls, h1, h2⟩ := WaitGPUIdle_slots _ _ s1 h
    simp only [enqueue_trace, log_trace, enqueue_g_FrameIndex, log_g_FrameIndex] at h1 h2 hbb
    refine ⟨[⟨Event.ListClose, s.completed, s.g_FenceValues, s.recording⟩,
      ⟨Event.ExecuteCommandLists, s.completed, s.g_FenceValues, false⟩] ++ ls,
      by rw [h1]; simp [FrameState.log], ?_⟩
    intro l hl k hk
    simp only [List.mem_append, List.mem_cons, List.mem_singleton, List.not_mem_nil,
      or_false] at hl
    rcases hl with (hl | hl) | hl
    · subst hl; simp [Event.slots] at hk
    · subst hl; simp [Event.slots] at hk
    · rw [h2 l hl k hk]; exact hbb
  | Cleanup =>
    simp only [step, Cleanup] at h
    split at h
    · exact absurd h (by simp)
    · rename_i sa ha
      split at h
      · exact absurd h (by simp)
      · rename_i sb hb
        simp only [Option.some.injEq] at h
        subst h
        obtain ⟨la, a1, a2⟩ := cleanupLoop_slots _ s sa ha
        obtain ⟨lw, w1, w2⟩ := WaitGPUIdle_slots 0 sa sb hb
        refine ⟨la ++ lw ++ (cleanupReleases.map Event.Release).map
          (fun e => ⟨e, sb.completed, sb.g_FenceValues, sb.recording⟩),
          by rw [logAll_trace, w1, a1]; simp only [List.append_assoc], ?_⟩
        intro l hl k hk
        simp only [List.mem_append, List.mem_map] at hl
        rcases hl with (hl | hl) | ⟨e, ⟨o, _, rfl⟩, rfl⟩
        · exact a2 l hl k hk
        · rw [w2 l hl k hk]; decide
        · simp [Event.slots] at hk
  | gpu n =>
    simp only [step, Option.some.injEq] at h
    subst h
    exact ⟨[], by rw [(gpuSteps_fields n s).2.2.2]; simp, by simp⟩

theorem InitD3D_slots (env : InitEnv) (bb : Nat) (s0 : FrameState)
    (h : InitD3D env bb = some s0) : SlotsInRange s0.trace := by
  obtain ⟨hbb, _⟩ := InitD3D_spec env bb s0 h
  unfold InitD3D at h
  dsimp only at h
  split at h
  · split at h
    · exact absurd h (by simp)
    · rename_i s7 h7
      split at h
      · exact absurd h (by simp)
      · rename_i s8 h8
        simp only [Option.some.injEq] at h
        subst h
        obtain ⟨i7, ls, t7, k7⟩ := recordInitialUploads_slots env _ s7 h7
        simp only [log_g_FrameIndex, log_trace, initialState, List.nil_append] at i7 t7 k7
        rw [i7] at h8
        obtain ⟨lw, w1, w2⟩ := WaitGPUIdle_slots bb s7 s8 h8
        intro l hl k hk
        rw [logAll_trace, w1, t7] at hl
        simp only [List.mem_append, List.mem_cons, List.mem_singleton, List.not_mem_nil,
          or_false, List.map_cons, List.map_nil] at hl
        rcases hl with ((hl | hl) | hl) | hl | hl | hl
        · subst hl; simp [Event.slots] at hk
        · rw [k7 l hl k hk]; exact hbb
        · rw [w2 l hl k hk]; exact hbb
        · subst hl; simp [Event.slots] at hk
        · subst hl; simp [Event.slots] at hk
        · subst hl; simp [Event.slots] at hk
  · exact absurd h (by simp)

/-- Steps that return keep every per-slot index of the trace in range. -/
theorem run_slots (ops : List Op) (s s1 : FrameState) (hrun : run ops s = some s1)
    (hops : ∀ op, op ∈ ops → op.inRange = true)
    (hi : s.g_FrameIndex < FRAME_BUFFER_COUNT) (h : SlotsInRange s.trace) :
    SlotsInRange s1.trace := by
  induction ops generalizing s with
  | nil =>
    simp only [run, Option.some.injEq] at hrun
    subst hrun; exact h
  | cons op ops ih =>
    simp only [run] at hrun
    split at hrun
    · exact absurd hrun (by simp)
    · rename_i sa ha
      obtain ⟨ls, t1, t2⟩ := step_slots op s sa ha hi
      have ia : sa.g_FrameIndex < FRAME_BUFFER_COUNT := by
        cases op with
        | Render b =>
          obtain ⟨hb, _, r3, _⟩ := Render_spec b s sa ha
          rw [r3]; exact hb
        | Update =>
          simp only [step, Update, if_pos hi, Option.some.injEq] at ha
          subst ha; simpa using hi
        | WaitForFrame i =>
          obtain ⟨_, _, r3, _⟩ := WaitForFrame_spec i s sa ha
          rw [r3]; exact hi
        | WaitGPUIdle i =>
          obtain ⟨_, _, r3, _⟩ := WaitGPUIdle_spec i s sa ha
          rw [r3]; exact hi
        | BeginCommandList =>
          simp only [step, BeginCommandList, if_pos hi, Option.some.injEq] at ha
          subst ha; simpa using hi
        | EndCommandList =>
          simp only [step, EndCommandList] at ha
          obtain ⟨_, _, r3, _⟩ := WaitGPUIdle_spec _ _ sa ha
          rw [r3]; simpa using hi
        | Cleanup =>
          simp only [step, Cleanup] at ha
          split at ha
          · exact absurd ha (by simp)
          · rename_i sx hx
            split at ha
            · exact absurd ha (by simp)
            · rename_i sy hy
              simp only [Option.some.injEq] at ha
              subst ha
              obtain ⟨_, a2, _⟩ := cleanupLoop_spec _ s sx hx
              obtain ⟨_, _, b3, _⟩ := WaitGPUIdle_spec 0 sx sy hy
              simp [b3, a2, hi]
        | gpu n =>
          simp only [step, Option.some.injEq] at ha
          subst ha
          rw [(gpuSteps_fields n s).2.1]; exact hi
      apply ih sa hrun (fun o ho => hops o (List.mem_cons_of_mem _ ho)) ia
      intro l hl k hk
      rw [t1, List.mem_append] at hl
      rcases hl with hl | hl
      · exact h l hl k hk
      · exact t2 l hl k hk

/-- C25. Ring and swap chain match: the swap chain is created with
`BufferCount = FRAME_BUFFER_COUNT`, the length of every per-slot array. Hence,
with every back-buffer index below `BufferCount`, every step after `InitD3D`
returns (`Render`, `Update`, `WaitForFrame`, `WaitGPUIdle`, also
`BeginCommandList`, `EndCommandList` and `Cleanup`: no access outside a
per-slot array, which would make the call `none`, and no wait that does not
end), `g_FrameIndex` stays below `FRAME_BUFFER_COUNT`, and every index at
which an action of the trace uses a per-slot array is below
`FRAME_BUFFER_COUNT`. Within one `Render` call every per-slot array (fence,
fence target, command allocator, render target, RTV handle, descriptor heap,
per-object constant buffer) is used at the index read from the swap chain at
the start of the call, which becomes `g_FrameIndex`, and no other fence target
changes. -/
theorem ring_matches_swap_chain :
    swapChainBufferCount = FRAME_BUFFER_COUNT ∧
    (∀ env bb0 s0 ops, InitD3D env bb0 = some s0 → (∀ op, op ∈ ops → op.inRange = true) →
      ∃ s, run ops s0 = some s ∧ s.g_FrameIndex < FRAME_BUFFER_COUNT ∧
        SlotsInRange s.trace) ∧
    (∀ bb s s1, Render bb s = some s1 →
      s1.g_FrameIndex = bb ∧ (∀ S, S ≠ bb → s1.g_FenceValues S = s.g_FenceValues S) ∧
      ∃ ls, s1.trace = s.trace ++ ls ∧ ∀ l, l ∈ ls → ∀ k, k ∈ l.ev.slots → k = bb) := by
  refine ⟨rfl, ?_, ?_⟩
  · intro env bb0 s0 ops h0 hops
    obtain ⟨hbb, _, hi, _⟩ := InitD3D_spec env bb0 s0 h0
    obtain ⟨hl, _⟩ := InitD3D_live env bb0 s0 h0
    have hi0 : s0.g_FrameIndex < FRAME_BUFFER_COUNT := by rw [hi]; exact hbb
    obtain ⟨s, h1, h2, _⟩ := run_total ops s0 hops hi0 (Drains_of_Live _ _ _ hl)
    exact ⟨s, h1, h2, run_slots ops s0 s h1 hops hi0 (InitD3D_slots env bb0 s0 h0)⟩
  · intro bb s s1 h
    obtain ⟨_, r2, r3, _⟩ := Render_spec bb s s1 h
    refine ⟨r3, ?_, Render_slots bb s s1 h⟩
    intro S hS
    rw [r2, Function.update_noteq hS]

theorem ring_matches_swap_chain_witness :
    (∃ s, run [Op.Update, Op.Render 1, Op.gpu 1, Op.Update, Op.Render 2, Op.Cleanup]
        ((InitD3D exEnv 0).get (by decide)) = some s ∧
      s.g_FrameIndex < FRAME_BUFFER_COUNT ∧ SlotsInRange s.trace) ∧
    (((Render 1 exPendingState).get (by decide)).g_FrameIndex = 1 ∧
      (∀ S, S ≠ 1 → ((Render 1 exPendingState).get (by decide)).g_FenceValues S
        = exPendingState.g_FenceValues S) ∧
      ∃ ls, ((Render 1 exPendingState).get (by decide)).trace = exPendingState.trace ++ ls ∧
        ∀ l, l ∈ ls → ∀ k, k ∈ l.ev.slots → k = 1) :=
  ⟨ring_matches_swap_chain.2.1 exEnv 0 _
      [Op.Update, Op.Render 1, Op.gpu 1, Op.Update, Op.Render 2, Op.Cleanup]
      (Option.some_get _).symm (by decide),
   ring_matches_swap_chain.2.2 1 exPendingState _ (Option.some_get _).symm⟩

/-! ## `Map` and `Unmap` -/

/-- C26, evaluated on a 32-bit target where the second subresource has a row
size of `2^32`: `Map` succeeds, the two rows of the first subresource are
copied, and the call returns 0 from inside the loop (line 292) without ever
calling `Unmap`. -/
theorem UpdateSubresources_returns_mapped :
    (UpdateSubresources Arch.x86 true exTexture (exStaging 1024) 0 2 1024 (exLayouts 0)
        (fun _ => 2) exOversizeRows (fun _ => exSrc 16 32) exState).1 = 0 ∧
    (UpdateSubresources Arch.x86 true exTexture (exStaging 1024) 0 2 1024 (exLayouts 0)
        (fun _ => 2) exOversizeRows (fun _ => exSrc 16 32) exState).2.trace
      = [UpEvent.Map true, UpEvent.memcpy 0 ⟨0, 0, 16⟩, UpEvent.memcpy 0 ⟨256, 16, 16⟩] ∧
    (UpdateSubresources Arch.x86 true exTexture (exStaging 1024) 0 2 1024 (exLayouts 0)
        (fun _ => 2) exOversizeRows (fun _ => exSrc 16 32) exState).2.trace.count UpEvent.Unmap
      = 0 := by
  decide

/-- C28 as stated fails in three ways. On a 32-bit target with destination row
pitch 8 and slice pitch `2^31 + 8`, three slices of one 4-byte row, the
product `SlicePitch * 2` wraps to 16 and the third row is written at addresses
16..19: destination byte 17 lies in none of the three intervals of the claim,
which start at 0, `2^31 + 8` and `2^32 + 16`, and is changed from 0 to 9. With
row pitch 16 and slice pitch `2^32 - 8`, two slices of two 4-byte rows, no
product wraps but the address of row `(1, 1)`, `2^32 + 8`, wraps to 8: byte 8
lies in none of the four intervals and is changed from 0 to 12. And on a
64-bit target with nothing near a wrap, a source at address 0 of the
destination memory with row pitch 4, copied to rows at addresses 4 and 8, is
modified: its byte at address 4 is changed from 4 to 0. -/
theorem MemcpySubresource_writes_outside_rows :
    ((∀ z, z < 3 → ∀ y, y < 1 →
        ¬ ((2 ^ 31 + 8) * z + 8 * y ≤ 17 ∧ 17 < (2 ^ 31 + 8) * z + 8 * y + 4)) ∧
      (MemcpySubresource Arch.x86 ⟨0, 8, 2 ^ 31 + 8⟩ (exSrc 4 4) none 4 1 3
          ⟨fun _ => 0, []⟩).bytes 17 = 9 ∧
      (MemcpySubresource Arch.x86 ⟨0, 8, 2 ^ 31 + 8⟩ (exSrc 4 4) none 4 1 3
          ⟨fun _ => 0, []⟩).calls
        = [⟨0, 0, 4⟩, ⟨2 ^ 31 + 8, 4, 4⟩, ⟨16, 8, 4⟩]) ∧
    (((2 ^ 32 - 8) * 1 < 2 ^ 32 ∧ 16 * 1 < 2 ^ 32) ∧
      (∀ z, z < 2 → ∀ y, y < 2 →
        ¬ ((2 ^ 32 - 8) * z + 16 * y ≤ 8 ∧ 8 < (2 ^ 32 - 8) * z + 16 * y + 4)) ∧
      (MemcpySubresource Arch.x86 ⟨0, 16, 2 ^ 32 - 8⟩ (exSrc 4 8) none 4 2 2
          ⟨fun _ => 0, []⟩).bytes 8 = 12 ∧
      (MemcpySubresource Arch.x86 ⟨0, 16, 2 ^ 32 - 8⟩ (exSrc 4 8) none 4 2 2
          ⟨fun _ => 0, []⟩).calls
        = [⟨0, 0, 4⟩, ⟨16, 4, 4⟩, ⟨2 ^ 32 - 8, 8, 4⟩, ⟨8, 12, 4⟩]) ∧
    (ptrAdd Arch.x64 0 (8 * 0 + 4 * 1 + 0) = 4 ∧ exMem 4 = 4 ∧
      (MemcpySubresource Arch.x64 ⟨4, 4, 8⟩ (exSrc 4 8) (some 0) 2 2 1 ⟨exMem, []⟩).bytes 4
        = 0 ∧
      (MemcpySubresource Arch.x64 ⟨4, 4, 8⟩ (exSrc 4 8) (some 0) 2 2 1 ⟨exMem, []⟩).calls
        = [⟨4, 0, 2⟩, ⟨8, 4, 2⟩]) := by
  decide

/-- C28, amended. Pad bytes are untouched: for all inputs in which every
destination row lies in the address space (`pData + SlicePitch_dst*z +
RowPitch_dst*y + RowSizeInBytes <= 2^w` for the pointer width `w`, so that
no product and no sum wraps), `MemcpySubresource` leaves unchanged every byte
whose address does not lie in an interval `[SlicePitch_dst*z + RowPitch_dst*y,
SlicePitch_dst*z + RowPitch_dst*y + RowSizeInBytes)` from `pDest->pData` for
some `z < NumSlices` and `y < NumRows`. For all inputs it changes nothing when
`NumSlices = 0`, `NumRows = 0` or `RowSizeInBytes = 0`. Its only writes are
the `memcpy` calls, one per row, to the address of the destination row, so a
source apart from the memory of the destination is never modified; a source
inside that memory is modified only where a destination row lies over it:
each of its bytes that lies in no destination row is unchanged. -/
theorem MemcpySubresource_frame (a : Arch) (pDest : D3D12_MEMCPY_DEST)
    (pSrc : D3D12_SUBRESOURCE_DATA) (srcAt : Option Nat) (W R D : Nat) (st : Staging)
    (p : Nat) :
    ((∀ z y, z < D → y < R →
        pDest.pData + pDest.SlicePitch * z + pDest.RowPitch * y + W ≤ 2 ^ a.bits) →
      (∀ z, z < D → ∀ y, y < R →
        ¬ (pDest.pData + (pDest.SlicePitch * z + pDest.RowPitch * y) ≤ p ∧
          p < pDest.pData + (pDest.SlicePitch * z + pDest.RowPitch * y) + W)) →
      (MemcpySubresource a pDest pSrc srcAt W R D st).bytes p = st.bytes p) ∧
    (D = 0 ∨ R = 0 ∨ W = 0 →
      (MemcpySubresource a pDest pSrc srcAt W R D st).bytes p = st.bytes p) ∧
    (MemcpySubresource a pDest pSrc srcAt W R D st).calls
      = st.calls ++ ((List.range D).map fun z => (List.range R).map fun y =>
          (⟨asSIZE_T a (pDest.pData + pDest.SlicePitch * z + pDest.RowPitch * y),
            asLONG_PTR a (pSrc.SlicePitch * z + pSrc.RowPitch * y), W⟩ : MemcpyCall)).flatten ∧
    (∀ q, srcAt = some q →
      (∀ z y, z < D → y < R →
        pDest.pData + pDest.SlicePitch * z + pDest.RowPitch * y + W ≤ 2 ^ a.bits) →
      ∀ z y k : Nat, z < D → y < R → k < W →
      (∀ z1 y1 k1 : Nat, z1 < D → y1 < R → k1 < W →
        ptrAdd a q (pSrc.SlicePitch * z + pSrc.RowPitch * y + k)
          ≠ pDest.pData + pDest.SlicePitch * z1 + pDest.RowPitch * y1 + k1) →
      (MemcpySubresource a pDest pSrc srcAt W R D st).bytes
          (ptrAdd a q (pSrc.SlicePitch * z + pSrc.RowPitch * y + k))
        = st.bytes (ptrAdd a q (pSrc.SlicePitch * z + pSrc.RowPitch * y + k))) := by
  have hframe : ∀ x : Nat,
      (∀ z y, z < D → y < R →
        pDest.pData + pDest.SlicePitch * z + pDest.RowPitch * y + W ≤ 2 ^ a.bits) →
      (∀ z, z < D → ∀ y, y < R →
        ¬ (pDest.pData + (pDest.SlicePitch * z + pDest.RowPitch * y) ≤ x ∧
          x < pDest.pData + (pDest.SlicePitch * z + pDest.RowPitch * y) + W)) →
      (MemcpySubresource a pDest pSrc srcAt W R D st).bytes x = st.bytes x := by
    intro x hdst h
    apply MemcpySubresource_bytes_frame
    intro z hz y hy hc
    have hd := hdst z y hz hy
    have hw : 0 < W := by omega
    rw [asSIZE_T_of_lt a _ (by omega)] at hc
    exact h z hz y hy ⟨by omega, by omega⟩
  refine ⟨hframe p, ?_, MemcpySubresource_calls a pDest pSrc srcAt W R D st, ?_⟩
  · intro h0
    apply MemcpySubresource_bytes_frame
    intro z hz y hy hc
    rcases h0 with h0 | h0 | h0
    · subst h0; exact Nat.not_lt_zero z hz
    · subst h0; exact Nat.not_lt_zero y hy
    · subst h0; omega
  · intro q _ hdst z y k hz hy hk h
    apply hframe _ hdst
    intro z1 hz1 y1 hy1 hc
    apply h z1 y1
      (ptrAdd a q (pSrc.SlicePitch * z + pSrc.RowPitch * y + k)
        - (pDest.pData + (pDest.SlicePitch * z1 + pDest.RowPitch * y1))) hz1 hy1 (by omega)
    omega

/-- Witness for C28 amended: a pad byte between two rows; an empty row size;
and a byte of a source at address 64 of the destination memory, apart from
the rows written. -/
theorem MemcpySubresource_frame_witness :
    (MemcpySubresource Arch.x64 ⟨0, 8, 16⟩ (exSrc 3 6) none 3 2 2 ⟨fun _ => 0, []⟩).bytes 3
        = (⟨fun _ => 0, []⟩ : Staging).bytes 3 ∧
    (MemcpySubresource Arch.x64 ⟨0, 8, 16⟩ (exSrc 3 6) none 0 2 2 ⟨fun _ => 0, []⟩).bytes 1
        = (⟨fun _ => 0, []⟩ : Staging).bytes 1 ∧
    (MemcpySubresource Arch.x64 ⟨0, 8, 16⟩ (exSrc 3 6) (some 64) 3 2 2 ⟨exMem, []⟩).bytes
        (ptrAdd Arch.x64 64 ((exSrc 3 6).SlicePitch * (1 : Nat) + (exSrc 3 6).RowPitch * (1 : Nat)
          + (2 : Nat)))
      = exMem (ptrAdd Arch.x64 64 ((exSrc 3 6).SlicePitch * (1 : Nat)
          + (exSrc 3 6).RowPitch * (1 : Nat) + (2 : Nat))) :=
  ⟨(MemcpySubresource_frame Arch.x64 ⟨0, 8, 16⟩ (exSrc 3 6) none 3 2 2 ⟨fun _ => 0, []⟩ 3).1
      (fun z y hz hy => by simp only [Arch.bits]; omega) (by decide),
   (MemcpySubresource_frame Arch.x64 ⟨0, 8, 16⟩ (exSrc 3 6) none 0 2 2 ⟨fun _ => 0, []⟩ 1).2.1
      (Or.inr (Or.inr rfl)),
   (MemcpySubresource_frame Arch.x64 ⟨0, 8, 16⟩ (exSrc 3 6) (some 64) 3 2 2 ⟨exMem, []⟩
      0).2.2.2 64 rfl
      (fun z y hz hy => by simp only [Arch.bits]; omega) 1 1 2 (by decide) (by decide)
      (by decide)
      (fun z1 y1 k1 hz1 hy1 hk1 => by
        rw [ptrAdd_of_fits _ _ _ (by simp only [exSrc]; omega)
          (by simp only [Arch.bits, exSrc]; norm_num)]
        simp only [exSrc]
        omega)⟩

/-! ## Waits are on signalled values -/

theorem signalsOn_append (S : Nat) (t1 t2 : List Logged) :
    signalsOn S (t1 ++ t2) = signalsOn S t1 ++ signalsOn S t2 := by
  simp [signalsOn, List.filterMap_append]

theorem signalsOn_eq_nil (S : Nat) (ls : List Logged)
    (h : ∀ l, l ∈ ls → ∀ f v, l.ev ≠ Event.Signal f v) : signalsOn S ls = [] := by
  simp only [signalsOn, List.filterMap_eq_nil_iff]
  intro l hl
  have := h l hl
  cases he : l.ev <;> simp_all

theorem successors_succ (k : Nat) : successors (k + 1) = successors k ++ [asUINT64 (k + 1)] := by
  simp [successors, List.range_succ]

theorem asUINT64_succ_mod (k : Nat) : asUINT64 (asUINT64 k + 1) = asUINT64 (k + 1) := by
  unfold asUINT64
  omega

/-- The target of a slot is 0 or the value signalled last on its fence. -/
theorem target_signalled (t : List Logged) (g : Nat → Nat) (h : SignalledWaits t g) (S : Nat) :
    g S = 0 ∨ g S ∈ signalsOn S t := by
  obtain ⟨k, h1, h2⟩ := h.2 S
  cases k with
  | zero => left; rw [h2]; rfl
  | succ k =>
    right
    rw [h1, h2, successors_succ]
    simp

/-- Entries appended to a trace whose readings of a completed value, if any,
are made with targets `g`, each of them 0 or signalled before. -/
theorem WaitsOnSignalled_append (t ls : List Logged) (g : Nat → Nat)
    (ht : WaitsOnSignalled t) (hg : ∀ S, g S = 0 ∨ g S ∈ signalsOn S t)
    (hl : ∀ l, l ∈ ls → ∀ S c, l.ev = Event.GetCompletedValue S c → l.targets = g) :
    WaitsOnSignalled (t ++ ls) := by
  intro pre l post S c hsplit hev
  rcases List.append_eq_append_iff.mp hsplit with ⟨m, h1, h2⟩ | ⟨m, h1, h2⟩
  · -- pre = t ++ m, ls = m ++ l :: post
    have hmem : l ∈ ls := by rw [h2]; simp
    rw [hl l hmem S c hev, h1, signalsOn_append]
    rcases hg S with h0 | h0
    · exact Or.inl h0
    · exact Or.inr (List.mem_append_left _ h0)
  · -- t = pre ++ m, l :: post = m ++ ls
    cases m with
    | nil =>
      simp only [List.nil_append] at h2
      have hmem : l ∈ ls := by rw [← h2]; simp
      simp only [List.append_nil] at h1
      rw [hl l hmem S c hev, ← h1]
      exact hg S
    | cons x m =>
      simp only [List.cons_append, List.cons.injEq] at h2
      obtain ⟨e1, _⟩ := h2
      subst e1
      exact ht pre l m S c h1 hev

theorem signalledWaits_quiet (t ls : List Logged) (g : Nat → Nat) (h : SignalledWaits t g)
    (h1 : ∀ l, l ∈ ls → ∀ S c, l.ev ≠ Event.GetCompletedValue S c)
    (h2 : ∀ l, l ∈ ls → ∀ f v, l.ev ≠ Event.Signal f v) :
    SignalledWaits (t ++ ls) g := by
  refine ⟨WaitsOnSignalled_append t ls g h.1 (target_signalled t g h)
    (fun l hl S c he => absurd he (h1 l hl S c)), fun S => ?_⟩
  rw [signalsOn_append, signalsOn_eq_nil S ls h2, List.append_nil]
  exact h.2 S

theorem signalledWaits_waits (t ls : List Logged) (g : Nat → Nat) (h : SignalledWaits t g)
    (hl : ∀ l, l ∈ ls → l.targets = g ∧ l.ev.isWaiting = true) :
    SignalledWaits (t ++ ls) g := by
  refine ⟨WaitsOnSignalled_append t ls g h.1 (target_signalled t g h)
    (fun l hm S c _ => (hl l hm).1), fun S => ?_⟩
  have : signalsOn S ls = [] := by
    apply signalsOn_eq_nil
    intro l hm f v he
    have := (hl l hm).2
    rw [he] at this
    cases this
  rw [signalsOn_append, this, List.append_nil]
  exact h.2 S

theorem signalledWaits_signal (t : List Logged) (g : Nat → Nat) (h : SignalledWaits t g)
    (i : Nat) (l : Logged) (hl : l.ev = Event.Signal i (asUINT64 (g i + 1))) :
    SignalledWaits (t ++ [l]) (Function.update g i (asUINT64 (g i + 1))) := by
  refine ⟨WaitsOnSignalled_append t [l] g h.1 (target_signalled t g h) ?_, fun S => ?_⟩
  · intro x hx S c he
    simp only [List.mem_singleton] at hx
    subst hx
    rw [hl] at he
    cases he
  · obtain ⟨k, h1, h2⟩ := h.2 S
    by_cases hS : i = S
    · subst hS
      refine ⟨k + 1, ?_, ?_⟩
      · rw [signalsOn_append, h1, successors_succ]
        simp [signalsOn, hl, h2, asUINT64_succ_mod]
      · rw [Function.update_same, h2, asUINT64_succ_mod]
    · refine ⟨k, ?_, ?_⟩
      · rw [signalsOn_append, h1]
        simp [signalsOn, hl, hS]
      · rw [Function.update_noteq (Ne.symm hS), h2]

theorem WaitForFrame_signalled (i : Nat) (s s1 : FrameState) (h : WaitForFrame i s = some s1)
    (hk : SignalledWaits s.trace s.g_FenceValues) :
    SignalledWaits s1.trace s1.g_FenceValues := by
  obtain ⟨_, hg, _⟩ := WaitForFrame_spec i s s1 h
  obtain ⟨ls, h1, h2⟩ := WaitForFrame_entries i s s1 h
  rw [hg, h1]
  exact signalledWaits_waits _ ls _ hk fun l hl => ⟨(h2 l hl).1, (h2 l hl).2.2⟩

theorem WaitGPUIdle_signalled (i : Nat) (s s1 : FrameState) (h : WaitGPUIdle i s = some s1)
    (hk : SignalledWaits s.trace s.g_FenceValues) :
    SignalledWaits s1.trace s1.g_FenceValues := by
  obtain ⟨_, hg, _⟩ := WaitGPUIdle_spec i s s1 h
  obtain ⟨lw, h1, h2⟩ := WaitGPUIdle_entries i s s1 h
  rw [hg, h1]
  exact signalledWaits_waits _ lw _ (signalledWaits_signal _ _ hk i _ rfl)
    fun l hl => ⟨(h2 l hl).1, (h2 l hl).2.2⟩

theorem Render_signalled (bb : Nat) (s s1 : FrameState) (h : Render bb s = some s1)
    (hk : SignalledWaits s.trace s.g_FenceValues) :
    SignalledWaits s1.trace s1.g_FenceValues := by
  obtain ⟨_, hg, _⟩ := Render_spec bb s s1 h
  obtain ⟨sw, hw, _, ht⟩ := Render_trace bb s s1 h
  have kw := WaitForFrame_signalled bb _ sw hw hk
  obtain ⟨_, gw, _⟩ := WaitForFrame_spec bb _ sw hw
  simp only at gw
  rw [gw] at kw
  have e : s1.trace = ((sw.trace ++
      (([⟨Event.AllocatorReset bb, sw.completed,
            Function.update s.g_FenceValues bb (asUINT64 (s.g_FenceValues bb + 1)),
            sw.recording⟩,
          ⟨Event.ListReset bb, sw.completed,
            Function.update s.g_FenceValues bb (asUINT64 (s.g_FenceValues bb + 1)),
            sw.recording⟩] : List Logged) ++
        (renderCommands bb).map (fun c => ⟨Event.Record c, sw.completed,
          Function.update s.g_FenceValues bb (asUINT64 (s.g_FenceValues bb + 1)), true⟩) ++
        [⟨Event.ListClose, sw.completed,
            Function.update s.g_FenceValues bb (asUINT64 (s.g_FenceValues bb + 1)), true⟩,
          ⟨Event.ExecuteCommandLists, sw.completed,
            Function.update s.g_FenceValues bb (asUINT64 (s.g_FenceValues bb + 1)), false⟩])) ++
      [⟨Event.Signal bb (asUINT64 (s.g_FenceValues bb + 1)), sw.completed,
            Function.update s.g_FenceValues bb (asUINT64 (s.g_FenceValues bb + 1)), false⟩]) ++
      [⟨Event.Present, sw.completed,
            Function.update s.g_FenceValues bb (asUINT64 (s.g_FenceValues bb + 1)), false⟩] := by
    rw [ht]
    simp only [List.append_assoc, List.cons_append, List.nil_append]
  rw [hg, e]
  refine signalledWaits_quiet _ _ _ (signalledWaits_signal _ _
    (signalledWaits_quiet _ _ _ kw ?_ ?_) bb _ rfl) ?_ ?_
  · intro l hl S c
    simp only [List.mem_append, List.mem_cons, List.mem_singleton, List.not_mem_nil, or_false,
      List.mem_map] at hl
    rcases hl with ((hl | hl) | ⟨c, _, hl⟩) | hl | hl <;> subst hl <;> simp
  · intro l hl S c
    simp only [List.mem_append, List.mem_cons, List.mem_singleton, List.not_mem_nil, or_false,
      List.mem_map] at hl
    rcases hl with ((hl | hl) | ⟨c, _, hl⟩) | hl | hl <;> subst hl <;> simp
  · intro l hl S c
    simp only [List.mem_singleton] at hl
    subst hl; simp
  · intro l hl S c
    simp only [List.mem_singleton] at hl
    subst hl; simp

theorem EndCommandList_signalled (s s1 : FrameState) (h : EndCommandList s = some s1)
    (hk : SignalledWaits s.trace s.g_FenceValues) :
    SignalledWaits s1.trace s1.g_FenceValues := by
  unfold EndCommandList at h
  dsimp only at h
  apply WaitGPUIdle_signalled _ _ s1 h
  simp only [enqueue_trace, log_trace, enqueue_g_FenceValues, log_g_FenceValues,
    List.append_assoc]
  apply signalledWaits_quiet _ _ _ hk
  · intro l hl S c
    simp only [List.cons_append, List.nil_append, List.mem_cons, List.mem_singleton,
      List.not_mem_nil, or_false] at hl
    rcases hl with hl | hl <;> subst hl <;> simp
  · intro l hl S c
    simp only [List.cons_append, List.nil_append, List.mem_cons, List.mem_singleton,
      List.not_mem_nil, or_false] at hl
    rcases hl with hl | hl <;> subst hl <;> simp

theorem Cleanup_signalled (s s1 : FrameState) (h : Cleanup s = some s1)
    (hk : SignalledWaits s.trace s.g_FenceValues) :
    SignalledWaits s1.trace s1.g_FenceValues := by
  unfold Cleanup at h
  split at h
  · exact absurd h (by simp)
  · rename_i sa ha
    split at h
    · exact absurd h (by simp)
    · rename_i sb hb
      simp only [Option.some.injEq] at h
      subst h
      obtain ⟨ga, _, la, a1, a2⟩ := cleanupLoop_entries _ s sa ha
      have ka : SignalledWaits sa.trace sa.g_FenceValues := by
        rw [ga, a1]
        exact signalledWaits_waits _ la _ hk fun l hl => ⟨(a2 l hl).1, (a2 l hl).2.2⟩
      have kb := WaitGPUIdle_signalled 0 sa sb hb ka
      rw [logAll_trace, logAll_g_FenceValues]
      apply signalledWaits_quiet _ _ _ kb
      · intro l hl S c
        simp only [List.mem_map] at hl
        obtain ⟨e, ⟨o, _, rfl⟩, rfl⟩ := hl
        simp
      · intro l hl S c
        simp only [List.mem_map] at hl
        obtain ⟨e, ⟨o, _, rfl⟩, rfl⟩ := hl
        simp

theorem step_signalled (op : Op) (s s1 : FrameState) (h : step op s = some s1)
    (hk : SignalledWaits s.trace s.g_FenceValues) :
    SignalledWaits s1.trace s1.g_FenceValues := by
  cases op with
  | Update =>
    simp only [step, Update] at h
    split at h
    · simp only [Option.some.injEq] at h
      subst h
      rw [logAll_trace, logAll_g_FenceValues]
      apply signalledWaits_quiet _ _ _ hk
      · intro l hl S c
        simp only [List.map_cons, List.map_nil, List.mem_cons, List.mem_singleton,
          List.not_mem_nil, or_false] at hl
        rcases hl with hl | hl | hl <;> subst hl <;> simp
      · intro l hl S c
        simp only [List.map_cons, List.map_nil, List.mem_cons, List.mem_singleton,
          List.not_mem_nil, or_false] at hl
        rcases hl with hl | hl | hl <;> subst hl <;> simp
    · exact absurd h (by simp)
  | Render bb => exact Render_signalled bb s s1 h hk
  | WaitForFrame i => exact WaitForFrame_signalled i s s1 h hk
  | WaitGPUIdle i => exact WaitGPUIdle_signalled i s s1 h hk
  | BeginCommandList =>
    simp only [step, BeginCommandList] at h
    split at h
    · simp only [Option.some.injEq] at h
      subst h
      show SignalledWaits (s.trace ++ [_]) s.g_FenceValues
      apply signalledWaits_quiet _ _ _ hk
      · intro l hl S c
        simp only [List.mem_singleton] at hl
        subst hl; simp
      · intro l hl S c
        simp only [List.mem_singleton] at hl
        subst hl; simp
    · exact absurd h (by simp)
  | EndCommandList => exact EndCommandList_signalled s s1 h hk
  | Cleanup => exact Cleanup_signalled s s1 h hk
  | gpu n =>
    simp only [step, Option.some.injEq] at h
    subst h
    rw [(gpuSteps_fields n s).1, (gpuSteps_fields n s).2.2.2]
    exact hk

theorem run_signalled (ops : List Op) (s s1 : FrameState) (h : run ops s = some s1)
    (hk : SignalledWaits s.trace s.g_FenceValues) :
    SignalledWaits s1.trace s1.g_FenceValues := by
  induction ops generalizing s with
  | nil =>
    simp only [run, Option.some.injEq] at h
    subst h; exact hk
  | cons op ops ih =>
    simp only [run] at h
    split at h
    · exact absurd h (by simp)
    · rename_i sa ha
      exact ih sa h (step_signalled op s sa ha hk)

theorem InitD3D_signalled (env : InitEnv) (bb : Nat) (s0 : FrameState)
    (h : InitD3D env bb = some s0) : SignalledWaits s0.trace s0.g_FenceValues := by
  unfold InitD3D at h
  dsimp only at h
  split at h
  · split at h
    · exact absurd h (by simp)
    · rename_i s7 h7
      split at h
      · exact absurd h (by simp)
      · rename_i s8 h8
        simp only [Option.some.injEq] at h
        subst h
        obtain ⟨g7, _, _, ls, cl, ex, t7, k7, c7, e7⟩ := recordInitialUploads_trace env _ s7 h7
        simp only [log_g_FenceValues, log_trace, initialState, List.nil_append] at g7 t7
        have k0 : SignalledWaits [] (fun _ => 0) := by
          refine ⟨?_, fun S => ⟨0, rfl, rfl⟩⟩
          intro pre l post S c e
          cases pre <;> cases e
        have k7 : SignalledWaits s7.trace s7.g_FenceValues := by
          rw [g7, t7]
          have hq : ∀ t : List Logged,
              (∀ l, l ∈ t → ∀ S c, l.ev ≠ Event.GetCompletedValue S c) →
              (∀ l, l ∈ t → ∀ f v, l.ev ≠ Event.Signal f v) →
              SignalledWaits t (fun _ => 0) := fun t a b => by
            simpa using signalledWaits_quiet [] t _ k0 a b
          apply hq
          · intro l hl S c he
            simp only [List.mem_append, List.mem_cons, List.mem_singleton, List.not_mem_nil,
              or_false] at hl
            rcases hl with (hl | hl) | hl | hl
            · subst hl; cases he
            · have := k7 l hl; rw [he] at this; cases this
            · subst hl; rw [c7] at he; cases he
            · subst hl; rw [e7] at he; cases he
          · intro l hl S c he
            simp only [List.mem_append, List.mem_cons, List.mem_singleton, List.not_mem_nil,
              or_false] at hl
            rcases hl with (hl | hl) | hl | hl
            · subst hl; cases he
            · have := k7 l hl; rw [he] at this; cases this
            · subst hl; rw [c7] at he; cases he
            · subst hl; rw [e7] at he; cases he
        have k8 := WaitGPUIdle_signalled _ s7 s8 h8 k7
        rw [logAll_trace, logAll_g_FenceValues]
        apply signalledWaits_quiet _ _ _ k8
        · intro l hl S c
          simp only [List.map_cons, List.map_nil, List.mem_cons, List.mem_singleton,
            List.not_mem_nil, or_false] at hl
          rcases hl with hl | hl | hl <;> subst hl <;> simp
        · intro l hl S c
          simp only [List.map_cons, List.map_nil, List.mem_cons, List.mem_singleton,
            List.not_mem_nil, or_false] at hl
          rcases hl with hl | hl | hl <;> subst hl <;> simp
  · exact absurd h (by simp)

theorem signalsOn_signals (S : Nat) (t : List Logged) :
    signalsOn S t = (signals t).filterMap fun p => if p.1 = S then some p.2 else none := by
  induction t with
  | nil => rfl
  | cons l t ih =>
    have e1 : signalsOn S (l :: t) = signalsOn S [l] ++ signalsOn S t :=
      signalsOn_append S [l] t
    have e2 : signals (l :: t) = signals [l] ++ signals t := signals_append [l] t
    rw [e1, e2, List.filterMap_append, ih]
    congr 1
    cases he : l.ev with
    | Signal f v =>
      simp only [signalsOn, signals, List.filterMap_cons, List.filterMap_nil, he]
    | _ => simp [signalsOn, signals, he]

theorem run_append (a b : List Op) (s : FrameState) :
    run (a ++ b) s = (run a s).bind (run b) := by
  induction a generalizing s with
  | nil => rfl
  | cons op a ih =>
    simp only [List.cons_append, run]
    cases step op s with
    | none => rfl
    | some s1 => exact ih s1

/-- While fewer than `2^64` values were signalled on a fence, they are
1, 2, 3, ... and strictly increasing. -/
theorem successors_increasing (k : Nat) (hk : k < 2 ^ 64) :
    (successors k).Pairwise (· < ·) := by
  have e : successors k = (List.range k).map (· + 1) := by
    apply List.map_congr_left
    intro j hj
    have := List.mem_range.mp hj
    unfold asUINT64
    omega
  rw [e, List.pairwise_map]
  exact (List.pairwise_lt_range k).imp (by intro a b hab; omega)

/-- C29 as stated fails for "strictly increasing": after `InitD3D`, `2^64 - 2`
calls of `WaitGPUIdle(0)` and one `Render` on back buffer 0, the values
signalled on `g_Fences[0]` end with `2^64 - 1` followed by 0. -/
theorem signalled_values_wrap :
    ∃ s0 s, InitD3D exEnv 0 = some s0 ∧
      run (List.replicate (2 ^ 64 - 2) (Op.WaitGPUIdle 0) ++ [Op.Render 0]) s0 = some s ∧
      (∃ pre, signalsOn 0 s.trace = pre ++ [2 ^ 64 - 1, 0]) ∧
      ¬ (signalsOn 0 s.trace).Pairwise (· < ·) := by
  obtain ⟨s0, sa, s1, h0, hrun, hg, hr, hsig⟩ := fence_target_reaches_max
  have ka := run_signalled _ s0 sa hrun (InitD3D_signalled exEnv 0 s0 h0)
  obtain ⟨k, k1, k2⟩ := ka.2 0
  have e1 : signalsOn 0 s1.trace = signalsOn 0 sa.trace ++ [0] := by
    rw [signalsOn_signals, hsig, List.filterMap_append, ← signalsOn_signals]
    rfl
  have e2 : ∃ pre, signalsOn 0 s1.trace = pre ++ [2 ^ 64 - 1, 0] := by
    cases k with
    | zero =>
      rw [hg] at k2
      exact absurd k2 (by decide)
    | succ j =>
      refine ⟨successors j, ?_⟩
      rw [e1, k1, successors_succ, ← k2, hg]
      simp
  refine ⟨s0, s1, h0, ?_, e2, ?_⟩
  · rw [run_append, hrun]
    simp only [Option.some_bind, run, step, hr]
  · obtain ⟨pre, hp⟩ := e2
    rw [hp, List.pairwise_append]
    intro hc
    have := List.rel_of_pairwise_cons hc.2.1 (List.mem_singleton_self 0)
    omega

/-- C29, amended. Waits are only on values that get signalled: in every
execution made of `InitD3D` followed by any sequence of complete `Update`,
`Render`, `WaitForFrame`, `WaitGPUIdle`, `BeginCommandList`, `EndCommandList`
and `Cleanup` calls and of GPU progress, at every call `WaitForFrame(S)` the
value `g_FenceValues[S]` is either 0 (the fence's initial value) or a value for
which a `Signal` on `g_Fences[S]` has already been enqueued on the command
queue. The values signalled on each fence are the `UINT64` successors of one
another from 0, the last of them being `g_FenceValues[S]`: they are strictly
increasing while fewer than `2^64` values were signalled on the fence. And no
wait is placed on a value the queue will not signal: with the indices passed
in range, every call of the execution returns. -/
theorem waits_on_signalled_values (env : InitEnv) (bb : Nat) (s0 : FrameState)
    (h : InitD3D env bb = some s0) (ops : List Op) :
    (∀ s, run ops s0 = some s →
      WaitsOnSignalled s.trace ∧
      ∀ S, ∃ k, signalsOn S s.trace = successors k ∧ s.g_FenceValues S = asUINT64 k ∧
        (k < 2 ^ 64 → (signalsOn S s.trace).Pairwise (· < ·))) ∧
    ((∀ op, op ∈ ops → op.inRange = true) → ∃ s, run ops s0 = some s) := by
  refine ⟨fun s hs => ?_, fun hops => ?_⟩
  · have hk := run_signalled ops s0 s hs (InitD3D_signalled env bb s0 h)
    refine ⟨hk.1, fun S => ?_⟩
    obtain ⟨k, k1, k2⟩ := hk.2 S
    exact ⟨k, k1, k2, fun hlt => by rw [k1]; exact successors_increasing k hlt⟩
  · obtain ⟨hbb, _, hi, _⟩ := InitD3D_spec env bb s0 h
    obtain ⟨hl, _⟩ := InitD3D_live env bb s0 h
    obtain ⟨s, hs, _⟩ := run_total ops s0 hops (by rw [hi]; exact hbb) (Drains_of_Live _ _ _ hl)
    exact ⟨s, hs⟩

theorem waits_on_signalled_values_witness :
    InitD3D exEnv 0 = some ((InitD3D exEnv 0).get (by decide)) ∧
    ∃ s, run [Op.Update, Op.Render 1, Op.WaitGPUIdle 2, Op.BeginCommandList,
      Op.EndCommandList, Op.Render 2, Op.Cleanup] ((InitD3D exEnv 0).get (by decide)) = some s :=
  ⟨(Option.some_get _).symm,
   (waits_on_signalled_values exEnv 0 _ (Option.some_get _).symm
      [Op.Update, Op.Render 1, Op.WaitGPUIdle 2, Op.BeginCommandList,
        Op.EndCommandList, Op.Render 2, Op.Cleanup]).2 (by decide)⟩

end D3D12Sample
